import Mathlib

/-!
A shallow embedding of rlobj, a loader of Wavefront OBJ/MTL files.

The C sources (`rlobj.c`) parse a NUL-terminated text buffer through a moving
`char *` cursor.  The embedding keeps the cursor as the list of bytes that lie
at and after it; a byte beyond the end of the list reads as NUL, so the
C string under the cursor is the part of the list before its first `0`.
Bytes after that first `0` stand for the memory that follows the terminator,
which the cursor can reach (`IgnoreLine` steps over the terminator).  A
buffer is an arbitrary list, so that what is proved for all buffers holds
whatever follows the terminator.

Floating-point arithmetic is kept abstract (`FloatOps`): the loader only moves
float values around, apart from the decimal reader and the opacity clamp.
It has two instances: the exact arithmetic of the rationals, and `Binary32`,
the arithmetic of `float` with its rounding, its range and NaN.
-/

namespace Rlobj

/-! ## Bytes and libc character classes -/

/-- The bytes of an ASCII string literal. -/
def bytes (s : String) : List Nat := s.toList.map Char.toNat

/-- `isspace` of the C locale: space, `\t`, `\n`, `\v`, `\f`, `\r`. -/
def isspace (c : Nat) : Bool := c == 32 || (decide (9 ≤ c) && decide (c ≤ 13))

/-- `isdigit`: the bytes `'0'..'9'`. -/
def isdigit (c : Nat) : Bool := decide (48 ≤ c) && decide (c ≤ 57)

/-- The byte under the cursor, `*file->data`; NUL beyond the end of the list. -/
def peek : List Nat → Nat
  | [] => 0
  | c :: _ => c

/-- `strncmp(data, lit, strlen(lit)) == 0` for a NUL-free literal `lit`. -/
def strncmp_eq (data lit : List Nat) : Bool := data.take lit.length == lit

/-! ## Float arithmetic -/

/-- The operations on `float` that the sources use. -/
class FloatOps (F : Type) where
  /-- Integer literals and the conversion `(float) c`. -/
  ofInt : Int → F
  add : F → F → F
  mul : F → F → F
  div : F → F → F
  /-- The comparison `a > b`. -/
  gt : F → F → Bool

/-- Exact arithmetic as an instance of the float operations. -/
instance instFloatOpsRat : FloatOps ℚ where
  ofInt i := (i : ℚ)
  add a b := a + b
  mul a b := a * b
  div a b := a / b
  gt a b := decide (a > b)

/-! ## Data model (`rlobj.c` lines 16-57) -/

structure Vector2 (F : Type) where
  x : F
  y : F
deriving DecidableEq

structure Vector3 (F : Type) where
  x : F
  y : F
  z : F
deriving DecidableEq

structure Edge where
  vertex : Int
  texcoord : Int
  normal : Int
deriving DecidableEq

/-- `Face`: the array `edges[3]`. -/
structure Face where
  edges0 : Edge
  edges1 : Edge
  edges2 : Edge
deriving DecidableEq

/-- `f.edges[j]` for `j < 3`. -/
def Face.edges (f : Face) (j : Nat) : Edge :=
  match j with
  | 0 => f.edges0
  | 1 => f.edges1
  | _ => f.edges2

/-- The part of raylib's `Mesh` that the loader fills.  A null buffer is the
empty list. -/
structure Mesh (F : Type) where
  vertexCount : Nat
  triangleCount : Nat
  vertices : List F
  texcoords : List F
  normals : List F
deriving DecidableEq

structure OBJMesh (F : Type) where
  mesh : Mesh F
  mat_hash : Nat
deriving DecidableEq

/-- `OBJMat`; a null `char *` is `none`. -/
structure OBJMat (F : Type) where
  base : Option (List Nat)
  ambient : Vector3 F
  diffuse : Vector3 F
  specular : Vector3 F
  opacity : F
  ambient_map : Option (List Nat)
  diffuse_map : Option (List Nat)
  specular_map : Option (List Nat)
  highlight_map : Option (List Nat)
  alpha_map : Option (List Nat)
  bump_map : Option (List Nat)
  displacement_map : Option (List Nat)
  decal_map : Option (List Nat)
  name_hash : Nat
deriving DecidableEq

structure ValidFloat (F : Type) where
  f : F
  valid : Bool
deriving DecidableEq

structure ValidInt where
  i : Int
  valid : Bool
deriving DecidableEq

structure ValidEdge where
  e : Edge
  valid : Bool
deriving DecidableEq

structure ValidVec3 (F : Type) where
  v : Vector3 F
  valid : Bool
deriving DecidableEq

/-- `GenericFile`: the cursor `data`, as the bytes at and after it. -/
abbrev GenericFile := List Nat

/-- `OBJFile`.  The arrays `vertices`, `faces` and `mats` always have exactly
`vertex_count`, `face_count` and `mat_count` slots (every change is a
`realloc` to the incremented count), so these counts are the list lengths.
`texcoords` and `normals` are replaced by zero-filled arrays in `LoadObjMesh`
while their counts stay `0`, so those counts are fields of their own.  A slot
of `faces` that was allocated and never written is `none`.  A null array is
the empty list. -/
structure OBJFile (F : Type) where
  base : Option (List Nat)
  data : GenericFile
  vertices : List (Vector3 F)
  normals : List (Vector3 F)
  texcoords : List (Vector2 F)
  faces : List (Option Face)
  texcoord_count : Nat
  normal_count : Nat
  mats : List (OBJMat F)
deriving DecidableEq

def OBJFile.vertex_count {F : Type} (file : OBJFile F) : Nat := file.vertices.length

def OBJFile.face_count {F : Type} (file : OBJFile F) : Nat := file.faces.length

def OBJFile.mat_count {F : Type} (file : OBJFile F) : Nat := file.mats.length

/-- What the loader takes from raylib and from the C runtime: the file
system, the directory of a path, and the indeterminate value that the
uninitialised local `mat_hash` holds in the `k`-th call of `LoadObjMesh`. -/
structure Host where
  LoadFileText : List Nat → Option (List Nat)
  GetPrevDirectoryPath : List Nat → List Nat
  mat_hash_uninit : Nat → Nat

/-! ## Helpers (`rlobj.c` lines 59-84) -/

/-- The loop of `hash`: `hash = ((hash << 5) + hash) + c` on `unsigned long`
(64 bits), until the terminating NUL. -/
def hash_loop (h : Nat) : List Nat → Nat
  | [] => h
  | c :: str =>
    if c = 0 then h
    else hash_loop ((((h <<< 5) % 2 ^ 64 + h) % 2 ^ 64 + c) % 2 ^ 64) str

def hash (str : List Nat) : Nat := hash_loop 5381 str

/-- `PutStringOnHeap`: null for the empty string. -/
def PutStringOnHeap (string : List Nat) : Option (List Nat) :=
  if string.length = 0 then none else some string

/-- `AddBase`: `base`, a slash, `path`. -/
def AddBase (path base : List Nat) : List Nat := base ++ 47 :: path

/-! ## Generic reader functions (`rlobj.c` lines 86-193) -/

/-- The `for` loop of `IgnoreLine`: stop on `\n` or NUL. -/
def IgnoreLine_scan : GenericFile → GenericFile
  | [] => []
  | c :: data => if c ≠ 10 ∧ c ≠ 0 then IgnoreLine_scan data else c :: data

/-- `IgnoreLine`: the loop, then one unconditional `file->data++`. -/
def IgnoreLine (file : GenericFile) : GenericFile := (IgnoreLine_scan file).tail

/-- `ClearWhitespace`: the result and the cursor. -/
def ClearWhitespace : GenericFile → Bool × GenericFile
  | [] => (true, [])
  | c :: data =>
    if c = 10 ∨ isspace c = true then
      if c = 10 then (false, c :: data) else ClearWhitespace data
    else (true, c :: data)

/-- The copy loop of `ReadName`: bytes up to the first whitespace or NUL. -/
def ReadName_copy : GenericFile → List Nat × GenericFile
  | [] => ([], [])
  | c :: data =>
    if isspace c = false ∧ c ≠ 0 then ((c :: (ReadName_copy data).1), (ReadName_copy data).2)
    else ([], c :: data)

/-- `ReadName`: the name (a fresh zero-filled string, never null) and the
cursor. -/
def ReadName (file : GenericFile) : List Nat × GenericFile :=
  ReadName_copy (ClearWhitespace file).2

/-- The `for` loop of `ReadFloat`, returning `res * fact` and the cursor.  The
digit test is `(unsigned char)(c - 48) > 9`. -/
def ReadFloat_loop {F : Type} [FloatOps F] (res fact : F) (point_seen : Bool) :
    GenericFile → F × GenericFile
  | [] => (FloatOps.mul res fact, [])
  | c :: data =>
    if c = 0 then (FloatOps.mul res fact, c :: data)
    else if c = 46 then ReadFloat_loop res fact true data
    else if (c + 208) % 256 > 9 then (FloatOps.mul res fact, c :: data)
    else
      ReadFloat_loop
        (FloatOps.add (FloatOps.mul res (FloatOps.ofInt 10))
          (FloatOps.ofInt (((c + 208) % 256 : Nat) : Int)))
        (if point_seen then FloatOps.div fact (FloatOps.ofInt 10) else fact) point_seen data

def ReadFloat {F : Type} [FloatOps F] (file : GenericFile) : F × GenericFile :=
  if peek file = 45 then
    ReadFloat_loop (FloatOps.ofInt 0) (FloatOps.ofInt (-1)) false file.tail
  else ReadFloat_loop (FloatOps.ofInt 0) (FloatOps.ofInt 1) false file

def ReadValidFloat {F : Type} [FloatOps F] (file : GenericFile) : ValidFloat F × GenericFile :=
  if (ClearWhitespace file).1 = false then (⟨FloatOps.ofInt 0, false⟩, (ClearWhitespace file).2)
  else
    (⟨(ReadFloat (ClearWhitespace file).2).1, true⟩,
      (ReadFloat (F := F) (ClearWhitespace file).2).2)

def ReadFloatDefault {F : Type} [FloatOps F] (file : GenericFile) (dflt : F) : F × GenericFile :=
  if (ClearWhitespace file).1 = true ∧ isdigit (peek (ClearWhitespace file).2) = true then
    ReadFloat (ClearWhitespace file).2
  else (dflt, (ClearWhitespace file).2)

/-- Arithmetic on `int`: `x` wrapped around into the 32-bit range
`-2^31 .. 2^31 - 1`, as compilers for the usual targets compute it. -/
def wrapInt (x : Int) : Int := (x + 2 ^ 31) % 2 ^ 32 - 2 ^ 31

/-- The `for` loop of `ReadInt`, with the digit test
`(unsigned char)(c - 48) > 9`. -/
def ReadInt_loop (res : Int) : GenericFile → Int × GenericFile
  | [] => (res, [])
  | c :: data =>
    if c = 0 then (res, c :: data)
    else if (c + 208) % 256 > 9 then (res, c :: data)
    else ReadInt_loop (wrapInt (res * 10 + (((c + 208) % 256 : Nat) : Int))) data

def ReadInt (file : GenericFile) : Int × GenericFile := ReadInt_loop 0 file

def ReadValidInt (file : GenericFile) : ValidInt × GenericFile :=
  if (ClearWhitespace file).1 = false then (⟨0, false⟩, (ClearWhitespace file).2)
  else (⟨(ReadInt (ClearWhitespace file).2).1, true⟩, (ReadInt (ClearWhitespace file).2).2)

def ReadIntDefault (file : GenericFile) (dflt : Int) : Int × GenericFile :=
  if (ClearWhitespace file).1 = true ∧ isdigit (peek (ClearWhitespace file).2) = true then
    ReadInt (ClearWhitespace file).2
  else (dflt, (ClearWhitespace file).2)

def ReadColor {F : Type} [FloatOps F] (file : GenericFile) : ValidVec3 F × GenericFile :=
  let r := ReadValidFloat (F := F) file
  let g := ReadValidFloat (F := F) r.2
  let b := ReadValidFloat (F := F) g.2
  if r.1.valid = true ∧ g.1.valid = true ∧ b.1.valid = true then
    (⟨⟨r.1.f, g.1.f, b.1.f⟩, true⟩, b.2)
  else (⟨⟨FloatOps.ofInt 0, FloatOps.ofInt 0, FloatOps.ofInt 0⟩, false⟩, b.2)

/-! ## Material block decoder (`rlobj.c` lines 195-287) -/

/-- The record `LoadMtlMat` starts from: `{0}` with `opacity = 1.f`. -/
def LoadMtlMat_init {F : Type} [FloatOps F] : OBJMat F where
  base := none
  ambient := ⟨FloatOps.ofInt 0, FloatOps.ofInt 0, FloatOps.ofInt 0⟩
  diffuse := ⟨FloatOps.ofInt 0, FloatOps.ofInt 0, FloatOps.ofInt 0⟩
  specular := ⟨FloatOps.ofInt 0, FloatOps.ofInt 0, FloatOps.ofInt 0⟩
  opacity := FloatOps.ofInt 1
  ambient_map := none
  diffuse_map := none
  specular_map := none
  highlight_map := none
  alpha_map := none
  bump_map := none
  displacement_map := none
  decal_map := none
  name_hash := 0

/-- The `map_` branch of `LoadMtlMat`, after `file->data += 4`. -/
def LoadMtlMat_map {F : Type} (data : GenericFile) (mat : OBJMat F) : GenericFile × OBJMat F :=
  if peek data = 75 then
    if peek data.tail = 97 then
      ((ReadName data.tail.tail).2, { mat with ambient_map := some (ReadName data.tail.tail).1 })
    else if peek data.tail = 100 then
      ((ReadName data.tail.tail).2, { mat with diffuse_map := some (ReadName data.tail.tail).1 })
    else if peek data.tail = 115 then
      ((ReadName data.tail.tail).2, { mat with specular_map := some (ReadName data.tail.tail).1 })
    else (data.tail, mat)
  else if peek data = 100 then
    ((ReadName data.tail).2, { mat with alpha_map := some (ReadName data.tail).1 })
  else if strncmp_eq data (bytes "Ns") = true then
    ((ReadName (data.drop 2)).2, { mat with highlight_map := some (ReadName (data.drop 2)).1 })
  else if strncmp_eq data (bytes "bump") = true then
    ((ReadName (data.drop 4)).2, { mat with bump_map := some (ReadName (data.drop 4)).1 })
  else (data, mat)

/-- One pass through the body of the `while` loop of `LoadMtlMat`, up to but
not including the final `IgnoreLine`; `none` is the `break`. -/
def LoadMtlMat_body {F : Type} [FloatOps F] (data : GenericFile) (seen_newmtl : Bool)
    (mat : OBJMat F) : Option (GenericFile × Bool × OBJMat F) :=
  if peek data = 75 then
    if peek data.tail = 97 then
      let a := ReadColor (F := F) data.tail.tail
      some (a.2, seen_newmtl, if a.1.valid = true then { mat with ambient := a.1.v } else mat)
    else if peek data.tail = 100 then
      let d := ReadColor (F := F) data.tail.tail
      some (d.2, seen_newmtl, if d.1.valid = true then { mat with diffuse := d.1.v } else mat)
    else if peek data.tail = 115 then
      let s := ReadColor (F := F) data.tail.tail
      some (s.2, seen_newmtl, if s.1.valid = true then { mat with specular := s.1.v } else mat)
    else some (data.tail, seen_newmtl, mat)
  else if peek data = 100 then
    let o := ReadValidFloat (F := F) data.tail
    let opacity := if o.1.valid = true then o.1.f else mat.opacity
    some (o.2, seen_newmtl,
      { mat with opacity := if FloatOps.gt opacity (FloatOps.ofInt 1) = true then FloatOps.ofInt 1 else opacity })
  else if strncmp_eq data (bytes "newmtl") = true then
    if seen_newmtl = true then none
    else
      some ((ReadName (data.drop 6)).2, true, { mat with name_hash := hash (ReadName (data.drop 6)).1 })
  else if strncmp_eq data (bytes "map_") = true then
    some ((LoadMtlMat_map (data.drop 4) mat).1, seen_newmtl, (LoadMtlMat_map (data.drop 4) mat).2)
  else if strncmp_eq data (bytes "bump") = true then
    some ((ReadName (data.drop 4)).2, seen_newmtl, { mat with bump_map := some (ReadName (data.drop 4)).1 })
  else if strncmp_eq data (bytes "disp") = true then
    some ((ReadName (data.drop 4)).2, seen_newmtl,
      { mat with displacement_map := some (ReadName (data.drop 4)).1 })
  else if strncmp_eq data (bytes "decal") = true then
    some ((ReadName (data.drop 5)).2, seen_newmtl, { mat with decal_map := some (ReadName (data.drop 5)).1 })
  else some (data, seen_newmtl, mat)

/-- The `while (*file->data)` loop of `LoadMtlMat`.  Every pass that does not
leave the loop ends in `IgnoreLine`, which moves the cursor, so a number of
passes above the length of the input is never used up. -/
def LoadMtlMat_loop {F : Type} [FloatOps F] :
    Nat → GenericFile → Bool → OBJMat F → OBJMat F × GenericFile
  | 0, data, _, mat => (mat, data)
  | n + 1, data, seen_newmtl, mat =>
    if peek data = 0 then (mat, data)
    else
      match LoadMtlMat_body data seen_newmtl mat with
      | none => (mat, data)
      | some r => LoadMtlMat_loop n (IgnoreLine r.1) r.2.1 r.2.2

def LoadMtlMat {F : Type} [FloatOps F] (file : GenericFile) : OBJMat F × GenericFile :=
  LoadMtlMat_loop (file.length + 1) file false LoadMtlMat_init

/-- The `while (*mtl.data)` loop of `ReadMtl`. -/
def ReadMtl_loop {F : Type} [FloatOps F] :
    Nat → GenericFile → Option (List Nat) → List (OBJMat F) → List (OBJMat F)
  | 0, _, _, mats => mats
  | n + 1, mtl, base, mats =>
    if peek mtl = 0 then mats
    else
      ReadMtl_loop n (LoadMtlMat (F := F) mtl).2 base
        (mats ++ [{ (LoadMtlMat (F := F) mtl).1 with base := base }])

/-- `ReadMtl`; the returned file name is only freed by the caller. -/
def ReadMtl {F : Type} [FloatOps F] (host : Host) (file : OBJFile F) (filename : List Nat) :
    OBJFile F :=
  let filename := match file.base with
    | some base => AddBase filename base
    | none => filename
  match host.LoadFileText filename with
  | none => file
  | some data =>
    { file with
      mats := ReadMtl_loop (data.length + 1) data
        (PutStringOnHeap (host.GetPrevDirectoryPath filename)) file.mats }

/-! ## OBJ reader functions (`rlobj.c` lines 289-397) -/

def ReadVertex {F : Type} [FloatOps F] (file : OBJFile F) : OBJFile F :=
  let vX := ReadValidFloat (F := F) file.data
  let vY := ReadValidFloat (F := F) vX.2
  let vZ := ReadValidFloat (F := F) vY.2
  if ¬ (vX.1.valid = true ∧ vY.1.valid = true ∧ vZ.1.valid = true) then { file with data := vZ.2 }
  else
    { file with
      data := (ReadFloatDefault (F := F) vZ.2 (FloatOps.ofInt 1)).2
      vertices := file.vertices ++ [⟨vX.1.f, vY.1.f, vZ.1.f⟩] }

/-- `ReadTextureCoord`.  The `realloc` to `texcoord_count + 1` slots keeps the
first `texcoord_count` slots of the old array. -/
def ReadTextureCoord {F : Type} [FloatOps F] (file : OBJFile F) : OBJFile F :=
  let tU := ReadValidFloat (F := F) file.data
  let tV := ReadFloatDefault (F := F) tU.2 (FloatOps.ofInt 0)
  let w := ReadFloatDefault (F := F) tV.2 (FloatOps.ofInt 0)
  if tU.1.valid = false then { file with data := w.2 }
  else
    { file with
      data := w.2
      texcoords := file.texcoords.take file.texcoord_count ++ [⟨tU.1.f, tV.1⟩]
      texcoord_count := file.texcoord_count + 1 }

/-- `ReadNormal`.  The `realloc` to `normal_count + 1` slots keeps the first
`normal_count` slots of the old array. -/
def ReadNormal {F : Type} [FloatOps F] (file : OBJFile F) : OBJFile F :=
  let nX := ReadValidFloat (F := F) file.data
  let nY := ReadValidFloat (F := F) nX.2
  let nZ := ReadValidFloat (F := F) nY.2
  if ¬ (nX.1.valid = true ∧ nY.1.valid = true ∧ nZ.1.valid = true) then { file with data := nZ.2 }
  else
    { file with
      data := nZ.2
      normals := file.normals.take file.normal_count ++ [⟨nX.1.f, nY.1.f, nZ.1.f⟩]
      normal_count := file.normal_count + 1 }

/-- The value `(ValidEdge){{}, false}`. -/
def InvalidEdge : ValidEdge := ⟨⟨0, 0, 0⟩, false⟩

def ReadEdge (file : GenericFile) : ValidEdge × GenericFile :=
  let v := ReadValidInt file
  if v.1.valid = false then (InvalidEdge, v.2)
  else if peek v.2 = 47 then
    let vt := ReadIntDefault v.2.tail 0
    if peek vt.2 = 47 then
      let vn := ReadValidInt vt.2.tail
      if vn.1.valid = false then (InvalidEdge, vn.2)
      else (⟨⟨v.1.i, if vt.1 = 0 then 1 else vt.1, vn.1.i⟩, true⟩, vn.2)
    else if vt.1 = 0 then (InvalidEdge, vt.2)
    else (⟨⟨v.1.i, 1, vt.1⟩, true⟩, vt.2)
  else (⟨⟨v.1.i, 0, 0⟩, true⟩, v.2)

/-- The triangulation loop of `ReadFace`, `while (isdigit(*file->data.data))`,
with the local face `f`.  The `realloc` adds one slot, which stays unwritten
when the edge is invalid; the store `file->faces[++fc] = f` goes to that last
slot.  Every pass reads at least the digit under the cursor, so a number of
passes above the length of the input is never used up. -/
def ReadFace_loop : Nat → GenericFile → List (Option Face) → Face →
    GenericFile × List (Option Face)
  | 0, data, faces, _ => (data, faces)
  | n + 1, data, faces, f =>
    if isdigit (peek data) = true then
      if (ReadEdge data).1.valid = true then
        ReadFace_loop n (ClearWhitespace (ReadEdge data).2).2
          (faces ++ [some ⟨f.edges0, f.edges2, (ReadEdge data).1.e⟩])
          ⟨f.edges0, f.edges2, (ReadEdge data).1.e⟩
      else ((ReadEdge data).2, faces ++ [none])
    else (data, faces)

def ReadFace {F : Type} (file : OBJFile F) : OBJFile F :=
  let e0 := ReadEdge file.data
  if e0.1.valid = false then { file with data := e0.2 }
  else
    let e1 := ReadEdge e0.2
    if e1.1.valid = false then { file with data := e1.2 }
    else
      let e2 := ReadEdge e1.2
      if e2.1.valid = false then { file with data := e2.2 }
      else
        let r := ReadFace_loop ((ClearWhitespace e2.2).2.length + 1) (ClearWhitespace e2.2).2
          (file.faces ++ [some ⟨e0.1.e, e1.1.e, e2.1.e⟩]) ⟨e0.1.e, e1.1.e, e2.1.e⟩
        { file with data := r.1, faces := r.2 }

/-! ## Mesh assembler (`rlobj.c` lines 399-474) -/

/-- One pass through the body of the `while` loop of `LoadObjMesh`, up to but
not including the final `IgnoreLine`; `none` is the `break`. -/
def LoadObjMesh_body {F : Type} [FloatOps F] (host : Host) (file : OBJFile F) (seen_o : Bool)
    (mat_hash : Nat) : Option (OBJFile F × Bool × Nat) :=
  if peek file.data = 118 then
    if isspace (peek file.data.tail) = true then
      some (ReadVertex { file with data := file.data.tail.tail }, seen_o, mat_hash)
    else if peek file.data.tail = 116 then
      some (ReadTextureCoord { file with data := file.data.tail.tail }, seen_o, mat_hash)
    else if peek file.data.tail = 110 then
      some (ReadNormal { file with data := file.data.tail.tail }, seen_o, mat_hash)
    else some ({ file with data := file.data.tail }, seen_o, mat_hash)
  else if peek file.data = 102 then
    some (ReadFace { file with data := file.data.tail }, seen_o, mat_hash)
  else if peek file.data = 111 then
    if seen_o = true then none else some (file, true, mat_hash)
  else if strncmp_eq file.data (bytes "usemtl") = true then
    some ({ file with data := (ReadName (file.data.drop 6)).2 }, seen_o,
      hash (ReadName (file.data.drop 6)).1)
  else if strncmp_eq file.data (bytes "mtllib") = true then
    some (ReadMtl host { file with data := (ReadName (file.data.drop 6)).2 }
      (ReadName (file.data.drop 6)).1, seen_o, mat_hash)
  else some (file, seen_o, mat_hash)

/-- The `while (*file->data.data)` loop of `LoadObjMesh`.  Every pass that
does not leave the loop ends in `IgnoreLine`, which moves the cursor, so a
number of passes above the length of the input is never used up. -/
def LoadObjMesh_loop {F : Type} [FloatOps F] (host : Host) :
    Nat → OBJFile F → Bool → Nat → OBJFile F × Nat
  | 0, file, _, mat_hash => (file, mat_hash)
  | n + 1, file, seen_o, mat_hash =>
    if peek file.data = 0 then (file, mat_hash)
    else
      match LoadObjMesh_body host file seen_o mat_hash with
      | none => (file, mat_hash)
      | some r => LoadObjMesh_loop host n { r.1 with data := IgnoreLine r.1.data } r.2.1 r.2.2

/-- The read `arr[i]` with an `int` index: `none` outside the array. -/
def readAt {α : Type} (arr : List α) (i : Int) : Option α :=
  if 0 ≤ i then arr.get? i.toNat else none

/-- The body of the inner `for` loop over `j` (lines 453-469): corner `j` of
face `i` is copied into the three buffers.  `none` when a read falls outside
an array or the face slot was never written. -/
def LoadObjMesh_corner {F : Type} (file : OBJFile F) (i j : Nat) (m : Mesh F) :
    Option (Mesh F) :=
  match file.faces.get? i with
  | some (some face) =>
    match readAt file.vertices ((face.edges j).vertex - 1),
        readAt file.texcoords ((face.edges j).texcoord - 1),
        readAt file.normals ((face.edges j).normal - 1) with
    | some v, some t, some n =>
      some { m with
        vertices := ((m.vertices.set (i * 9 + j * 3) v.x).set (i * 9 + j * 3 + 1) v.y).set
          (i * 9 + j * 3 + 2) v.z
        texcoords := (m.texcoords.set (i * 6 + j * 2) t.x).set (i * 6 + j * 2 + 1) t.y
        normals := ((m.normals.set (i * 9 + j * 3) n.x).set (i * 9 + j * 3 + 1) n.y).set
          (i * 9 + j * 3 + 2) n.z }
    | _, _, _ => none
  | _ => none

/-- The inner loop `for (int j = 0; j < 3; j++)`. -/
def LoadObjMesh_face {F : Type} (file : OBJFile F) (i : Nat) (m : Mesh F) : Option (Mesh F) :=
  (LoadObjMesh_corner file i 0 m).bind fun m0 =>
    (LoadObjMesh_corner file i 1 m0).bind fun m1 => LoadObjMesh_corner file i 2 m1

/-- The outer loop `for (int i = 0; i < file->face_count; i++)`, with `n`
faces left to do from face `i`. -/
def LoadObjMesh_faces {F : Type} (file : OBJFile F) : Nat → Nat → Mesh F → Option (Mesh F)
  | 0, _, m => some m
  | n + 1, i, m => (LoadObjMesh_face file i m).bind fun m1 => LoadObjMesh_faces file n (i + 1) m1

/-- Lines 436-441 of `LoadObjMesh`: `texcoords` and `normals` are replaced by
zero-filled arrays of `vertex_count` slots when their count is `0` or the
array is null. -/
def LoadObjMesh_fill {F : Type} [FloatOps F] (file : OBJFile F) : OBJFile F :=
  let file1 : OBJFile F :=
    if file.texcoord_count = 0 ∨ file.texcoords.isEmpty = true then
      { file with
        texcoords := List.replicate file.vertex_count ⟨FloatOps.ofInt 0, FloatOps.ofInt 0⟩ }
    else file
  if file1.normal_count = 0 ∨ file1.normals.isEmpty = true then
    { file1 with
      normals := List.replicate file1.vertex_count
        ⟨FloatOps.ofInt 0, FloatOps.ofInt 0, FloatOps.ofInt 0⟩ }
  else file1

/-- Lines 434-473 of `LoadObjMesh`: the mesh built from the parser state, and
the state with its zero-filled `texcoords` and `normals`.  The mesh is `none`
when the copy loop reads outside an array. -/
def LoadObjMesh_assemble {F : Type} [FloatOps F] (file : OBJFile F) :
    Option (Mesh F) × OBJFile F :=
  if file.vertex_count ≠ 0 then
    (LoadObjMesh_faces (LoadObjMesh_fill file) (LoadObjMesh_fill file).face_count 0
      { vertexCount := (LoadObjMesh_fill file).face_count * 3
        triangleCount := (LoadObjMesh_fill file).face_count
        vertices := List.replicate ((LoadObjMesh_fill file).face_count * 3 * 3) (FloatOps.ofInt 0)
        texcoords := List.replicate ((LoadObjMesh_fill file).face_count * 3 * 2) (FloatOps.ofInt 0)
        normals := List.replicate ((LoadObjMesh_fill file).face_count * 3 * 3) (FloatOps.ofInt 0) },
      LoadObjMesh_fill file)
  else (some ⟨0, 0, [], [], []⟩, file)

/-- `LoadObjMesh`, with the indeterminate start value of `mat_hash`. -/
def LoadObjMesh {F : Type} [FloatOps F] (host : Host) (file : OBJFile F) (mat_hash : Nat) :
    Option (OBJMesh F) × OBJFile F :=
  let r := LoadObjMesh_loop host (file.data.length + 1) file false mat_hash
  ((LoadObjMesh_assemble r.1).1.map fun m => ⟨m, r.2⟩, (LoadObjMesh_assemble r.1).2)

/-! ## Model builder (`rlobj.c` lines 494-579) -/

/-- The part of raylib's `Model` that the loader fills.  `materials[i]` is
built by raylib calls from the material record kept here. -/
structure Model (F : Type) where
  meshes : List (Mesh F)
  meshCount : Nat
  materialCount : Nat
  materials : List (OBJMat F)
  meshMaterial : List Int
deriving DecidableEq

/-- The `while (*file.data.data)` loop of `LoadObjDry`; `k` counts the calls
of `LoadObjMesh`.  `none` when a call reads outside an array. -/
def LoadObjDry_loop {F : Type} [FloatOps F] (host : Host) :
    Nat → Nat → OBJFile F → List (OBJMesh F) → Option (List (OBJMesh F) × OBJFile F)
  | 0, _, file, meshes => some (meshes, file)
  | n + 1, k, file, meshes =>
    if peek file.data = 0 then some (meshes, file)
    else
      match LoadObjMesh host file (host.mat_hash_uninit k) with
      | (none, _) => none
      | (some mesh, file1) => LoadObjDry_loop host n (k + 1) file1 (meshes ++ [mesh])

/-- The inner loop of lines 549-552 for one mesh: `cur` is the value of
`model.meshMaterial[i]` so far, `j` the index of the head of the list. -/
def LoadObjDry_match {F : Type} (mat_hash : Nat) : List (OBJMat F) → Nat → Int → Int
  | [], _, cur => cur
  | mat :: mats, j, cur =>
    LoadObjDry_match mat_hash mats (j + 1) (if mat.name_hash = mat_hash then (j : Int) else cur)

/-- Lines 548-554: `model.meshMaterial`, zero-filled by `RL_CALLOC` and then
written by the two loops. -/
def LoadObjDry_meshMaterial {F : Type} (meshes : List (OBJMesh F)) (mats : List (OBJMat F)) :
    List Int :=
  meshes.map fun mesh => LoadObjDry_match mesh.mat_hash mats 0 0

/-- The parser state `LoadObjDry` starts from (lines 501-503). -/
def LoadObjDry_file {F : Type} (host : Host) (filename data : List Nat) : OBJFile F where
  base := PutStringOnHeap (host.GetPrevDirectoryPath filename)
  data := data
  vertices := []
  normals := []
  texcoords := []
  faces := []
  texcoord_count := 0
  normal_count := 0
  mats := []

def LoadObjDry {F : Type} [FloatOps F] (host : Host) (filename : List Nat) : Option (Model F) :=
  match host.LoadFileText filename with
  | none => some ⟨[], 0, 0, [], []⟩
  | some data =>
    (LoadObjDry_loop host (data.length + 1) 0 (LoadObjDry_file host filename data) []).map fun r =>
      { meshes := r.1.map fun mesh => mesh.mesh
        meshCount := r.1.length
        materialCount := r.2.mat_count
        materials := r.2.mats
        meshMaterial := LoadObjDry_meshMaterial r.1 r.2.mats }

/-- `LoadObj`; the upload of the meshes to the GPU is not modelled. -/
def LoadObj {F : Type} [FloatOps F] (host : Host) (filename : List Nat) : Option (Model F) :=
  (LoadObjDry (F := F) host filename).map fun obj =>
    if obj.materialCount = 0 then { obj with materialCount := 1 } else obj


/-! ## Observers used to state the claims -/

/-- The name read by the last `usemtl` directive that the parse loop of one
`LoadObjMesh` call handles, and `last` when it handles none.  This follows
`LoadObjMesh_loop` pass by pass and keeps the name that the `usemtl` branch
reads, where the loop keeps only its hash. -/
def LoadObjMesh_usemtl {F : Type} [FloatOps F] (host : Host) :
    Nat → OBJFile F → Bool → Option (List Nat) → Option (List Nat)
  | 0, _, _, last => last
  | n + 1, file, seen_o, last =>
    if peek file.data = 0 then last
    else
      match LoadObjMesh_body host file seen_o 0 with
      | none => last
      | some r =>
        LoadObjMesh_usemtl host n { r.1 with data := IgnoreLine r.1.data } r.2.1
          (if strncmp_eq file.data (bytes "usemtl") = true then
            some (ReadName (file.data.drop 6)).1
          else last)

/-- A host whose file system holds the geometry file `a.obj` with content
`obj` and the material file `m.mtl` with content `mtl`, whose
`GetPrevDirectoryPath` gives the empty path, and in which an uninitialised
`mat_hash` reads as `0`. -/
def twoFileHost (obj mtl : List Nat) : Host where
  LoadFileText name :=
    if name = bytes "a.obj" then some obj else if name = bytes "m.mtl" then some mtl else none
  GetPrevDirectoryPath _ := []
  mat_hash_uninit _ := 0

/-- A geometry file that loads `m.mtl` and uses the material `Ad`. -/
def firstMatchObj : List Nat := bytes "mtllib m.mtl\nusemtl Ad\n"

/-- A material file that declares `Ad` and then `BC`, two names with the same
hash. -/
def firstMatchMtl : List Nat := bytes "newmtl Ad\nnewmtl BC\n"

/-- A geometry file with two object groups, `A` and `B`, of one triangle
each. -/
def twoGroupsObj : List Nat :=
  bytes ("o A\nv 0 0 0\nv 1 0 0\nv 0 1 0\nvt 0 0\nvn 0 0 1\nf 1/1/1 2/1/1 3/1/1\n" ++
    "o B\nf 3/1/1 2/1/1 1/1/1\n")

/-- A parser state with cursor `data` and nothing read yet. -/
def sampleFile (data : List Nat) : OBJFile ℚ :=
  ⟨none, data, [], [], [], [], 0, 0, []⟩

/-- Two material records that differ from the initial record in the name hash
only: the first has the hash `7`, the second the hash of `Ad`. -/
def sampleMats : List (OBJMat ℚ) :=
  [{ (LoadMtlMat_init : OBJMat ℚ) with name_hash := 7 },
   { (LoadMtlMat_init : OBJMat ℚ) with name_hash := hash (bytes "Ad") }]

/-! ## Name tokens -/

/-- A name token: bytes that are neither whitespace nor NUL. -/
def IsToken (t : List Nat) : Prop := ∀ c ∈ t, isspace c = false ∧ c ≠ 0

instance (t : List Nat) : Decidable (IsToken t) := by
  unfold IsToken
  infer_instance

/-- The byte under the cursor ends a token: whitespace or NUL. -/
def endsToken (rest : List Nat) : Prop := isspace (peek rest) = true ∨ peek rest = 0

/-- Blanks: whitespace bytes other than the newline. -/
def IsBlank (s : List Nat) : Prop := ∀ c ∈ s, isspace c = true ∧ c ≠ 10

instance (s : List Nat) : Decidable (IsBlank s) := by
  unfold IsBlank
  infer_instance

/-- Decimal digits. -/
def IsDigits (ds : List Nat) : Prop := ∀ c ∈ ds, isdigit c = true

instance (ds : List Nat) : Decidable (IsDigits ds) := by
  unfold IsDigits
  infer_instance

/-- The bytes `r` are a corner reference that stands for the edge `e`: `r`
starts with a digit and, followed by whitespace or the end of the text,
`ReadEdge` decodes it to the valid edge `e` and stops right after it. -/
def DecodesTo (r : List Nat) (e : Edge) : Prop :=
  isdigit (peek r) = true ∧ ∀ rest, endsToken rest → ReadEdge (r ++ rest) = (⟨e, true⟩, rest)

/-- The text of a face line after the `f`: each corner reference `x.2.1`
preceded by its blanks `x.1`, then `rest`. -/
def faceLine : List (List Nat × List Nat × Edge) → List Nat → List Nat
  | [], rest => rest
  | x :: xs, rest => x.1 ++ (x.2.1 ++ faceLine xs rest)

/-- The triangles `(c0, c1, c2), (c0, c2, c3), ...` of the fan at `c0` over the
corners `c1, c2, c3, ...`. -/
def fanFrom (c0 : Edge) : Edge → List Edge → List Face
  | _, [] => []
  | c1, c2 :: cs => ⟨c0, c1, c2⟩ :: fanFrom c0 c2 cs

/-- Fan triangulation of the corners `c0, c1, ..., c(N-1)`: the triangles
`(c0, c(k+1), c(k+2))` for `k = 0, ..., N-3`, in this order. -/
def fanTriangles : List Edge → List Face
  | c0 :: c1 :: cs => fanFrom c0 c1 cs
  | _ => []

/-- What a face line must satisfy: every corner reference is preceded by at
least one blank and decodes to its edge. -/
def FaceLineOk (refs : List (List Nat × List Nat × Edge)) : Prop :=
  ∀ x ∈ refs, IsBlank x.1 ∧ x.1 ≠ [] ∧ DecodesTo x.2.1 x.2.2

/-- The byte under the cursor stops `ReadInt`. -/
def stopsInt (rest : List Nat) : Prop := peek rest = 0 ∨ (peek rest + 208) % 256 > 9

/-- The corner references of the quad `f 1/1/1 2/2/1 3/3/1 4/4/1`. -/
def quadRefs : List (List Nat × List Nat × Edge) :=
  [([32], bytes "1/1/1", ⟨1, 1, 1⟩), ([32], bytes "2/2/1", ⟨2, 2, 1⟩),
   ([32], bytes "3/3/1", ⟨3, 3, 1⟩), ([32], bytes "4/4/1", ⟨4, 4, 1⟩)]

/-- The position, texture coordinate and normal that corner `j` of face `i`
refers to: the entries with the indices of the edge, less one. -/
def cornerData {F : Type} (file : OBJFile F) (i j : Nat) :
    Option (Vector3 F × Vector2 F × Vector3 F) :=
  match file.faces.get? i with
  | some (some face) =>
    match readAt file.vertices ((face.edges j).vertex - 1),
        readAt file.texcoords ((face.edges j).texcoord - 1),
        readAt file.normals ((face.edges j).normal - 1) with
    | some v, some t, some n => some (v, t, n)
    | _, _, _ => none
  | _ => none

/-- The buffers of `m` hold the data of corner `j` of face `i` at the places
of that corner. -/
def CornerOk {F : Type} (file : OBJFile F) (m : Mesh F) (i j : Nat) : Prop :=
  ∃ v t n, cornerData file i j = some (v, t, n) ∧
    m.vertices[i * 9 + j * 3]? = some v.x ∧ m.vertices[i * 9 + j * 3 + 1]? = some v.y ∧
    m.vertices[i * 9 + j * 3 + 2]? = some v.z ∧
    m.texcoords[i * 6 + j * 2]? = some t.x ∧ m.texcoords[i * 6 + j * 2 + 1]? = some t.y ∧
    m.normals[i * 9 + j * 3]? = some n.x ∧ m.normals[i * 9 + j * 3 + 1]? = some n.y ∧
    m.normals[i * 9 + j * 3 + 2]? = some n.z

/-- The buffers of `m` have the sizes for `k` faces, and hold the data of all
corners before corner `j` of face `i`. -/
def FilledUpTo {F : Type} (file : OBJFile F) (k : Nat) (m : Mesh F) (i j : Nat) : Prop :=
  m.vertices.length = k * 3 * 3 ∧ m.texcoords.length = k * 3 * 2 ∧ m.normals.length = k * 3 * 3 ∧
    ∀ i' j', j' < 3 → (i' < i ∨ (i' = i ∧ j' < j)) → CornerOk file m i' j'

/-- The corners of face `i` refer to entries that exist: positions in
`1..vertex_count`, texture coordinates in `1..texcoord_count` and normals in
`1..normal_count`, with `vertex_count` in place of a count that is `0`. -/
def FaceInRange {F : Type} (file : OBJFile F) (face : Face) : Prop :=
  ∀ j, j < 3 →
    1 ≤ (face.edges j).vertex ∧ (face.edges j).vertex ≤ (file.vertex_count : Int) ∧
    1 ≤ (face.edges j).texcoord ∧
    (face.edges j).texcoord ≤
      ((if file.texcoord_count = 0 then file.vertex_count else file.texcoord_count : Nat) : Int) ∧
    1 ≤ (face.edges j).normal ∧
    (face.edges j).normal ≤
      ((if file.normal_count = 0 then file.vertex_count else file.normal_count : Nat) : Int)

instance {F : Type} (file : OBJFile F) (face : Face) : Decidable (FaceInRange file face) := by
  unfold FaceInRange
  infer_instance

/-- A parser state with three positions, one texture coordinate, one normal
and the face `1/1/1 2/1/1 3/1/1`. -/
def triangleState : OBJFile ℚ where
  base := none
  data := []
  vertices := [⟨0, 0, 0⟩, ⟨1, 0, 0⟩, ⟨0, 1, 0⟩]
  normals := [⟨0, 0, 1⟩]
  texcoords := [⟨0, 0⟩]
  faces := [some ⟨⟨1, 1, 1⟩, ⟨2, 1, 1⟩, ⟨3, 1, 1⟩⟩]
  texcoord_count := 1
  normal_count := 1
  mats := []

/-- The arrays `texcoords` and `normals` have at least as many slots as their
counts say. -/
def ArraysOk {F : Type} (file : OBJFile F) : Prop :=
  file.texcoord_count ≤ file.texcoords.length ∧ file.normal_count ≤ file.normals.length

instance {F : Type} (file : OBJFile F) : Decidable (ArraysOk file) := by
  unfold ArraysOk
  infer_instance

/-- The parser states in which the calls of `LoadObjMesh` start, in the loop
of `LoadObjDry`: the `i`-th state is the one the `i`-th mesh is read from. -/
def LoadObjDry_states {F : Type} [FloatOps F] (host : Host) :
    Nat → Nat → OBJFile F → List (OBJFile F)
  | 0, _, _ => []
  | n + 1, k, file =>
    if peek file.data = 0 then []
    else file :: LoadObjDry_states host n (k + 1) (LoadObjMesh host file (host.mat_hash_uninit k)).2

/-- A material file that declares `X` and then `Ad`. -/
def crossMtl : List Nat := bytes "newmtl X\nnewmtl Ad\n"

/-- The result of the loop of `LoadObjDry` on the file system of `host`, for
the geometry file `a.obj` with content `obj`; the empty result when the loop
has none. -/
def runOf (host : Host) (obj : List Nat) : List (OBJMesh ℚ) × OBJFile ℚ :=
  (LoadObjDry_loop host (obj.length + 1) 0 (LoadObjDry_file host (bytes "a.obj") obj) []).getD
    ([], sampleFile [])

/-- The bytes of a decimal number after its sign: digits and points. -/
def IsNumBody (s : List Nat) : Prop := ∀ c ∈ s, isdigit c = true ∨ c = 46

instance (s : List Nat) : Decidable (IsNumBody s) := by
  unfold IsNumBody
  infer_instance

/-- A decimal number as it stands in a line: an optional minus sign, then
digits and points; not empty. -/
def IsNumber (s : List Nat) : Prop :=
  s ≠ [] ∧ IsNumBody (if peek s = 45 then s.tail else s)

instance (s : List Nat) : Decidable (IsNumber s) := by
  unfold IsNumber
  infer_instance

/-- The byte under the cursor stops `ReadFloat`. -/
def stopsFloat (rest : List Nat) : Prop :=
  peek rest = 0 ∨ (peek rest ≠ 46 ∧ (peek rest + 208) % 256 > 9)

/-- The text of a line of number fields: each number `x.2` preceded by its
blanks `x.1`, then `rest`. -/
def fieldsText : List (List Nat × List Nat) → List Nat → List Nat
  | [], rest => rest
  | x :: xs, rest => x.1 ++ (x.2 ++ fieldsText xs rest)

/-- What the fields of a line must satisfy: every number is preceded by at
least one blank. -/
def FieldsOk (fields : List (List Nat × List Nat)) : Prop :=
  ∀ x ∈ fields, IsBlank x.1 ∧ x.1 ≠ [] ∧ IsNumber x.2

instance (fields : List (List Nat × List Nat)) : Decidable (FieldsOk fields) := by
  unfold FieldsOk
  infer_instance

/-- The number that a string of decimal digits stands for. -/
def decVal (ds : List Nat) : Nat := ds.foldl (fun v d => v * 10 + (d - 48)) 0

/-- The bytes of one line without its end: no newline and no NUL. -/
def IsLine (l : List Nat) : Prop := ∀ c ∈ l, c ≠ 10 ∧ c ≠ 0

instance (l : List Nat) : Decidable (IsLine l) := by
  unfold IsLine
  infer_instance

/-- A block of a material library as its text shows it: after `newmtl` the
blanks `blanks` and the name `name`, then `trail` up to the end of that line,
and the lines `body` that follow, each ending in a newline. -/
structure MtlBlock where
  blanks : List Nat
  name : List Nat
  trail : List Nat
  body : List (List Nat)

/-- The text of lines that each end in a newline. -/
def linesText : List (List Nat) → List Nat
  | [] => []
  | l :: ls => l ++ 10 :: linesText ls

/-- The text of a block. -/
def MtlBlock.text (b : MtlBlock) : List Nat :=
  bytes "newmtl" ++ (b.blanks ++ (b.name ++ (b.trail ++ 10 :: linesText b.body)))

/-- The text of a material library made of blocks. -/
def blocksText : List MtlBlock → List Nat
  | [] => []
  | b :: bs => b.text ++ blocksText bs

/-- What a block must satisfy: the name is a token, not empty, and is followed
by whitespace or the end of its line; no line of the body starts with
`newmtl`. -/
def BlockOk (b : MtlBlock) : Prop :=
  IsBlank b.blanks ∧ IsToken b.name ∧ b.name ≠ [] ∧ IsLine b.trail ∧
    isspace (peek (b.trail ++ [10])) = true ∧
    ∀ l ∈ b.body, IsLine l ∧ strncmp_eq l (bytes "newmtl") = false

instance (b : MtlBlock) : Decidable (BlockOk b) := by
  unfold BlockOk
  infer_instance

/-- The blocks of the material file `newmtl A`, `newmtl B`, each line ending in
a newline. -/
def twoBlocks : List MtlBlock := [⟨[32], bytes "A", [], []⟩, ⟨[32], bytes "B", [], []⟩]

/-! ## The arithmetic of `float` -/

/-- A value of `float` (IEEE 754 binary32): a finite number, an infinity or
NaN.  The two zeros are not told apart: no operation of the sources tells
them apart. -/
inductive Binary32 where
  | fin (q : ℚ)
  | inf (neg : Bool)
  | nan
deriving DecidableEq

/-- The integer nearest to `p / d`, the even one of two nearest (`0 < d`). -/
def roundHalfEven (p d : Nat) : Nat :=
  if 2 * (p % d) < d then p / d
  else if d < 2 * (p % d) then p / d + 1
  else if (p / d) % 2 = 0 then p / d else p / d + 1

/-- The number of binary digits of `n`, counted with at most `fuel` halvings. -/
def bitLength : Nat → Nat → Nat
  | 0, _ => 0
  | fuel + 1, n => if n = 0 then 0 else bitLength fuel (n / 2) + 1

/-- The exponent `e` with `2^e ≤ p / d < 2^(e+1)`, for `0 < p` and `0 < d`:
the difference of the numbers of binary digits of `p` and `d`, or one less. -/
def floorLog2 (p d : Nat) : Int :=
  if bitLength d d ≤ bitLength p p then
    if 2 ^ (bitLength p p - bitLength d d) * d ≤ p then
      ((bitLength p p - bitLength d d : Nat) : Int)
    else ((bitLength p p - bitLength d d : Nat) : Int) - 1
  else
    if d ≤ 2 ^ (bitLength d d - bitLength p p) * p then
      -((bitLength d d - bitLength p p : Nat) : Int)
    else -((bitLength d d - bitLength p p : Nat) : Int) - 1

/-- Rounding of an exact result to binary32, to the nearest value and to the
even one of two nearest: `24` bits of precision, exponents of the last bit from
`-149` (subnormal numbers) on, infinity from `2^128` on. -/
def round32 (q : ℚ) : Binary32 :=
  if q = 0 then .fin 0
  else
    let t : Int := max (floorLog2 q.num.natAbs q.den) (-126) - 23
    let n : Nat :=
      if 0 ≤ t then roundHalfEven q.num.natAbs (q.den * 2 ^ t.toNat)
      else roundHalfEven (q.num.natAbs * 2 ^ (-t).toNat) q.den
    let a : ℚ := (n : ℚ) * 2 ^ t
    if 2 ^ 128 ≤ a then .inf (decide (q < 0))
    else .fin (if q < 0 then -a else a)

/-- The arithmetic of binary32 as the instance of the float operations: every
operation gives the exact result rounded once, as on the targets that
evaluate `float` expressions in `float` and do not fuse a product with a sum;
an infinity times zero, the difference of two equal infinities and zero by
zero are NaN, and every comparison with NaN is false. -/
instance instFloatOpsBinary32 : FloatOps Binary32 where
  ofInt i := round32 (i : ℚ)
  add
    | .fin a, .fin b => round32 (a + b)
    | .fin _, .inf s => .inf s
    | .inf s, .fin _ => .inf s
    | .inf s, .inf s2 => if s = s2 then .inf s else .nan
    | _, _ => .nan
  mul
    | .fin a, .fin b => round32 (a * b)
    | .fin a, .inf s => if a = 0 then .nan else .inf (s != decide (a < 0))
    | .inf s, .fin b => if b = 0 then .nan else .inf (s != decide (b < 0))
    | .inf s, .inf s2 => .inf (s != s2)
    | _, _ => .nan
  div
    | .fin a, .fin b =>
      if b = 0 then (if a = 0 then .nan else .inf (decide (a < 0))) else round32 (a / b)
    | .fin _, .inf _ => .fin 0
    | .inf s, .fin b => .inf (s != decide (b < 0))
    | _, _ => .nan
  gt
    | .fin a, .fin b => decide (a > b)
    | .fin _, .inf s => s
    | .inf s, .fin _ => !s
    | .inf s, .inf s2 => !s && s2
    | _, _ => false

/-- The comparison `a <= b` of binary32. -/
def Binary32.le : Binary32 → Binary32 → Bool
  | .fin a, .fin b => decide (a ≤ b)
  | .fin _, .inf s => !s
  | .inf s, .fin _ => s
  | .inf s, .inf s2 => s || !s2
  | _, _ => false

/-- A material file whose `d` line carries a decimal with fifty digits after
the point. -/
def longDecimalMtl : List Nat :=
  bytes "newmtl A\nd 0.12345678901234567890123456789012345678901234567890\n"

/-- A geometry file in which a bare `v` line stands before the `usemtl`
line. -/
def bareVertexObj : List Nat := bytes "mtllib m.mtl\nv\nusemtl Ad\n"

/-! # Theorems -/

/-! ## The cursor -/

@[simp] theorem peek_nil : peek [] = 0 := rfl

@[simp] theorem peek_cons (c : Nat) (data : List Nat) : peek (c :: data) = c := rfl

/-! ## The name hash -/

theorem hash_loop_eq_foldl (s : List Nat) (hs : ∀ b ∈ s, b ≠ 0) (h : Nat) :
    hash_loop h s = s.foldl (fun h b => (h * 33 + b) % 2 ^ 64) h := by
  induction s generalizing h with
  | nil => rfl
  | cons c str ih =>
    have hc : c ≠ 0 := hs c (List.mem_cons_self c str)
    have hstr : ∀ b ∈ str, b ≠ 0 := fun b hb => hs b (List.mem_cons_of_mem c hb)
    have harith : (((h <<< 5) % 2 ^ 64 + h) % 2 ^ 64 + c) % 2 ^ 64 = (h * 33 + c) % 2 ^ 64 := by
      rw [Nat.shiftLeft_eq]
      norm_num
      omega
    simp only [hash_loop, if_neg hc, List.foldl_cons, harith]
    exact ih hstr _

/-- C7: for every byte string `s` without a zero byte, `hash s` is the left
fold of `h ↦ (h * 33 + b) mod 2^64` over the bytes of `s` from `5381` (the
source computes `((h << 5) + h) + b` on a 64-bit word); the hash of the empty
string is `5381`, and equal strings have equal hashes. -/
theorem hash_eq_djb2 (s : List Nat) (hs : ∀ b ∈ s, b ≠ 0) :
    hash s = s.foldl (fun h b => (h * 33 + b) % 2 ^ 64) 5381 ∧
      hash ([] : List Nat) = 5381 ∧ ∀ t : List Nat, s = t → hash s = hash t :=
  ⟨hash_loop_eq_foldl s hs 5381, rfl, fun _ h => congrArg hash h⟩

theorem hash_eq_djb2_witness :
    (∀ b ∈ bytes "Ad", b ≠ 0) ∧
      hash (bytes "Ad") = (bytes "Ad").foldl (fun h b => (h * 33 + b) % 2 ^ 64) 5381 :=
  ⟨by decide, (hash_eq_djb2 (bytes "Ad") (by decide)).1⟩

/-! ## Material resolution (`LoadObjDry`, lines 548-554) -/

theorem LoadObjDry_match_none {F : Type} (h : Nat) (mats : List (OBJMat F)) (j : Nat) (cur : Int)
    (hno : ∀ m ∈ mats, m.name_hash ≠ h) : LoadObjDry_match h mats j cur = cur := by
  induction mats generalizing j cur with
  | nil => rfl
  | cons m ms ih =>
    have hm : m.name_hash ≠ h := hno m (List.mem_cons_self m ms)
    simp only [LoadObjDry_match, if_neg hm]
    exact ih (j + 1) cur (fun m' hm' => hno m' (List.mem_cons_of_mem m hm'))

theorem LoadObjDry_match_append {F : Type} (h : Nat) (pre post : List (OBJMat F)) (m : OBJMat F)
    (hm : m.name_hash = h) (hpost : ∀ m' ∈ post, m'.name_hash ≠ h) (j : Nat) (cur : Int) :
    LoadObjDry_match h (pre ++ m :: post) j cur = ((j + pre.length : Nat) : Int) := by
  induction pre generalizing j cur with
  | nil =>
    simp only [List.nil_append, LoadObjDry_match, if_pos hm, List.length_nil, Nat.add_zero]
    exact LoadObjDry_match_none h post (j + 1) j hpost
  | cons p ps ih =>
    rw [List.cons_append, LoadObjDry_match, ih (j + 1), List.length_cons]
    congr 1
    omega

/-- The scan for one mesh ends on the largest index whose material has the
hash looked for. -/
theorem LoadObjDry_match_last {F : Type} (h : Nat) (mats : List (OBJMat F)) (j : Nat)
    (hj : j < mats.length) (hm : mats[j].name_hash = h)
    (hlast : ∀ k (hk : k < mats.length), j < k → mats[k].name_hash ≠ h) :
    LoadObjDry_match h mats 0 0 = (j : Int) := by
  have hsplit : mats = mats.take j ++ mats[j] :: mats.drop (j + 1) := by
    rw [← List.drop_eq_getElem_cons hj, List.take_append_drop]
  have hpost : ∀ m' ∈ mats.drop (j + 1), m'.name_hash ≠ h := by
    intro m' hm'
    obtain ⟨k, hk, rfl⟩ := List.getElem_of_mem hm'
    rw [List.getElem_drop]
    have hk2 : j + 1 + k < mats.length := by
      rw [List.length_drop] at hk
      omega
    exact hlast (j + 1 + k) hk2 (by omega)
  rw [hsplit, LoadObjDry_match_append h _ _ _ hm hpost]
  simp only [List.length_take, Nat.zero_add]
  congr 1
  omega

theorem LoadObjDry_meshMaterial_get {F : Type} (meshes : List (OBJMesh F)) (mats : List (OBJMat F))
    (i : Nat) (mesh : OBJMesh F) (hi : meshes[i]? = some mesh) :
    (LoadObjDry_meshMaterial meshes mats)[i]? = some (LoadObjDry_match mesh.mat_hash mats 0 0) := by
  simp [LoadObjDry_meshMaterial, hi]

/-! ## The hash recorded by `usemtl` (`LoadObjMesh`, lines 421-425) -/

theorem strncmp_eq_usemtl_head (data : List Nat) (h : strncmp_eq data (bytes "usemtl") = true) :
    peek data = 117 := by
  cases data with
  | nil => simp [strncmp_eq, bytes] at h
  | cons c rest =>
    simp [strncmp_eq, bytes] at h
    simp [h.1]

/-- A pass of the parse loop changes `mat_hash` only in the `usemtl` branch,
and nothing else in the pass depends on `mat_hash`. -/
theorem LoadObjMesh_body_mat_hash {F : Type} [FloatOps F] (host : Host) (file : OBJFile F)
    (seen_o : Bool) (h : Nat) :
    LoadObjMesh_body host file seen_o h =
      (LoadObjMesh_body host file seen_o 0).map fun r =>
        (r.1, r.2.1, if strncmp_eq file.data (bytes "usemtl") = true then
          hash (ReadName (file.data.drop 6)).1 else h) := by
  by_cases hu : strncmp_eq file.data (bytes "usemtl") = true
  · have hh := strncmp_eq_usemtl_head file.data hu
    simp [LoadObjMesh_body, hh, hu]
  · simp only [LoadObjMesh_body, if_neg hu]
    split_ifs <;> simp

/-- The hash that the parse loop returns is the hash of the name of the last
`usemtl` directive it handled. -/
theorem LoadObjMesh_loop_mat_hash {F : Type} [FloatOps F] (host : Host) (n : Nat)
    (file : OBJFile F) (seen_o : Bool) (h : Nat) (last : Option (List Nat)) :
    (LoadObjMesh_loop host n file seen_o
        (match last with | some X => hash X | none => h)).2 =
      match LoadObjMesh_usemtl host n file seen_o last with
      | some X => hash X
      | none => h := by
  induction n generalizing file seen_o last with
  | zero => simp [LoadObjMesh_loop, LoadObjMesh_usemtl]
  | succ n ih =>
    rw [LoadObjMesh_loop, LoadObjMesh_usemtl]
    by_cases h0 : peek file.data = 0
    · simp [h0]
    · simp only [h0, if_false]
      rw [LoadObjMesh_body_mat_hash]
      cases hb : LoadObjMesh_body host file seen_o 0 with
      | none => simp
      | some r =>
        simp only [Option.map_some']
        by_cases hu : strncmp_eq file.data (bytes "usemtl") = true
        · simp only [hu, if_true]
          exact ih _ _ (some _)
        · simp only [hu]
          exact ih _ _ last

/-! ## The result of `LoadObjDry` -/

/-- `LoadObjDry` returns the model built from the result of its loop. -/
theorem LoadObjDry_of_loop {F : Type} [FloatOps F] (host : Host) (filename data : List Nat)
    (r : List (OBJMesh F) × OBJFile F) (hload : host.LoadFileText filename = some data)
    (hloop : LoadObjDry_loop host (data.length + 1) 0 (LoadObjDry_file host filename data) [] =
      some r) :
    LoadObjDry host filename =
      some
        { meshes := r.1.map fun mesh => mesh.mesh
          meshCount := r.1.length
          materialCount := r.2.mat_count
          materials := r.2.mats
          meshMaterial := LoadObjDry_meshMaterial r.1 r.2.mats } := by
  simp only [LoadObjDry, hload, hloop, Option.map_some']

/-- The loop of `LoadObjDry` only appends to the list of meshes. -/
theorem LoadObjDry_loop_keeps {F : Type} [FloatOps F] (host : Host) (n k : Nat)
    (file : OBJFile F) (meshes : List (OBJMesh F)) (r : List (OBJMesh F) × OBJFile F)
    (hloop : LoadObjDry_loop host n k file meshes = some r) (i : Nat) (hi : i < meshes.length) :
    r.1[i]? = meshes[i]? := by
  induction n generalizing k file meshes with
  | zero =>
    simp only [LoadObjDry_loop, Option.some.injEq] at hloop
    rw [← hloop]
  | succ n ih =>
    simp only [LoadObjDry_loop] at hloop
    split_ifs at hloop with h0
    · simp only [Option.some.injEq] at hloop
      rw [← hloop]
    · cases hl : LoadObjMesh host file (host.mat_hash_uninit k) with
      | mk om file1 =>
        rw [hl] at hloop
        cases om with
        | none => simp at hloop
        | some mesh =>
          simp only at hloop
          rw [ih (k + 1) file1 (meshes ++ [mesh]) hloop
            (by simp only [List.length_append, List.length_singleton]; omega)]
          exact List.getElem?_append_left hi

/-- The mesh that the loop of `LoadObjDry` appends in its `i`-th further call
is the one `LoadObjMesh` returns from the `i`-th state. -/
theorem LoadObjDry_loop_meshes {F : Type} [FloatOps F] (host : Host) (n k : Nat)
    (file : OBJFile F) (meshes : List (OBJMesh F)) (r : List (OBJMesh F) × OBJFile F)
    (hloop : LoadObjDry_loop host n k file meshes = some r) (i : Nat) (file_i : OBJFile F)
    (hstate : (LoadObjDry_states host n k file)[i]? = some file_i) :
    ∃ mesh, r.1[meshes.length + i]? = some mesh ∧
      (LoadObjMesh host file_i (host.mat_hash_uninit (k + i))).1 = some mesh := by
  induction n generalizing k file meshes i with
  | zero => simp [LoadObjDry_states] at hstate
  | succ n ih =>
    simp only [LoadObjDry_loop, LoadObjDry_states] at hloop hstate
    split_ifs at hloop hstate with h0
    · simp at hstate
    · cases hl : LoadObjMesh host file (host.mat_hash_uninit k) with
      | mk om file1 =>
        rw [hl] at hloop hstate
        cases om with
        | none => simp at hloop
        | some mesh =>
          simp only at hloop hstate
          cases i with
          | zero =>
            simp only [List.getElem?_cons_zero, Option.some.injEq] at hstate
            subst hstate
            refine ⟨mesh, ?_, ?_⟩
            · rw [Nat.add_zero, LoadObjDry_loop_keeps host n (k + 1) file1 (meshes ++ [mesh]) r hloop
                meshes.length (by simp)]
              simp
            · rw [Nat.add_zero, hl]
          | succ i =>
            simp only [List.getElem?_cons_succ] at hstate
            obtain ⟨m, h1, h2⟩ := ih (k + 1) file1 (meshes ++ [mesh]) hloop i hstate
            have e1 : (meshes ++ [mesh]).length + i = meshes.length + (i + 1) := by
              simp only [List.length_append, List.length_singleton]
              omega
            have e2 : k + 1 + i = k + (i + 1) := by omega
            rw [e1] at h1
            rw [e2] at h2
            exact ⟨m, h1, h2⟩

/-- The cross-link of meshes and materials along the passes of the parser: let
`LoadObjDry` read a geometry file, let `file_i` be the parser state in which
its `i`-th call of `LoadObjMesh` starts, and let `X` be the name read by the
last `usemtl` directive that the parse loop of that call handles.  If exactly
one material of the parsed list, at index `j`, has the name hash `hash X`,
then `LoadObjDry` returns a model whose `meshMaterial` entry `i` is `j`.  (A
`usemtl` line that the loop does not handle, such as one behind a bare `v`
line, does not count here.) -/
theorem usemtl_newmtl_crosslink {F : Type} [FloatOps F] (host : Host) (filename data : List Nat)
    (r : List (OBJMesh F) × OBJFile F) (hload : host.LoadFileText filename = some data)
    (hloop : LoadObjDry_loop host (data.length + 1) 0 (LoadObjDry_file host filename data) [] =
      some r)
    (i : Nat) (file_i : OBJFile F)
    (hstate : (LoadObjDry_states host (data.length + 1) 0
      (LoadObjDry_file host filename data))[i]? = some file_i)
    (X : List Nat)
    (hX : LoadObjMesh_usemtl host (file_i.data.length + 1) file_i false none = some X)
    (j : Nat) (hj : j < r.2.mats.length) (hm : r.2.mats[j].name_hash = hash X)
    (huniq : ∀ k (hk : k < r.2.mats.length), r.2.mats[k].name_hash = hash X → k = j) :
    ∃ model : Model F, LoadObjDry host filename = some model ∧ model.materials = r.2.mats ∧
      model.meshMaterial[i]? = some (j : Int) := by
  refine ⟨_, LoadObjDry_of_loop host filename data r hload hloop, rfl, ?_⟩
  obtain ⟨mesh, hi, hmesh⟩ := LoadObjDry_loop_meshes host _ 0 _ [] r hloop i file_i hstate
  simp only [List.length_nil, Nat.zero_add] at hi hmesh
  have hh : mesh.mat_hash = hash X := by
    have hl := LoadObjMesh_loop_mat_hash host (file_i.data.length + 1) file_i false
      (host.mat_hash_uninit i) none
    rw [hX] at hl
    simp only [LoadObjMesh, Option.map_eq_some'] at hmesh
    obtain ⟨m, _, rfl⟩ := hmesh
    exact hl
  simp only
  rw [LoadObjDry_meshMaterial_get r.1 r.2.mats i mesh hi, hh]
  exact congrArg some (LoadObjDry_match_last (hash X) r.2.mats j hj hm
    (fun k hk hjk hk2 => absurd (huniq k hk hk2) (by omega)))

set_option maxRecDepth 100000 in
theorem usemtl_newmtl_crosslink_witness :
    ∃ model : Model ℚ, LoadObjDry (twoFileHost firstMatchObj crossMtl) (bytes "a.obj") =
        some model ∧
      model.meshMaterial[0]? = some (1 : Int) := by
  obtain ⟨model, h1, _, h3⟩ :=
    usemtl_newmtl_crosslink (F := ℚ) (twoFileHost firstMatchObj crossMtl) (bytes "a.obj")
      firstMatchObj (runOf (twoFileHost firstMatchObj crossMtl) firstMatchObj) (by decide)
      (by decide) 0
      (LoadObjDry_file (twoFileHost firstMatchObj crossMtl) (bytes "a.obj") firstMatchObj)
      (by decide) (bytes "Ad") (by decide) 1 (by decide) (by decide)
      (by
        intro k hk hk2
        have hlen : (runOf (twoFileHost firstMatchObj crossMtl) firstMatchObj).2.mats.length =
            2 := by decide
        have hk1 : k < 2 := by omega
        interval_cases k
        · have h7 : hash (bytes "X") = hash (bytes "Ad") := hk2
          exact absurd h7 (by decide)
        · rfl)
  exact ⟨model, h1, h3⟩

/-- C5 (as stated, refuted): with the geometry file `mtllib m.mtl`, `usemtl Ad`
(`firstMatchObj`) and the material file `newmtl Ad`, `newmtl BC`
(`firstMatchMtl`), the mesh records the hash of
`Ad`, both materials have that name hash, so that the smallest index of a
material with the hash is `0`, and `LoadObjDry` sets the entry of the mesh
to `1`. -/
theorem first_match_counterexample :
    (LoadObjDry_loop (F := ℚ) (twoFileHost firstMatchObj firstMatchMtl)
        (firstMatchObj.length + 1) 0
        (LoadObjDry_file (twoFileHost firstMatchObj firstMatchMtl) (bytes "a.obj") firstMatchObj)
        []).map
        (fun r => (r.1.map fun mesh => mesh.mat_hash, r.2.mats.map fun mat => mat.name_hash)) =
      some ([hash (bytes "Ad")], [hash (bytes "Ad"), hash (bytes "Ad")]) ∧
    (LoadObjDry (F := ℚ) (twoFileHost firstMatchObj firstMatchMtl) (bytes "a.obj")).map
        (fun m => m.meshMaterial) = some [1] := by
  decide

/-- C5 (amended): when some material of the parsed list has the name hash that
mesh `i` recorded, `LoadObjDry` returns a model whose `meshMaterial` entry `i`
is the largest index `j` of a material with that hash. -/
theorem meshMaterial_last_match {F : Type} [FloatOps F] (host : Host) (filename data : List Nat)
    (r : List (OBJMesh F) × OBJFile F) (hload : host.LoadFileText filename = some data)
    (hloop : LoadObjDry_loop host (data.length + 1) 0 (LoadObjDry_file host filename data) [] =
      some r)
    (i : Nat) (mesh : OBJMesh F) (hi : r.1[i]? = some mesh) (j : Nat) (hj : j < r.2.mats.length)
    (hm : r.2.mats[j].name_hash = mesh.mat_hash)
    (hlast : ∀ k (hk : k < r.2.mats.length), j < k → r.2.mats[k].name_hash ≠ mesh.mat_hash) :
    ∃ model : Model F, LoadObjDry host filename = some model ∧ model.materials = r.2.mats ∧
      model.meshMaterial[i]? = some (j : Int) := by
  refine ⟨_, LoadObjDry_of_loop host filename data r hload hloop, rfl, ?_⟩
  simp only
  rw [LoadObjDry_meshMaterial_get r.1 r.2.mats i mesh hi]
  exact congrArg some (LoadObjDry_match_last mesh.mat_hash r.2.mats j hj hm hlast)

set_option maxRecDepth 100000 in
theorem meshMaterial_last_match_witness :
    ∃ model : Model ℚ, LoadObjDry (twoFileHost firstMatchObj firstMatchMtl) (bytes "a.obj") =
        some model ∧
      model.meshMaterial[0]? = some (1 : Int) := by
  obtain ⟨model, h1, _, h3⟩ :=
    meshMaterial_last_match (F := ℚ) (twoFileHost firstMatchObj firstMatchMtl) (bytes "a.obj")
      firstMatchObj (runOf (twoFileHost firstMatchObj firstMatchMtl) firstMatchObj) (by decide)
      (by decide) 0 ⟨⟨0, 0, [], [], []⟩, hash (bytes "Ad")⟩ (by decide) 1 (by decide) (by decide)
      (by
        intro k hk hjk
        have hlen : (runOf (twoFileHost firstMatchObj firstMatchMtl) firstMatchObj).2.mats.length =
            2 := by decide
        omega)
  exact ⟨model, h1, h3⟩

/-- C6: when the parsed material list is empty, or none of its materials has
the name hash that mesh `i` recorded, `LoadObjDry` returns a model (it has no
failing case of its own) whose `meshMaterial` entry `i` is `0`. -/
theorem meshMaterial_default {F : Type} [FloatOps F] (host : Host) (filename data : List Nat)
    (r : List (OBJMesh F) × OBJFile F) (hload : host.LoadFileText filename = some data)
    (hloop : LoadObjDry_loop host (data.length + 1) 0 (LoadObjDry_file host filename data) [] =
      some r)
    (i : Nat) (mesh : OBJMesh F) (hi : r.1[i]? = some mesh)
    (hno : r.2.mats = [] ∨ ∀ m ∈ r.2.mats, m.name_hash ≠ mesh.mat_hash) :
    ∃ model : Model F, LoadObjDry host filename = some model ∧ model.meshMaterial[i]? = some 0 := by
  refine ⟨_, LoadObjDry_of_loop host filename data r hload hloop, ?_⟩
  simp only
  rw [LoadObjDry_meshMaterial_get r.1 r.2.mats i mesh hi]
  apply congrArg some
  apply LoadObjDry_match_none
  rcases hno with h | h
  · rw [h]
    intro m hm
    cases hm
  · exact h

set_option maxRecDepth 100000 in
theorem meshMaterial_default_witness :
    ∃ model : Model ℚ, LoadObjDry (twoFileHost firstMatchObj []) (bytes "a.obj") = some model ∧
      model.meshMaterial[0]? = some 0 :=
  meshMaterial_default (F := ℚ) (twoFileHost firstMatchObj []) (bytes "a.obj") firstMatchObj
    (runOf (twoFileHost firstMatchObj []) firstMatchObj) (by decide) (by decide) 0
    ⟨⟨0, 0, [], [], []⟩, hash (bytes "Ad")⟩ (by decide) (Or.inl (by decide))

/-! ## Name tokens (`ReadName`) -/

theorem ReadName_copy_token (t rest : List Nat) (ht : IsToken t) (hr : endsToken rest) :
    ReadName_copy (t ++ rest) = (t, rest) := by
  induction t with
  | nil =>
    cases rest with
    | nil => rfl
    | cons c r =>
      have hc : ¬ (isspace c = false ∧ c ≠ 0) := by
        rcases hr with h | h
        · simp only [peek_cons] at h
          simp [h]
        · simp only [peek_cons] at h
          simp [h]
      simp only [List.nil_append, ReadName_copy, if_neg hc]
  | cons c t ih =>
    have hc := ht c (List.mem_cons_self c t)
    have ht2 : IsToken t := fun b hb => ht b (List.mem_cons_of_mem c hb)
    simp only [List.cons_append, ReadName_copy]
    simp [hc.1, hc.2, ih ht2]

theorem ClearWhitespace_token (t rest : List Nat) (ht : IsToken t) (hne : t ≠ []) :
    ClearWhitespace (t ++ rest) = (true, t ++ rest) := by
  cases t with
  | nil => exact absurd rfl hne
  | cons c t =>
    have hc := ht c (List.mem_cons_self c t)
    have h10 : c ≠ 10 := by
      intro h
      rw [h] at hc
      exact absurd hc.1 (by decide)
    simp [ClearWhitespace, hc.1, h10]

theorem bytes_usemtl_sp : bytes "usemtl " = [117, 115, 101, 109, 116, 108, 32] := by decide
theorem bytes_usemtl : bytes "usemtl" = [117, 115, 101, 109, 116, 108] := by decide
theorem bytes_newmtl_sp : bytes "newmtl " = [110, 101, 119, 109, 116, 108, 32] := by decide
theorem bytes_newmtl : bytes "newmtl" = [110, 101, 119, 109, 116, 108] := by decide

theorem ReadName_sp_token (t : List Nat) (ht : IsToken t) (hne : t ≠ []) :
    ReadName (32 :: (t ++ [10])) = (t, [10]) := by
  have h1 : ClearWhitespace (32 :: (t ++ [10])) = ClearWhitespace (t ++ [10]) := by
    simp [ClearWhitespace, isspace]
  rw [ReadName, h1, ClearWhitespace_token t [10] ht hne]
  exact ReadName_copy_token t [10] ht (Or.inl (by decide))

/-- The line `usemtl x` alone: the mesh records `hash x`. -/
theorem LoadObjMesh_loop_usemtl_line {F : Type} [FloatOps F] (host : Host) (file : OBJFile F)
    (h0 : Nat) (x : List Nat) (hx : IsToken x) (hne : x ≠ [])
    (hdata : file.data = bytes "usemtl " ++ x ++ [10]) :
    (LoadObjMesh_loop host (file.data.length + 1) file false h0).2 = hash x := by
  have hlen : file.data.length + 1 = (x.length + 7) + 2 := by
    rw [hdata, bytes_usemtl_sp]
    simp
  have hbody : LoadObjMesh_body host file false h0 =
      some ({ file with data := [10] }, false, hash x) := by
    have hn := ReadName_sp_token x hx hne
    simp only [List.append_assoc] at hdata
    simp [LoadObjMesh_body, hdata, bytes_usemtl_sp, bytes_usemtl, strncmp_eq, hn]
  rw [hlen, LoadObjMesh_loop]
  have hp : peek file.data ≠ 0 := by
    rw [hdata, bytes_usemtl_sp]
    simp
  rw [if_neg hp, hbody]
  simp [LoadObjMesh_loop, IgnoreLine, IgnoreLine_scan]

/-- The block `newmtl y` alone: the record has the name hash `hash y`. -/
theorem LoadMtlMat_newmtl_line {F : Type} [FloatOps F] (y : List Nat) (hy : IsToken y)
    (hne : y ≠ []) :
    (LoadMtlMat (F := F) (bytes "newmtl " ++ y ++ [10])).1.name_hash = hash y := by
  have hlen : (bytes "newmtl " ++ y ++ [10]).length + 1 = (y.length + 7) + 2 := by
    rw [bytes_newmtl_sp]
    simp
  have hn := ReadName_sp_token y hy hne
  rw [LoadMtlMat, hlen, LoadMtlMat_loop]
  simp only [bytes_newmtl_sp, List.append_assoc, List.cons_append, List.nil_append, peek_cons]
  simp [LoadMtlMat_body, bytes_newmtl, strncmp_eq, hn, LoadMtlMat_loop, IgnoreLine,
    IgnoreLine_scan]

/-- C8: the names `Ad` and `BC` differ and have the same hash.  For any two
different name tokens `x` and `y` with the same hash, the mesh that
`LoadObjMesh` returns for the line `usemtl x` is resolved to the material
record that `LoadMtlMat` decodes from the block `newmtl y`, wherever that
record stands in the material list, when no later record has that hash; and
against every material list it gets the same entry as the mesh returned for
the line `usemtl y`. -/
theorem hash_collision_shared_key {F : Type} [FloatOps F] (host : Host) (x y : List Nat)
    (hx : IsToken x) (hxne : x ≠ []) (hy : IsToken y) (hyne : y ≠ []) (_hxy : x ≠ y)
    (hh : hash x = hash y) (file file2 : OBJFile F) (h0 h2 : Nat)
    (hdata : file.data = bytes "usemtl " ++ x ++ [10]) (mesh : OBJMesh F)
    (hmesh : (LoadObjMesh host file h0).1 = some mesh)
    (hdata2 : file2.data = bytes "usemtl " ++ y ++ [10]) (mesh2 : OBJMesh F)
    (hmesh2 : (LoadObjMesh host file2 h2).1 = some mesh2) (pre post : List (OBJMat F))
    (base : Option (List Nat)) (hpost : ∀ m ∈ post, m.name_hash ≠ hash y) :
    (bytes "Ad" ≠ bytes "BC" ∧ hash (bytes "Ad") = hash (bytes "BC")) ∧
      LoadObjDry_meshMaterial [mesh]
          (pre ++ { (LoadMtlMat (F := F) (bytes "newmtl " ++ y ++ [10])).1 with base := base } ::
            post) = [(pre.length : Int)] ∧
      ∀ mats : List (OBJMat F),
        LoadObjDry_meshMaterial [mesh] mats = LoadObjDry_meshMaterial [mesh2] mats := by
  have hmh : mesh.mat_hash = hash y := by
    simp only [LoadObjMesh, Option.map_eq_some'] at hmesh
    obtain ⟨m, _, rfl⟩ := hmesh
    rw [← hh]
    exact LoadObjMesh_loop_usemtl_line host file h0 x hx hxne hdata
  have hmh2 : mesh2.mat_hash = hash y := by
    simp only [LoadObjMesh, Option.map_eq_some'] at hmesh2
    obtain ⟨m, _, rfl⟩ := hmesh2
    exact LoadObjMesh_loop_usemtl_line host file2 h2 y hy hyne hdata2
  refine ⟨⟨by decide, by decide⟩, ?_, ?_⟩
  · have hrec : ({ (LoadMtlMat (F := F) (bytes "newmtl " ++ y ++ [10])).1 with
        base := base } : OBJMat F).name_hash = hash y := LoadMtlMat_newmtl_line y hy hyne
    simp only [LoadObjDry_meshMaterial, List.map_cons, List.map_nil, hmh]
    rw [LoadObjDry_match_append (hash y) pre post _ hrec hpost]
    simp
  · intro mats
    simp only [LoadObjDry_meshMaterial, List.map_cons, List.map_nil, hmh, hmh2]

theorem hash_collision_shared_key_witness :
    (bytes "Ad" ≠ bytes "BC" ∧ hash (bytes "Ad") = hash (bytes "BC")) ∧
      LoadObjDry_meshMaterial [⟨⟨0, 0, [], [], []⟩, hash (bytes "Ad")⟩]
          (sampleMats ++ { (LoadMtlMat (F := ℚ) (bytes "newmtl " ++ bytes "BC" ++ [10])).1 with
            base := none } :: []) = [((sampleMats.length : Nat) : Int)] ∧
      ∀ mats : List (OBJMat ℚ),
        LoadObjDry_meshMaterial [⟨⟨0, 0, [], [], []⟩, hash (bytes "Ad")⟩] mats =
          LoadObjDry_meshMaterial [⟨⟨0, 0, [], [], []⟩, hash (bytes "BC")⟩] mats :=
  hash_collision_shared_key (twoFileHost [] []) (bytes "Ad") (bytes "BC") (by decide) (by decide)
    (by decide) (by decide) (by decide) (by decide) (sampleFile (bytes "usemtl Ad\n"))
    (sampleFile (bytes "usemtl BC\n")) 0 0 (by decide) ⟨⟨0, 0, [], [], []⟩, hash (bytes "Ad")⟩
    (by decide) (by decide) ⟨⟨0, 0, [], [], []⟩, hash (bytes "BC")⟩ (by decide) sampleMats [] none
    (by intro m hm; cases hm)

/-! ## Evaluations of the loader on concrete files -/

/-- C3 (the code at the failing input): the file `twoGroupsObj` has two object
groups with one face line of one triangle each; the mesh of the second group
has two triangles, and the face list it is assembled from holds the face of
the first group followed by its own. -/
theorem second_object_keeps_first_faces :
    (LoadObjDry (F := ℚ) (twoFileHost twoGroupsObj []) (bytes "a.obj")).map
        (fun m => m.meshes.map fun mesh => (mesh.triangleCount, mesh.vertices.length)) =
      some [(1, 9), (2, 18)] ∧
    (runOf (twoFileHost twoGroupsObj []) twoGroupsObj).2.faces =
      [some ⟨⟨1, 1, 1⟩, ⟨2, 1, 1⟩, ⟨3, 1, 1⟩⟩, some ⟨⟨3, 1, 1⟩, ⟨2, 1, 1⟩, ⟨1, 1, 1⟩⟩] := by
  decide

/-- C9 (the code at the failing input): on `v 0 0 0`, `v 1 0 0`, `v 0 1 0`,
`f 1 2 3` the face is stored with texcoord index `0` and normal index `0`, the
copy loop reads `texcoords[-1]` and `normals[-1]`, outside the zero-filled
arrays, and `LoadObjDry` has no defined result. -/
theorem bare_indices_read_out_of_bounds :
    (ReadFace (sampleFile (bytes " 1 2 3\n"))).faces =
        [some ⟨⟨1, 0, 0⟩, ⟨2, 0, 0⟩, ⟨3, 0, 0⟩⟩] ∧
      readAt (List.replicate 3 (⟨0, 0⟩ : Vector2 ℚ)) (0 - 1) = none ∧
      LoadObjDry (F := ℚ) (twoFileHost (bytes "v 0 0 0\nv 1 0 0\nv 0 1 0\nf 1 2 3\n") [])
        (bytes "a.obj") = none := by
  decide

/-- C10 (the code at the failing input): a corner reference that starts with
`/` is decoded as a valid edge with position index `0`, and `ReadFace` appends
the face; likewise a reference that starts with another non-digit. -/
theorem missing_position_accepted :
    ReadEdge (bytes " /1/1 2/2/1 3/3/1\n") = (⟨⟨0, 1, 1⟩, true⟩, bytes " 2/2/1 3/3/1\n") ∧
      (ReadFace (sampleFile (bytes " /1/1 2/2/1 3/3/1\n"))).faces =
        [some ⟨⟨0, 1, 1⟩, ⟨2, 2, 1⟩, ⟨3, 3, 1⟩⟩] ∧
      ReadEdge (bytes " x\n") = (⟨⟨0, 0, 0⟩, true⟩, bytes "x\n") ∧
      (ReadFace (sampleFile (bytes " x\n"))).faces =
        [some ⟨⟨0, 0, 0⟩, ⟨0, 0, 0⟩, ⟨0, 0, 0⟩⟩] := by
  decide

/-! ## Fan triangulation (`ReadFace`, lines 367-397) -/

theorem fanFrom_length (c0 : Edge) (cs : List Edge) (c1 : Edge) :
    (fanFrom c0 c1 cs).length = cs.length := by
  induction cs generalizing c1 with
  | nil => rfl
  | cons c2 cs ih => rw [fanFrom, List.length_cons, ih c2, List.length_cons]

theorem fanTriangles_length (cs : List Edge) : (fanTriangles cs).length = cs.length - 2 := by
  cases cs with
  | nil => rfl
  | cons c0 cs =>
    cases cs with
    | nil => rfl
    | cons c1 cs => simp [fanTriangles, fanFrom_length]

theorem fanFrom_get (c0 : Edge) (cs : List Edge) (c1 : Edge) (k : Nat) (a b : Edge)
    (ha : (c1 :: cs)[k]? = some a) (hb : cs[k]? = some b) :
    (fanFrom c0 c1 cs)[k]? = some ⟨c0, a, b⟩ := by
  induction cs generalizing c1 k with
  | nil => simp at hb
  | cons c2 cs ih =>
    rw [fanFrom]
    cases k with
    | zero =>
      simp only [List.getElem?_cons_zero, Option.some.injEq] at ha hb
      simp [ha, hb]
    | succ k =>
      simp only [List.getElem?_cons_succ] at ha hb
      simp only [List.getElem?_cons_succ]
      exact ih c2 k ha hb

theorem fanTriangles_get (cs : List Edge) (k : Nat) (a b c : Edge) (ha : cs[0]? = some a)
    (hb : cs[k + 1]? = some b) (hc : cs[k + 2]? = some c) :
    (fanTriangles cs)[k]? = some ⟨a, b, c⟩ := by
  cases cs with
  | nil => simp at ha
  | cons c0 cs =>
    cases cs with
    | nil => simp at hb
    | cons c1 cs =>
      simp only [List.getElem?_cons_zero, Option.some.injEq] at ha
      simp only [List.getElem?_cons_succ] at hb hc
      rw [← ha]
      exact fanFrom_get c0 cs c1 k b c hb hc

theorem ClearWhitespace_blank (s x : List Nat) (hs : IsBlank s) :
    ClearWhitespace (s ++ x) = ClearWhitespace x := by
  induction s with
  | nil => rfl
  | cons c s ih =>
    have hc := hs c (List.mem_cons_self c s)
    have hs2 : IsBlank s := fun b hb => hs b (List.mem_cons_of_mem c hb)
    simp only [List.cons_append, ClearWhitespace, hc.1, hc.2, or_true, if_true, if_false]
    exact ih hs2

theorem ClearWhitespace_length (x : List Nat) : (ClearWhitespace x).2.length ≤ x.length := by
  induction x with
  | nil => simp [ClearWhitespace]
  | cons c x ih =>
    simp only [ClearWhitespace]
    split_ifs
    · simp
    · simp only [List.length_cons]
      omega
    · simp

theorem ClearWhitespace_digit (x : List Nat) (hx : isdigit (peek x) = true) :
    ClearWhitespace x = (true, x) := by
  cases x with
  | nil => rfl
  | cons c x =>
    simp only [peek_cons, isdigit, Bool.and_eq_true, decide_eq_true_eq] at hx
    have h10 : c ≠ 10 := by omega
    have hsp : isspace c = false := by
      simp only [isspace, Bool.or_eq_false_iff, beq_eq_false_iff_ne, ne_eq, Bool.and_eq_false_imp,
        decide_eq_true_eq, decide_eq_false_iff_not]
      omega
    simp [ClearWhitespace, h10, hsp]

theorem ClearWhitespace_line_end (tail : List Nat) (ht : peek tail = 10 ∨ peek tail = 0) :
    (ClearWhitespace tail).2 = tail := by
  cases tail with
  | nil => rfl
  | cons c x =>
    simp only [peek_cons] at ht
    rcases ht with h | h
    · subst h
      simp [ClearWhitespace]
    · subst h
      simp [ClearWhitespace, isspace]

theorem ReadEdge_blank (s x : List Nat) (hs : IsBlank s) : ReadEdge (s ++ x) = ReadEdge x := by
  simp only [ReadEdge, ReadValidInt, ClearWhitespace_blank s x hs]

theorem peek_append (r x : List Nat) (hr : r ≠ []) : peek (r ++ x) = peek r := by
  cases r with
  | nil => exact absurd rfl hr
  | cons c r => rfl

theorem ne_nil_of_isdigit_peek (r : List Nat) (hr : isdigit (peek r) = true) : r ≠ [] := by
  intro h
  subst h
  exact absurd hr (by decide)

theorem endsToken_of_blank (s x : List Nat) (hs : IsBlank s) (hne : s ≠ []) :
    endsToken (s ++ x) := by
  cases s with
  | nil => exact absurd rfl hne
  | cons c s => exact Or.inl (hs c (List.mem_cons_self c s)).1

theorem endsToken_line_end (tail : List Nat) (ht : peek tail = 10 ∨ peek tail = 0) :
    endsToken tail := by
  rcases ht with h | h
  · left
    rw [h]
    decide
  · exact Or.inr h

theorem endsToken_trail (trail tail : List Nat) (htrail : IsBlank trail)
    (ht : peek tail = 10 ∨ peek tail = 0) : endsToken (trail ++ tail) := by
  cases trail with
  | nil => exact endsToken_line_end tail ht
  | cons c s => exact endsToken_of_blank (c :: s) tail htrail (by simp)

theorem endsToken_faceLine (refs : List (List Nat × List Nat × Edge)) (trail tail : List Nat)
    (hrefs : FaceLineOk refs) (htrail : IsBlank trail) (ht : peek tail = 10 ∨ peek tail = 0) :
    endsToken (faceLine refs (trail ++ tail)) := by
  cases refs with
  | nil => exact endsToken_trail trail tail htrail ht
  | cons x xs =>
    have hx := hrefs x (List.mem_cons_self x xs)
    exact endsToken_of_blank x.1 _ hx.1 hx.2.1

theorem ReadEdge_faceLine (x : List Nat × List Nat × Edge)
    (xs : List (List Nat × List Nat × Edge)) (trail tail : List Nat)
    (hrefs : FaceLineOk (x :: xs)) (htrail : IsBlank trail)
    (ht : peek tail = 10 ∨ peek tail = 0) :
    ReadEdge (faceLine (x :: xs) (trail ++ tail)) =
      (⟨x.2.2, true⟩, faceLine xs (trail ++ tail)) := by
  have hx := hrefs x (List.mem_cons_self x xs)
  have hxs : FaceLineOk xs := fun y hy => hrefs y (List.mem_cons_of_mem x hy)
  rw [faceLine, ReadEdge_blank _ _ hx.1]
  exact hx.2.2.2 _ (endsToken_faceLine xs trail tail hxs htrail ht)

theorem ClearWhitespace_faceLine (x : List Nat × List Nat × Edge)
    (xs : List (List Nat × List Nat × Edge)) (rest : List Nat) (hrefs : FaceLineOk (x :: xs)) :
    ClearWhitespace (faceLine (x :: xs) rest) = (true, x.2.1 ++ faceLine xs rest) := by
  have hx := hrefs x (List.mem_cons_self x xs)
  rw [faceLine, ClearWhitespace_blank _ _ hx.1]
  apply ClearWhitespace_digit
  rw [peek_append _ _ (ne_nil_of_isdigit_peek _ hx.2.2.1)]
  exact hx.2.2.1

theorem ReadFace_loop_fan (xs : List (List Nat × List Nat × Edge)) (trail tail : List Nat)
    (hrefs : FaceLineOk xs) (htrail : IsBlank trail) (ht : peek tail = 10 ∨ peek tail = 0)
    (n : Nat) (faces : List (Option Face)) (f : Face)
    (hn : (ClearWhitespace (faceLine xs (trail ++ tail))).2.length + 1 ≤ n) :
    ReadFace_loop n (ClearWhitespace (faceLine xs (trail ++ tail))).2 faces f =
      (tail, faces ++ (fanFrom f.edges0 f.edges2 (xs.map fun x => x.2.2)).map some) := by
  induction xs generalizing n faces f with
  | nil =>
    have hcw : (ClearWhitespace (faceLine [] (trail ++ tail))).2 = tail := by
      rw [faceLine, ClearWhitespace_blank _ _ htrail]
      exact ClearWhitespace_line_end tail ht
    rw [hcw]
    obtain ⟨m, rfl⟩ : ∃ m, n = m + 1 := ⟨n - 1, by omega⟩
    have hd : isdigit (peek tail) = false := by
      rcases ht with h | h <;> rw [h] <;> decide
    simp [ReadFace_loop, hd, fanFrom]
  | cons x xs ih =>
    have hx := hrefs x (List.mem_cons_self x xs)
    have hxs : FaceLineOk xs := fun y hy => hrefs y (List.mem_cons_of_mem x hy)
    have hne := ne_nil_of_isdigit_peek _ hx.2.2.1
    rw [ClearWhitespace_faceLine x xs _ hrefs] at hn ⊢
    simp only at hn ⊢
    obtain ⟨m, rfl⟩ : ∃ m, n = m + 1 := ⟨n - 1, by omega⟩
    have hd : isdigit (peek (x.2.1 ++ faceLine xs (trail ++ tail))) = true := by
      rw [peek_append _ _ hne]
      exact hx.2.2.1
    have he : ReadEdge (x.2.1 ++ faceLine xs (trail ++ tail)) =
        (⟨x.2.2, true⟩, faceLine xs (trail ++ tail)) :=
      hx.2.2.2 _ (endsToken_faceLine xs trail tail hxs htrail ht)
    have hlen : (ClearWhitespace (faceLine xs (trail ++ tail))).2.length + 1 ≤ m := by
      have h1 := ClearWhitespace_length (faceLine xs (trail ++ tail))
      have h2 : 1 ≤ x.2.1.length := List.length_pos.mpr hne
      rw [List.length_append] at hn
      omega
    rw [ReadFace_loop]
    simp only [hd, he, if_true]
    rw [ih hxs m _ _ hlen]
    simp [fanFrom]

/-- C2: let the text after the `f` of a face line be `N ≥ 3` corner
references, each preceded by at least one blank and decoding to its edge,
then optional blanks and the end of the line (a newline or NUL).  `ReadFace`
appends to the face list exactly the triangles of the fan over the decoded
corners `c0, ..., c(N-1)`, and leaves the cursor on the end of the line; the
fan has `N - 2` triangles and its `k`-th triangle is `(c0, c(k+1), c(k+2))`.
In particular the quad `f 1/1/1 2/2/1 3/3/1 4/4/1` gives `(1,2,3)` and
`(1,3,4)`. -/
theorem ReadFace_fan {F : Type} (file : OBJFile F) (refs : List (List Nat × List Nat × Edge))
    (trail tail : List Nat) (hN : 3 ≤ refs.length) (hrefs : FaceLineOk refs)
    (htrail : IsBlank trail) (ht : peek tail = 10 ∨ peek tail = 0)
    (hdata : file.data = faceLine refs (trail ++ tail)) :
    (ReadFace file).faces =
        file.faces ++ (fanTriangles (refs.map fun x => x.2.2)).map some ∧
      (ReadFace file).data = tail ∧
      (fanTriangles (refs.map fun x => x.2.2)).length = refs.length - 2 ∧
      (∀ k a b c, (refs.map fun x => x.2.2)[0]? = some a →
        (refs.map fun x => x.2.2)[k + 1]? = some b →
        (refs.map fun x => x.2.2)[k + 2]? = some c →
        (fanTriangles (refs.map fun x => x.2.2))[k]? = some ⟨a, b, c⟩) ∧
      (ReadFace (sampleFile (bytes " 1/1/1 2/2/1 3/3/1 4/4/1\n"))).faces =
        [some ⟨⟨1, 1, 1⟩, ⟨2, 2, 1⟩, ⟨3, 3, 1⟩⟩, some ⟨⟨1, 1, 1⟩, ⟨3, 3, 1⟩, ⟨4, 4, 1⟩⟩] := by
  refine ⟨?_, ?_, ?_, fun k a b c => fanTriangles_get _ k a b c, by decide⟩
  all_goals
    obtain ⟨x0, x1, x2, xs, rfl⟩ : ∃ x0 x1 x2 xs, refs = x0 :: x1 :: x2 :: xs := by
      match refs, hN with
      | x0 :: x1 :: x2 :: xs, _ => exact ⟨x0, x1, x2, xs, rfl⟩
    have h1 : FaceLineOk (x1 :: x2 :: xs) := fun y hy => hrefs y (List.mem_cons_of_mem x0 hy)
    have h2 : FaceLineOk (x2 :: xs) := fun y hy => h1 y (List.mem_cons_of_mem x1 hy)
    have h3 : FaceLineOk xs := fun y hy => h2 y (List.mem_cons_of_mem x2 hy)
    have e0 := ReadEdge_faceLine x0 _ trail tail hrefs htrail ht
    have e1 := ReadEdge_faceLine x1 _ trail tail h1 htrail ht
    have e2 := ReadEdge_faceLine x2 _ trail tail h2 htrail ht
    have hl := ReadFace_loop_fan xs trail tail h3 htrail ht _
      (file.faces ++ [some ⟨x0.2.2, x1.2.2, x2.2.2⟩]) ⟨x0.2.2, x1.2.2, x2.2.2⟩ (le_refl _)
  · simp only [ReadFace, hdata, e0, e1, e2, hl]
    simp [fanTriangles, fanFrom]
  · simp only [ReadFace, hdata, e0, e1, e2, hl]
    simp
  · simp [fanTriangles_length]

/-! ## Corner references of the form `a/b/c` -/

theorem stopsInt_of_endsToken (rest : List Nat) (h : endsToken rest) : stopsInt rest := by
  rcases h with h | h
  · right
    simp only [isspace, Bool.or_eq_true, beq_iff_eq, Bool.and_eq_true, decide_eq_true_eq] at h
    omega
  · exact Or.inl h

theorem ReadInt_loop_digits (ds rest : List Nat) (res : Int) (hds : IsDigits ds)
    (hr : stopsInt rest) : ReadInt_loop res (ds ++ rest) = ((ReadInt_loop res ds).1, rest) := by
  induction ds generalizing res with
  | nil =>
    cases rest with
    | nil => rfl
    | cons c r =>
      simp only [List.nil_append, ReadInt_loop]
      rcases hr with h | h
      · simp only [peek_cons] at h
        simp [h]
      · simp only [peek_cons] at h
        simp [h]
  | cons d ds ih =>
    have hd := hds d (List.mem_cons_self d ds)
    have hds2 : IsDigits ds := fun b hb => hds b (List.mem_cons_of_mem d hb)
    simp only [isdigit, Bool.and_eq_true, decide_eq_true_eq] at hd
    have hd0 : d ≠ 0 := by omega
    have hd9 : ¬ (d + 208) % 256 > 9 := by omega
    simp only [List.cons_append, ReadInt_loop, if_neg hd0, if_neg hd9]
    exact ih _ hds2

theorem peek_digits (ds rest : List Nat) (hds : IsDigits ds) (hne : ds ≠ []) :
    isdigit (peek (ds ++ rest)) = true := by
  cases ds with
  | nil => exact absurd rfl hne
  | cons d ds => exact hds d (List.mem_cons_self d ds)

theorem ReadValidInt_digits (ds rest : List Nat) (hds : IsDigits ds) (hne : ds ≠ [])
    (hr : stopsInt rest) : ReadValidInt (ds ++ rest) = (⟨(ReadInt ds).1, true⟩, rest) := by
  simp [ReadValidInt, ClearWhitespace_digit _ (peek_digits ds rest hds hne), ReadInt,
    ReadInt_loop_digits ds rest 0 hds hr]

theorem ReadIntDefault_digits (ds rest : List Nat) (dflt : Int) (hds : IsDigits ds)
    (hne : ds ≠ []) (hr : stopsInt rest) :
    ReadIntDefault (ds ++ rest) dflt = ((ReadInt ds).1, rest) := by
  simp [ReadIntDefault, ClearWhitespace_digit _ (peek_digits ds rest hds hne),
    peek_digits ds rest hds hne, ReadInt, ReadInt_loop_digits ds rest 0 hds hr]

/-- A reference `a/b/c` of three digit strings decodes to the edge of the
three numbers, with the texture index `1` in place of a texture number `0`. -/
theorem DecodesTo_three (da db dc : List Nat) (hda : IsDigits da) (hna : da ≠ [])
    (hdb : IsDigits db) (hnb : db ≠ []) (hdc : IsDigits dc) (hnc : dc ≠ []) :
    DecodesTo (da ++ 47 :: (db ++ 47 :: dc))
      ⟨(ReadInt da).1, if (ReadInt db).1 = 0 then 1 else (ReadInt db).1, (ReadInt dc).1⟩ := by
  refine ⟨peek_digits da _ hda hna, ?_⟩
  intro rest hrest
  have hslash : ∀ x : List Nat, stopsInt (47 :: x) := fun x => Or.inr (by simp)
  have ha := ReadValidInt_digits da (47 :: (db ++ 47 :: (dc ++ rest))) hda hna (hslash _)
  have hb := ReadIntDefault_digits db (47 :: (dc ++ rest)) 0 hdb hnb (hslash _)
  have hc := ReadValidInt_digits dc rest hdc hnc (stopsInt_of_endsToken rest hrest)
  simp only [List.append_assoc, List.cons_append] at ha hb hc ⊢
  simp [ReadEdge, ha, hb, hc]

theorem quadRefs_ok : FaceLineOk quadRefs := by
  intro x hx
  simp only [quadRefs, List.mem_cons, List.mem_singleton, List.not_mem_nil, or_false] at hx
  rcases hx with rfl | rfl | rfl | rfl
  · exact ⟨by decide, by decide,
      DecodesTo_three [49] [49] [49] (by decide) (by decide) (by decide) (by decide) (by decide)
        (by decide)⟩
  · exact ⟨by decide, by decide,
      DecodesTo_three [50] [50] [49] (by decide) (by decide) (by decide) (by decide) (by decide)
        (by decide)⟩
  · exact ⟨by decide, by decide,
      DecodesTo_three [51] [51] [49] (by decide) (by decide) (by decide) (by decide) (by decide)
        (by decide)⟩
  · exact ⟨by decide, by decide,
      DecodesTo_three [52] [52] [49] (by decide) (by decide) (by decide) (by decide) (by decide)
        (by decide)⟩

theorem ReadFace_fan_witness :
    (ReadFace (sampleFile (bytes " 1/1/1 2/2/1 3/3/1 4/4/1\n"))).faces =
      [] ++ (fanTriangles [⟨1, 1, 1⟩, ⟨2, 2, 1⟩, ⟨3, 3, 1⟩, ⟨4, 4, 1⟩]).map some :=
  (ReadFace_fan (sampleFile (bytes " 1/1/1 2/2/1 3/3/1 4/4/1\n")) quadRefs [] [10] (by decide)
    quadRefs_ok (by decide) (by decide) (by decide)).1

/-! ## Mesh assembly (`LoadObjMesh`, lines 434-473) -/

theorem LoadObjMesh_corner_eq {F : Type} (file : OBJFile F) (i j : Nat) (m : Mesh F) :
    LoadObjMesh_corner file i j m =
      (cornerData file i j).map fun d =>
        { m with
          vertices := ((m.vertices.set (i * 9 + j * 3) d.1.x).set (i * 9 + j * 3 + 1) d.1.y).set
            (i * 9 + j * 3 + 2) d.1.z
          texcoords := (m.texcoords.set (i * 6 + j * 2) d.2.1.x).set (i * 6 + j * 2 + 1) d.2.1.y
          normals := ((m.normals.set (i * 9 + j * 3) d.2.2.x).set (i * 9 + j * 3 + 1) d.2.2.y).set
            (i * 9 + j * 3 + 2) d.2.2.z } := by
  unfold LoadObjMesh_corner cornerData
  split
  · split <;> simp_all
  · simp_all

theorem LoadObjMesh_corner_step {F : Type} (file : OBJFile F) (k : Nat) (m : Mesh F) (i j : Nat)
    (hi : i < k) (hj : j < 3) (hm : FilledUpTo file k m i j)
    (d : Vector3 F × Vector2 F × Vector3 F) (hd : cornerData file i j = some d) :
    ∃ m', LoadObjMesh_corner file i j m = some m' ∧ FilledUpTo file k m' i (j + 1) ∧
      m'.vertexCount = m.vertexCount ∧ m'.triangleCount = m.triangleCount := by
  rw [LoadObjMesh_corner_eq, hd]
  refine ⟨_, rfl, ?_, rfl, rfl⟩
  obtain ⟨hv, ht, hn, hprev⟩ := hm
  refine ⟨by simpa using hv, by simpa using ht, by simpa using hn, ?_⟩
  intro i' j' hj' hlt
  by_cases hsame : i' = i ∧ j' = j
  · obtain ⟨rfl, rfl⟩ := hsame
    refine ⟨d.1, d.2.1, d.2.2, hd, ?_⟩
    simp only [List.getElem?_set, List.length_set]
    refine ⟨?_, ?_, ?_, ?_, ?_, ?_, ?_, ?_⟩ <;> split_ifs <;> first | rfl | omega
  · have hne : i' ≠ i ∨ j' ≠ j := by
      by_contra hcon
      push_neg at hcon
      exact hsame hcon
    have hlt' : i' < i ∨ (i' = i ∧ j' < j) := by omega
    obtain ⟨v, t, n, hc, h1, h2, h3, h4, h5, h6, h7, h8⟩ := hprev i' j' hj' hlt'
    refine ⟨v, t, n, hc, ?_⟩
    simp only [List.getElem?_set, List.length_set]
    refine ⟨?_, ?_, ?_, ?_, ?_, ?_, ?_, ?_⟩ <;> split_ifs <;> first | assumption | omega

theorem LoadObjMesh_face_step {F : Type} (file : OBJFile F) (k : Nat) (m : Mesh F) (i : Nat)
    (hi : i < k) (hm : FilledUpTo file k m i 0)
    (hd : ∀ j, j < 3 → ∃ d, cornerData file i j = some d) :
    ∃ m', LoadObjMesh_face file i m = some m' ∧ FilledUpTo file k m' (i + 1) 0 ∧
      m'.vertexCount = m.vertexCount ∧ m'.triangleCount = m.triangleCount := by
  obtain ⟨d0, hd0⟩ := hd 0 (by omega)
  obtain ⟨d1, hd1⟩ := hd 1 (by omega)
  obtain ⟨d2, hd2⟩ := hd 2 (by omega)
  obtain ⟨m0, h0, hf0, hv0, ht0⟩ := LoadObjMesh_corner_step file k m i 0 hi (by omega) hm d0 hd0
  obtain ⟨m1, h1, hf1, hv1, ht1⟩ := LoadObjMesh_corner_step file k m0 i 1 hi (by omega) hf0 d1 hd1
  obtain ⟨m2, h2, hf2, hv2, ht2⟩ := LoadObjMesh_corner_step file k m1 i 2 hi (by omega) hf1 d2 hd2
  refine ⟨m2, ?_, ?_, by rw [hv2, hv1, hv0], by rw [ht2, ht1, ht0]⟩
  · simp [LoadObjMesh_face, h0, h1, h2]
  · obtain ⟨hv, ht, hn, hprev⟩ := hf2
    refine ⟨hv, ht, hn, ?_⟩
    intro i' j' hj' hlt
    exact hprev i' j' hj' (by omega)

theorem LoadObjMesh_faces_spec {F : Type} (file : OBJFile F) (k n : Nat) (m : Mesh F) (i : Nat)
    (hik : i + n = k) (hm : FilledUpTo file k m i 0)
    (hd : ∀ i' j, i' < k → j < 3 → ∃ d, cornerData file i' j = some d) :
    ∃ m', LoadObjMesh_faces file n i m = some m' ∧ FilledUpTo file k m' k 0 ∧
      m'.vertexCount = m.vertexCount ∧ m'.triangleCount = m.triangleCount := by
  induction n generalizing m i with
  | zero =>
    have hik2 : i = k := by omega
    subst hik2
    exact ⟨m, rfl, hm, rfl, rfl⟩
  | succ n ih =>
    obtain ⟨m1, h1, hf1, hv1, ht1⟩ :=
      LoadObjMesh_face_step file k m i (by omega) hm (fun j hj => hd i j (by omega) hj)
    obtain ⟨m2, h2, hf2, hv2, ht2⟩ := ih m1 (i + 1) (by omega) hf1
    refine ⟨m2, ?_, hf2, by rw [hv2, hv1], by rw [ht2, ht1]⟩
    simp [LoadObjMesh_faces, h1, h2]

theorem readAt_pred {α : Type} (arr : List α) (idx : Int) (h1 : 1 ≤ idx)
    (h2 : idx ≤ (arr.length : Int)) : ∃ a, readAt arr (idx - 1) = some a := by
  have h0 : (0 : Int) ≤ idx - 1 := by omega
  have hlt : (idx - 1).toNat < arr.length := by omega
  exact ⟨arr[(idx - 1).toNat], by simp [readAt, h0, hlt]⟩

theorem readAt_replicate {α : Type} (n : Nat) (a b : α) (idx : Int)
    (h : readAt (List.replicate n a) idx = some b) : b = a := by
  unfold readAt at h
  split at h
  · simp only [List.get?_eq_getElem?, List.getElem?_replicate] at h
    split at h
    · exact (Option.some.inj h).symm
    · exact absurd h (by simp)
  · exact absurd h (by simp)

theorem LoadObjMesh_fill_faces {F : Type} [FloatOps F] (file : OBJFile F) :
    (LoadObjMesh_fill file).faces = file.faces := by
  unfold LoadObjMesh_fill
  simp only
  split_ifs <;> rfl

theorem LoadObjMesh_fill_vertices {F : Type} [FloatOps F] (file : OBJFile F) :
    (LoadObjMesh_fill file).vertices = file.vertices := by
  unfold LoadObjMesh_fill
  simp only
  split_ifs <;> rfl

theorem LoadObjMesh_fill_texcoords {F : Type} [FloatOps F] (file : OBJFile F)
    (htc : file.texcoord_count ≤ file.texcoords.length) :
    (LoadObjMesh_fill file).texcoords =
      if file.texcoord_count = 0 then
        List.replicate file.vertex_count ⟨FloatOps.ofInt 0, FloatOps.ofInt 0⟩
      else file.texcoords := by
  have hne : file.texcoord_count ≠ 0 → file.texcoords.isEmpty = false := by
    intro h
    cases hl : file.texcoords with
    | nil =>
      rw [hl] at htc
      simp at htc
      exact absurd htc h
    | cons a l => rfl
  unfold LoadObjMesh_fill
  simp only
  by_cases h0 : file.texcoord_count = 0
  · simp only [h0, true_or, if_true]
    split_ifs <;> rfl
  · simp only [h0, hne h0, false_or, if_false]
    split_ifs <;> first | rfl | contradiction

theorem LoadObjMesh_fill_normals {F : Type} [FloatOps F] (file : OBJFile F)
    (hnc : file.normal_count ≤ file.normals.length) :
    (LoadObjMesh_fill file).normals =
      if file.normal_count = 0 then
        List.replicate file.vertex_count ⟨FloatOps.ofInt 0, FloatOps.ofInt 0, FloatOps.ofInt 0⟩
      else file.normals := by
  have hne : file.normal_count ≠ 0 → file.normals.isEmpty = false := by
    intro h
    cases hl : file.normals with
    | nil =>
      rw [hl] at hnc
      simp at hnc
      exact absurd hnc h
    | cons a l => rfl
  unfold LoadObjMesh_fill
  simp only
  by_cases h0 : file.normal_count = 0
  · split_ifs <;> simp_all [OBJFile.vertex_count]
  · split_ifs <;> simp_all [OBJFile.vertex_count]

theorem cornerData_fill {F : Type} [FloatOps F] (file : OBJFile F)
    (htc : file.texcoord_count ≤ file.texcoords.length)
    (hnc : file.normal_count ≤ file.normals.length) (i j : Nat) (face : Face)
    (hface : file.faces[i]? = some (some face)) (hr : FaceInRange file face) (hj : j < 3) :
    ∃ d, cornerData (LoadObjMesh_fill file) i j = some d := by
  obtain ⟨hv1, hv2, ht1, ht2, hn1, hn2⟩ := hr j hj
  obtain ⟨v, hv⟩ := readAt_pred (LoadObjMesh_fill file).vertices _ hv1
    (by rw [LoadObjMesh_fill_vertices]; exact hv2)
  obtain ⟨t, ht⟩ := readAt_pred (LoadObjMesh_fill file).texcoords _ ht1 (by
    rw [LoadObjMesh_fill_texcoords file htc]
    split_ifs at ht2 ⊢
    · simpa [OBJFile.vertex_count] using ht2
    · omega)
  obtain ⟨n, hn⟩ := readAt_pred (LoadObjMesh_fill file).normals _ hn1 (by
    rw [LoadObjMesh_fill_normals file hnc]
    split_ifs at hn2 ⊢
    · simpa [OBJFile.vertex_count] using hn2
    · omega)
  refine ⟨(v, t, n), ?_⟩
  simp [cornerData, LoadObjMesh_fill_faces, hface, hv, ht, hn]

/-- C1: take any parser state whose `texcoords` and `normals` arrays have at
least `texcoord_count` and `normal_count` slots (`ArraysOk`, which holds in
every state the parser reaches), in which every face slot is written and every corner refers to a position in `1..vertex_count`, a
texture coordinate in `1..texcoord_count` and a normal in `1..normal_count`
(`1..vertex_count` when that count is `0`).  The assembly of `LoadObjMesh`
returns a mesh with `triangleCount` the number `N` of faces, `vertexCount`
`3 N`, position and normal buffers of `9 N` floats and a texture buffer of
`6 N` floats, in which the floats of corner `j` of face `i` are, from
`9 i + 3 j` on, the position with the index of the corner less one, from
`6 i + 2 j` on the texture coordinate, and from `9 i + 3 j` on in the normal
buffer the normal, where an undeclared texture or normal sequence (count `0`)
reads as zeros. -/
theorem LoadObjMesh_assemble_expansion {F : Type} [FloatOps F] (file : OBJFile F)
    (hok : ArraysOk file)
    (hfaces : ∀ i, i < file.face_count →
      ∃ face, file.faces[i]? = some (some face) ∧ FaceInRange file face) :
    ∃ m, (LoadObjMesh_assemble file).1 = some m ∧
      m.triangleCount = file.face_count ∧ m.vertexCount = 3 * file.face_count ∧
      m.vertices.length = 9 * file.face_count ∧ m.normals.length = 9 * file.face_count ∧
      m.texcoords.length = 6 * file.face_count ∧
      ∀ i face j, file.faces[i]? = some (some face) → j < 3 →
        ∃ v t n,
          readAt file.vertices ((face.edges j).vertex - 1) = some v ∧
          (if file.texcoord_count = 0 then some ⟨FloatOps.ofInt 0, FloatOps.ofInt 0⟩
            else readAt file.texcoords ((face.edges j).texcoord - 1)) = some t ∧
          (if file.normal_count = 0 then
              some ⟨FloatOps.ofInt 0, FloatOps.ofInt 0, FloatOps.ofInt 0⟩
            else readAt file.normals ((face.edges j).normal - 1)) = some n ∧
          m.vertices[9 * i + 3 * j]? = some v.x ∧ m.vertices[9 * i + 3 * j + 1]? = some v.y ∧
          m.vertices[9 * i + 3 * j + 2]? = some v.z ∧
          m.texcoords[6 * i + 2 * j]? = some t.x ∧ m.texcoords[6 * i + 2 * j + 1]? = some t.y ∧
          m.normals[9 * i + 3 * j]? = some n.x ∧ m.normals[9 * i + 3 * j + 1]? = some n.y ∧
          m.normals[9 * i + 3 * j + 2]? = some n.z := by
  obtain ⟨htc, hnc⟩ := hok
  by_cases hvc : file.vertex_count = 0
  · have hfc : file.face_count = 0 := by
      by_contra hne
      obtain ⟨face, _, hr⟩ := hfaces 0 (by omega)
      have := hr 0 (by omega)
      omega
    refine ⟨⟨0, 0, [], [], []⟩, by simp [LoadObjMesh_assemble, hvc], by simp [hfc],
      by simp [hfc], by simp [hfc], by simp [hfc], by simp [hfc], ?_⟩
    intro i face j hface _
    have hlen : file.faces.length = 0 := hfc
    have hnil : file.faces = [] := List.length_eq_zero.mp hlen
    rw [hnil] at hface
    simp at hface
  · have hfc : (LoadObjMesh_fill file).face_count = file.face_count := by
      simp [OBJFile.face_count, LoadObjMesh_fill_faces]
    have hd : ∀ i' j, i' < file.face_count → j < 3 →
        ∃ d, cornerData (LoadObjMesh_fill file) i' j = some d := by
      intro i' j hi' hj
      obtain ⟨face, hface, hr⟩ := hfaces i' hi'
      exact cornerData_fill file htc hnc i' j face hface hr hj
    obtain ⟨m, hm, ⟨hlv, hlt, hln, hall⟩, hvcount, htcount⟩ :=
      LoadObjMesh_faces_spec (LoadObjMesh_fill file) file.face_count file.face_count
        { vertexCount := file.face_count * 3
          triangleCount := file.face_count
          vertices := List.replicate (file.face_count * 3 * 3) (FloatOps.ofInt 0)
          texcoords := List.replicate (file.face_count * 3 * 2) (FloatOps.ofInt 0)
          normals := List.replicate (file.face_count * 3 * 3) (FloatOps.ofInt 0) } 0
        (by omega) ⟨by simp, by simp, by simp, fun i' j' _ h => by omega⟩ hd
    refine ⟨m, ?_, htcount, by rw [hvcount]; simp only; omega, by omega, by omega, by omega, ?_⟩
    · simp only [LoadObjMesh_assemble, hvc, ne_eq, not_false_eq_true, if_true, hfc]
      exact hm
    · intro i face j hface hj
      have hi : i < file.face_count := by
        have := (List.getElem?_eq_some_iff.mp hface).1
        exact this
      obtain ⟨v, t, n, hc, h1, h2, h3, h4, h5, h6, h7, h8⟩ := hall i j hj (Or.inl hi)
      have hc2 : readAt (LoadObjMesh_fill file).vertices ((face.edges j).vertex - 1) = some v ∧
          readAt (LoadObjMesh_fill file).texcoords ((face.edges j).texcoord - 1) = some t ∧
          readAt (LoadObjMesh_fill file).normals ((face.edges j).normal - 1) = some n := by
        simp only [cornerData, LoadObjMesh_fill_faces, List.get?_eq_getElem?, hface] at hc
        split at hc
        · rename_i v' t' n' hv' ht' hn'
          simp only [Option.some.injEq, Prod.mk.injEq] at hc
          obtain ⟨rfl, rfl, rfl⟩ := hc
          exact ⟨hv', ht', hn'⟩
        · exact absurd hc (by simp)
      obtain ⟨hrv, hrt, hrn⟩ := hc2
      rw [LoadObjMesh_fill_vertices] at hrv
      rw [LoadObjMesh_fill_texcoords file htc] at hrt
      rw [LoadObjMesh_fill_normals file hnc] at hrn
      refine ⟨v, t, n, hrv, ?_, ?_, ?_⟩
      · split_ifs at hrt ⊢
        · rw [readAt_replicate _ _ _ _ hrt]
        · exact hrt
      · split_ifs at hrn ⊢
        · rw [readAt_replicate _ _ _ _ hrn]
        · exact hrn
      · have e9 : 9 * i + 3 * j = i * 9 + j * 3 := by omega
        have e6 : 6 * i + 2 * j = i * 6 + j * 2 := by omega
        rw [e9, e6]
        exact ⟨h1, h2, h3, h4, h5, h6, h7, h8⟩

theorem LoadObjMesh_assemble_expansion_witness :
    ∃ m, (LoadObjMesh_assemble triangleState).1 = some m ∧ m.triangleCount = 1 ∧
      m.vertexCount = 3 ∧ m.vertices.length = 9 ∧ m.normals.length = 9 ∧
      m.texcoords.length = 6 := by
  obtain ⟨m, h1, h2, h3, h4, h5, h6, _⟩ :=
    LoadObjMesh_assemble_expansion triangleState (by decide) (by
      intro i hi
      have hi0 : i = 0 := by
        have : i < 1 := hi
        omega
      subst hi0
      exact ⟨⟨⟨1, 1, 1⟩, ⟨2, 1, 1⟩, ⟨3, 1, 1⟩⟩, rfl, by decide⟩)
  exact ⟨m, h1, h2, h3, h4, h5, h6⟩

/-! ## The cursor only moves forward, and the loops end by themselves -/

theorem IgnoreLine_scan_length (d : List Nat) : (IgnoreLine_scan d).length ≤ d.length := by
  induction d with
  | nil => simp [IgnoreLine_scan]
  | cons c d ih =>
    simp only [IgnoreLine_scan]
    split_ifs
    · simp only [List.length_cons]
      omega
    · simp

/-- `IgnoreLine` moves the cursor by at least one byte when bytes are left. -/
theorem IgnoreLine_length (d : List Nat) (hd : d ≠ []) : (IgnoreLine d).length < d.length := by
  have h := IgnoreLine_scan_length d
  unfold IgnoreLine
  cases hs : IgnoreLine_scan d with
  | nil =>
    simp only [List.tail_nil, List.length_nil]
    exact List.length_pos.mpr hd
  | cons c r =>
    rw [hs] at h
    simp only [List.tail_cons]
    simp only [List.length_cons] at h
    omega

theorem IgnoreLine_length_le (d : List Nat) : (IgnoreLine d).length ≤ d.length := by
  cases d with
  | nil => simp [IgnoreLine, IgnoreLine_scan]
  | cons c d => exact Nat.le_of_lt (IgnoreLine_length (c :: d) (by simp))

theorem ne_nil_of_peek_ne_zero (d : List Nat) (h : peek d ≠ 0) : d ≠ [] := by
  intro hd
  subst hd
  exact h rfl

theorem ReadName_copy_length (d : List Nat) : (ReadName_copy d).2.length ≤ d.length := by
  induction d with
  | nil => simp [ReadName_copy]
  | cons c d ih =>
    simp only [ReadName_copy]
    split_ifs
    · simp only [List.length_cons]
      omega
    · simp

theorem ReadName_length (d : List Nat) : (ReadName d).2.length ≤ d.length :=
  Nat.le_trans (ReadName_copy_length _) (ClearWhitespace_length d)

theorem ReadFloat_loop_length {F : Type} [FloatOps F] (res fact : F) (p : Bool) (d : List Nat) :
    (ReadFloat_loop res fact p d).2.length ≤ d.length := by
  induction d generalizing res fact p with
  | nil => simp [ReadFloat_loop]
  | cons c d ih =>
    simp only [ReadFloat_loop]
    split_ifs <;>
      first
        | (simp only [List.length_cons]; exact Nat.le_succ_of_le (ih _ _ _))
        | simp

theorem tail_length_le (d : List Nat) : d.tail.length ≤ d.length := by
  cases d <;> simp

theorem ReadFloat_length {F : Type} [FloatOps F] (d : List Nat) :
    (ReadFloat (F := F) d).2.length ≤ d.length := by
  unfold ReadFloat
  split_ifs
  · exact Nat.le_trans (ReadFloat_loop_length _ _ _ _) (tail_length_le d)
  · exact ReadFloat_loop_length _ _ _ _

theorem ReadValidFloat_length {F : Type} [FloatOps F] (d : List Nat) :
    (ReadValidFloat (F := F) d).2.length ≤ d.length := by
  unfold ReadValidFloat
  split_ifs
  · exact ClearWhitespace_length d
  · exact Nat.le_trans (ReadFloat_length _) (ClearWhitespace_length d)

theorem ReadFloatDefault_length {F : Type} [FloatOps F] (d : List Nat) (dflt : F) :
    (ReadFloatDefault d dflt).2.length ≤ d.length := by
  unfold ReadFloatDefault
  split_ifs
  · exact Nat.le_trans (ReadFloat_length _) (ClearWhitespace_length d)
  · exact ClearWhitespace_length d

theorem ReadInt_loop_length (res : Int) (d : List Nat) :
    (ReadInt_loop res d).2.length ≤ d.length := by
  induction d generalizing res with
  | nil => simp [ReadInt_loop]
  | cons c d ih =>
    simp only [ReadInt_loop]
    split_ifs
    · simp
    · simp
    · have := ih (wrapInt (res * 10 + (((c + 208) % 256 : Nat) : Int)))
      simp only [List.length_cons]
      omega

theorem ReadValidInt_length (d : List Nat) : (ReadValidInt d).2.length ≤ d.length := by
  unfold ReadValidInt
  split_ifs
  · exact ClearWhitespace_length d
  · exact Nat.le_trans (ReadInt_loop_length _ _) (ClearWhitespace_length d)

theorem ReadIntDefault_length (d : List Nat) (dflt : Int) :
    (ReadIntDefault d dflt).2.length ≤ d.length := by
  unfold ReadIntDefault
  split_ifs
  · exact Nat.le_trans (ReadInt_loop_length _ _) (ClearWhitespace_length d)
  · exact ClearWhitespace_length d

theorem ReadColor_length {F : Type} [FloatOps F] (d : List Nat) :
    (ReadColor (F := F) d).2.length ≤ d.length := by
  have h1 := ReadValidFloat_length (F := F) d
  have h2 := ReadValidFloat_length (F := F) (ReadValidFloat (F := F) d).2
  have h3 := ReadValidFloat_length (F := F) (ReadValidFloat (F := F) (ReadValidFloat (F := F) d).2).2
  unfold ReadColor
  simp only
  split_ifs <;> simp only <;> omega

theorem ReadEdge_length (d : List Nat) : (ReadEdge d).2.length ≤ d.length := by
  have h1 := ReadValidInt_length d
  have h2 := tail_length_le (ReadValidInt d).2
  have h3 := ReadIntDefault_length (ReadValidInt d).2.tail 0
  have h4 := tail_length_le (ReadIntDefault (ReadValidInt d).2.tail 0).2
  have h5 := ReadValidInt_length (ReadIntDefault (ReadValidInt d).2.tail 0).2.tail
  unfold ReadEdge
  simp only
  split_ifs <;> simp only <;> omega

/-- On a digit `ReadEdge` moves the cursor. -/
theorem ReadEdge_length_digit (d : List Nat) (hd : isdigit (peek d) = true) :
    (ReadEdge d).2.length < d.length := by
  cases d with
  | nil => exact absurd hd (by decide)
  | cons c d =>
    have hcw := ClearWhitespace_digit (c :: d) hd
    simp only [peek_cons, isdigit, Bool.and_eq_true, decide_eq_true_eq] at hd
    have hc0 : c ≠ 0 := by omega
    have hc9 : ¬ (c + 208) % 256 > 9 := by omega
    have hv : (ReadValidInt (c :: d)).2.length ≤ d.length := by
      simp only [ReadValidInt, hcw, ReadInt, ReadInt_loop, if_neg hc0, if_neg hc9]
      exact ReadInt_loop_length _ _
    have h2 := tail_length_le (ReadValidInt (c :: d)).2
    have h3 := ReadIntDefault_length (ReadValidInt (c :: d)).2.tail 0
    have h4 := tail_length_le (ReadIntDefault (ReadValidInt (c :: d)).2.tail 0).2
    have h5 := ReadValidInt_length (ReadIntDefault (ReadValidInt (c :: d)).2.tail 0).2.tail
    unfold ReadEdge
    simp only [List.length_cons]
    split_ifs <;> simp only <;> omega

theorem ReadFace_loop_length (n : Nat) (d : List Nat) (faces : List (Option Face)) (f : Face) :
    (ReadFace_loop n d faces f).1.length ≤ d.length := by
  induction n generalizing d faces f with
  | zero => simp [ReadFace_loop]
  | succ n ih =>
    have h1 := ReadEdge_length d
    have h2 := ClearWhitespace_length (ReadEdge d).2
    simp only [ReadFace_loop]
    split_ifs
    · exact Nat.le_trans (ih _ _ _) (by omega)
    · exact h1
    · simp

theorem ReadFace_length {F : Type} (file : OBJFile F) :
    (ReadFace file).data.length ≤ file.data.length := by
  have h0 := ReadEdge_length file.data
  have h1 := ReadEdge_length (ReadEdge file.data).2
  have h2 := ReadEdge_length (ReadEdge (ReadEdge file.data).2).2
  have h3 := ClearWhitespace_length (ReadEdge (ReadEdge (ReadEdge file.data).2).2).2
  unfold ReadFace
  simp only
  split_ifs
  · exact h0
  · simp only
    omega
  · simp only
    omega
  · exact Nat.le_trans (ReadFace_loop_length _ _ _ _) (by omega)

theorem ReadVertex_length {F : Type} [FloatOps F] (file : OBJFile F) :
    (ReadVertex file).data.length ≤ file.data.length := by
  have h0 := ReadValidFloat_length (F := F) file.data
  have h1 := ReadValidFloat_length (F := F) (ReadValidFloat (F := F) file.data).2
  have h2 := ReadValidFloat_length (F := F)
    (ReadValidFloat (F := F) (ReadValidFloat (F := F) file.data).2).2
  have h3 := ReadFloatDefault_length (F := F)
    (ReadValidFloat (F := F) (ReadValidFloat (F := F) (ReadValidFloat (F := F) file.data).2).2).2
    (FloatOps.ofInt 1)
  unfold ReadVertex
  simp only
  split_ifs <;> simp only <;> omega

theorem ReadTextureCoord_length {F : Type} [FloatOps F] (file : OBJFile F) :
    (ReadTextureCoord file).data.length ≤ file.data.length := by
  have h0 := ReadValidFloat_length (F := F) file.data
  have h1 := ReadFloatDefault_length (F := F) (ReadValidFloat (F := F) file.data).2
    (FloatOps.ofInt 0)
  have h2 := ReadFloatDefault_length (F := F)
    (ReadFloatDefault (F := F) (ReadValidFloat (F := F) file.data).2 (FloatOps.ofInt 0)).2
    (FloatOps.ofInt 0)
  unfold ReadTextureCoord
  simp only
  split_ifs <;> simp only <;> omega

theorem ReadNormal_length {F : Type} [FloatOps F] (file : OBJFile F) :
    (ReadNormal file).data.length ≤ file.data.length := by
  have h0 := ReadValidFloat_length (F := F) file.data
  have h1 := ReadValidFloat_length (F := F) (ReadValidFloat (F := F) file.data).2
  have h2 := ReadValidFloat_length (F := F)
    (ReadValidFloat (F := F) (ReadValidFloat (F := F) file.data).2).2
  unfold ReadNormal
  simp only
  split_ifs <;> simp only <;> omega

theorem ReadMtl_data {F : Type} [FloatOps F] (host : Host) (file : OBJFile F)
    (filename : List Nat) : (ReadMtl host file filename).data = file.data := by
  unfold ReadMtl
  simp only
  split <;> rfl

theorem drop_length_le (k : Nat) (d : List Nat) : (d.drop k).length ≤ d.length := by
  rw [List.length_drop]
  omega

/-- A pass of the parse loop of `LoadObjMesh` never moves the cursor back. -/
theorem LoadObjMesh_body_length {F : Type} [FloatOps F] (host : Host) (file : OBJFile F)
    (seen_o : Bool) (h : Nat) (r : OBJFile F × Bool × Nat)
    (hr : LoadObjMesh_body host file seen_o h = some r) :
    r.1.data.length ≤ file.data.length := by
  have ht := tail_length_le file.data
  have htt := tail_length_le file.data.tail
  have hv := ReadVertex_length { file with data := file.data.tail.tail }
  have hvt := ReadTextureCoord_length { file with data := file.data.tail.tail }
  have hvn := ReadNormal_length { file with data := file.data.tail.tail }
  have hf := ReadFace_length { file with data := file.data.tail }
  have hd := drop_length_le 6 file.data
  have hn := ReadName_length (file.data.drop 6)
  unfold LoadObjMesh_body at hr
  split_ifs at hr <;> simp only [Option.some.injEq] at hr <;> subst hr <;>
    simp only [ReadMtl_data] at * <;> omega

/-- With more passes allowed than bytes are left, the parse loop of
`LoadObjMesh` ends by itself: its result does not depend on the allowance. -/
theorem LoadObjMesh_loop_fuel {F : Type} [FloatOps F] (host : Host) (n m : Nat)
    (file : OBJFile F) (seen_o : Bool) (h : Nat) (hn : file.data.length < n)
    (hm : file.data.length < m) :
    LoadObjMesh_loop host n file seen_o h = LoadObjMesh_loop host m file seen_o h := by
  induction n generalizing m file seen_o h with
  | zero => omega
  | succ n ih =>
    obtain ⟨m, rfl⟩ : ∃ m', m = m' + 1 := ⟨m - 1, by omega⟩
    simp only [LoadObjMesh_loop]
    split_ifs with h0
    · rfl
    · cases hb : LoadObjMesh_body host file seen_o h with
      | none => rfl
      | some r =>
        simp only
        have hlen := LoadObjMesh_body_length host file seen_o h r hb
        have hne := ne_nil_of_peek_ne_zero file.data h0
        have hpos : 0 < file.data.length := List.length_pos.mpr hne
        have hi := IgnoreLine_length_le r.1.data
        by_cases hr0 : r.1.data = []
        · have hz : (IgnoreLine r.1.data).length = 0 := by
            rw [hr0]
            rfl
          exact ih m _ _ _ (by simp only; omega) (by simp only; omega)
        · have hlt := IgnoreLine_length r.1.data hr0
          exact ih m _ _ _ (by simp only; omega) (by simp only; omega)

theorem LoadObjMesh_loop_length {F : Type} [FloatOps F] (host : Host) (n : Nat)
    (file : OBJFile F) (seen_o : Bool) (h : Nat) :
    (LoadObjMesh_loop host n file seen_o h).1.data.length ≤ file.data.length := by
  induction n generalizing file seen_o h with
  | zero => simp [LoadObjMesh_loop]
  | succ n ih =>
    simp only [LoadObjMesh_loop]
    split_ifs with h0
    · simp
    · cases hb : LoadObjMesh_body host file seen_o h with
      | none => simp
      | some r =>
        simp only
        have hlen := LoadObjMesh_body_length host file seen_o h r hb
        have hi := IgnoreLine_length_le r.1.data
        exact Nat.le_trans (ih _ _ _) (by simp only; omega)

theorem LoadObjMesh_body_first {F : Type} [FloatOps F] (host : Host) (file : OBJFile F)
    (h : Nat) : ∃ r, LoadObjMesh_body host file false h = some r := by
  simp only [LoadObjMesh_body, Bool.false_eq_true, if_false]
  split_ifs <;> simp

/-- One call of `LoadObjMesh` on a cursor that is not at the end moves the
cursor. -/
theorem LoadObjMesh_loop_progress {F : Type} [FloatOps F] (host : Host) (n : Nat)
    (file : OBJFile F) (h : Nat) (h0 : peek file.data ≠ 0) :
    (LoadObjMesh_loop host (n + 1) file false h).1.data.length < file.data.length := by
  obtain ⟨r, hb⟩ := LoadObjMesh_body_first host file h
  have hlen := LoadObjMesh_body_length host file false h r hb
  have hne := ne_nil_of_peek_ne_zero file.data h0
  have hpos : 0 < file.data.length := List.length_pos.mpr hne
  simp only [LoadObjMesh_loop, if_neg h0, hb]
  have hl := LoadObjMesh_loop_length host n { r.1 with data := IgnoreLine r.1.data } r.2.1 r.2.2
  simp only at hl
  by_cases hr0 : r.1.data = []
  · have hz : (IgnoreLine r.1.data).length = 0 := by
      rw [hr0]
      rfl
    omega
  · have hlt := IgnoreLine_length r.1.data hr0
    omega

theorem LoadObjMesh_fill_data {F : Type} [FloatOps F] (file : OBJFile F) :
    (LoadObjMesh_fill file).data = file.data := by
  unfold LoadObjMesh_fill
  simp only
  split_ifs <;> rfl

theorem LoadObjMesh_assemble_data {F : Type} [FloatOps F] (file : OBJFile F) :
    (LoadObjMesh_assemble file).2.data = file.data := by
  unfold LoadObjMesh_assemble
  split_ifs
  · exact LoadObjMesh_fill_data file
  · rfl

theorem LoadObjMesh_progress {F : Type} [FloatOps F] (host : Host) (file : OBJFile F) (h : Nat)
    (h0 : peek file.data ≠ 0) : (LoadObjMesh host file h).2.data.length < file.data.length := by
  simp only [LoadObjMesh, LoadObjMesh_assemble_data]
  exact LoadObjMesh_loop_progress host _ file h h0

/-- With more calls allowed than bytes are left, the loop of `LoadObjDry`
ends by itself: its result does not depend on the allowance. -/
theorem LoadObjDry_loop_fuel {F : Type} [FloatOps F] (host : Host) (n m k : Nat)
    (file : OBJFile F) (meshes : List (OBJMesh F)) (hn : file.data.length < n)
    (hm : file.data.length < m) :
    LoadObjDry_loop host n k file meshes = LoadObjDry_loop host m k file meshes := by
  induction n generalizing m k file meshes with
  | zero => omega
  | succ n ih =>
    obtain ⟨m, rfl⟩ : ∃ m', m = m' + 1 := ⟨m - 1, by omega⟩
    simp only [LoadObjDry_loop]
    split_ifs with h0
    · rfl
    · have hp := LoadObjMesh_progress host file (host.mat_hash_uninit k) h0
      cases hl : LoadObjMesh host file (host.mat_hash_uninit k) with
      | mk om file1 =>
        rw [hl] at hp
        cases om with
        | none => rfl
        | some mesh =>
          simp only
          exact ih m _ _ _ (by simp only at hp; omega) (by simp only at hp; omega)

/-- With more passes allowed than bytes are left, the triangulation loop of
`ReadFace` ends by itself. -/
theorem ReadFace_loop_fuel (n m : Nat) (d : List Nat) (faces : List (Option Face)) (f : Face)
    (hn : d.length < n) (hm : d.length < m) :
    ReadFace_loop n d faces f = ReadFace_loop m d faces f := by
  induction n generalizing m d faces f with
  | zero => omega
  | succ n ih =>
    obtain ⟨m, rfl⟩ : ∃ m', m = m' + 1 := ⟨m - 1, by omega⟩
    simp only [ReadFace_loop]
    split_ifs with hd hv
    · have h1 := ReadEdge_length_digit d hd
      have h2 := ClearWhitespace_length (ReadEdge d).2
      exact ih m _ _ _ (by omega) (by omega)
    · rfl
    · rfl

theorem LoadMtlMat_map_length {F : Type} (d : List Nat) (mat : OBJMat F) :
    (LoadMtlMat_map d mat).1.length ≤ d.length := by
  have ht := tail_length_le d
  have htt := tail_length_le d.tail
  have h1 := ReadName_length d.tail.tail
  have h2 := ReadName_length d.tail
  have h3 := drop_length_le 2 d
  have h4 := ReadName_length (d.drop 2)
  have h5 := drop_length_le 4 d
  have h6 := ReadName_length (d.drop 4)
  unfold LoadMtlMat_map
  split_ifs <;> simp only <;> omega

/-- A pass of the loop of `LoadMtlMat` never moves the cursor back. -/
theorem LoadMtlMat_body_length {F : Type} [FloatOps F] (d : List Nat) (seen : Bool)
    (mat : OBJMat F) (r : List Nat × Bool × OBJMat F)
    (hr : LoadMtlMat_body d seen mat = some r) : r.1.length ≤ d.length := by
  have ht := tail_length_le d
  have htt := tail_length_le d.tail
  have hc := ReadColor_length (F := F) d.tail.tail
  have hf := ReadValidFloat_length (F := F) d.tail
  have h6 := drop_length_le 6 d
  have hn6 := ReadName_length (d.drop 6)
  have h4 := drop_length_le 4 d
  have hn4 := ReadName_length (d.drop 4)
  have hm4 := LoadMtlMat_map_length (d.drop 4) mat
  have h5 := drop_length_le 5 d
  have hn5 := ReadName_length (d.drop 5)
  unfold LoadMtlMat_body at hr
  simp only at hr
  split_ifs at hr <;> simp only [Option.some.injEq] at hr <;> subst hr <;> simp only <;> omega

/-- With more passes allowed than bytes are left, the loop of `LoadMtlMat`
ends by itself: its result does not depend on the allowance. -/
theorem LoadMtlMat_loop_fuel {F : Type} [FloatOps F] (n m : Nat) (d : List Nat) (seen : Bool)
    (mat : OBJMat F) (hn : d.length < n) (hm : d.length < m) :
    LoadMtlMat_loop n d seen mat = LoadMtlMat_loop m d seen mat := by
  induction n generalizing m d seen mat with
  | zero => omega
  | succ n ih =>
    obtain ⟨m, rfl⟩ : ∃ m', m = m' + 1 := ⟨m - 1, by omega⟩
    simp only [LoadMtlMat_loop]
    split_ifs with h0
    · rfl
    · cases hb : LoadMtlMat_body d seen mat with
      | none => rfl
      | some r =>
        simp only
        have hlen := LoadMtlMat_body_length d seen mat r hb
        have hne := ne_nil_of_peek_ne_zero d h0
        have hpos : 0 < d.length := List.length_pos.mpr hne
        by_cases hr0 : r.1 = []
        · have hz : (IgnoreLine r.1).length = 0 := by
            rw [hr0]
            rfl
          exact ih m _ _ _ (by omega) (by omega)
        · have hlt := IgnoreLine_length r.1 hr0
          exact ih m _ _ _ (by omega) (by omega)

theorem LoadMtlMat_loop_length {F : Type} [FloatOps F] (n : Nat) (d : List Nat) (seen : Bool)
    (mat : OBJMat F) : (LoadMtlMat_loop n d seen mat).2.length ≤ d.length := by
  induction n generalizing d seen mat with
  | zero => simp [LoadMtlMat_loop]
  | succ n ih =>
    simp only [LoadMtlMat_loop]
    split_ifs with h0
    · simp
    · cases hb : LoadMtlMat_body d seen mat with
      | none => simp
      | some r =>
        simp only
        have hlen := LoadMtlMat_body_length d seen mat r hb
        have hi := IgnoreLine_length_le r.1
        exact Nat.le_trans (ih _ _ _) (by omega)

theorem LoadMtlMat_body_first {F : Type} [FloatOps F] (d : List Nat) (mat : OBJMat F) :
    ∃ r, LoadMtlMat_body d false mat = some r := by
  simp only [LoadMtlMat_body, Bool.false_eq_true, if_false]
  split_ifs <;> exact ⟨_, rfl⟩

/-- One call of `LoadMtlMat` on a cursor that is not at the end moves the
cursor. -/
theorem LoadMtlMat_progress {F : Type} [FloatOps F] (d : List Nat) (h0 : peek d ≠ 0) :
    (LoadMtlMat (F := F) d).2.length < d.length := by
  obtain ⟨r, hb⟩ := LoadMtlMat_body_first (F := F) d LoadMtlMat_init
  have hlen := LoadMtlMat_body_length d false LoadMtlMat_init r hb
  have hne := ne_nil_of_peek_ne_zero d h0
  have hpos : 0 < d.length := List.length_pos.mpr hne
  simp only [LoadMtlMat, LoadMtlMat_loop, if_neg h0, hb]
  have hl := LoadMtlMat_loop_length d.length (IgnoreLine r.1) r.2.1 r.2.2
  by_cases hr0 : r.1 = []
  · have hz : (IgnoreLine r.1).length = 0 := by
      rw [hr0]
      rfl
    omega
  · have hlt := IgnoreLine_length r.1 hr0
    omega

/-- With more calls allowed than bytes are left, the loop of `ReadMtl` ends by
itself: its result does not depend on the allowance. -/
theorem ReadMtl_loop_fuel {F : Type} [FloatOps F] (n m : Nat) (mtl : List Nat)
    (base : Option (List Nat)) (mats : List (OBJMat F)) (hn : mtl.length < n)
    (hm : mtl.length < m) : ReadMtl_loop n mtl base mats = ReadMtl_loop m mtl base mats := by
  induction n generalizing m mtl mats with
  | zero => omega
  | succ n ih =>
    obtain ⟨m, rfl⟩ : ∃ m', m = m' + 1 := ⟨m - 1, by omega⟩
    simp only [ReadMtl_loop]
    split_ifs with h0
    · rfl
    · have hp := LoadMtlMat_progress (F := F) mtl h0
      exact ih m _ _ (by omega) (by omega)

/-! ## The array sizes in the states the parser reaches -/

theorem ReadVertex_arrays {F : Type} [FloatOps F] (file : OBJFile F) (h : ArraysOk file) :
    ArraysOk (ReadVertex file) := by
  unfold ReadVertex
  simp only
  split_ifs <;> exact h

theorem ReadTextureCoord_arrays {F : Type} [FloatOps F] (file : OBJFile F) (h : ArraysOk file) :
    ArraysOk (ReadTextureCoord file) := by
  obtain ⟨h1, h2⟩ := h
  unfold ReadTextureCoord
  simp only
  split_ifs
  · exact ⟨h1, h2⟩
  · refine ⟨?_, h2⟩
    simp only [List.length_append, List.length_take, List.length_singleton]
    omega

theorem ReadNormal_arrays {F : Type} [FloatOps F] (file : OBJFile F) (h : ArraysOk file) :
    ArraysOk (ReadNormal file) := by
  obtain ⟨h1, h2⟩ := h
  unfold ReadNormal
  simp only
  split_ifs
  · refine ⟨h1, ?_⟩
    simp only [List.length_append, List.length_take, List.length_singleton]
    omega
  · exact ⟨h1, h2⟩

theorem ReadFace_arrays {F : Type} (file : OBJFile F) (h : ArraysOk file) :
    ArraysOk (ReadFace file) := by
  unfold ReadFace
  simp only
  split_ifs <;> exact h

theorem ReadMtl_arrays {F : Type} [FloatOps F] (host : Host) (file : OBJFile F)
    (filename : List Nat) (h : ArraysOk file) : ArraysOk (ReadMtl host file filename) := by
  unfold ReadMtl
  simp only
  split <;> exact h

theorem LoadObjMesh_body_arrays {F : Type} [FloatOps F] (host : Host) (file : OBJFile F)
    (seen_o : Bool) (h : Nat) (r : OBJFile F × Bool × Nat)
    (hr : LoadObjMesh_body host file seen_o h = some r) (hf : ArraysOk file) :
    ArraysOk r.1 := by
  have hd : ∀ d : List Nat, ArraysOk { file with data := d } := fun _ => hf
  unfold LoadObjMesh_body at hr
  split_ifs at hr <;> simp only [Option.some.injEq] at hr <;> subst hr
  · exact ReadVertex_arrays _ (hd _)
  · exact ReadTextureCoord_arrays _ (hd _)
  · exact ReadNormal_arrays _ (hd _)
  · exact hd _
  · exact ReadFace_arrays _ (hd _)
  · exact hf
  · exact hd _
  · exact ReadMtl_arrays host _ _ (hd _)
  · exact hf

theorem LoadObjMesh_loop_arrays {F : Type} [FloatOps F] (host : Host) (n : Nat)
    (file : OBJFile F) (seen_o : Bool) (h : Nat) (hf : ArraysOk file) :
    ArraysOk (LoadObjMesh_loop host n file seen_o h).1 := by
  induction n generalizing file seen_o h with
  | zero => exact hf
  | succ n ih =>
    simp only [LoadObjMesh_loop]
    split_ifs with h0
    · exact hf
    · cases hb : LoadObjMesh_body host file seen_o h with
      | none => exact hf
      | some r => exact ih _ _ _ (LoadObjMesh_body_arrays host file seen_o h r hb hf)

theorem LoadObjMesh_fill_arrays {F : Type} [FloatOps F] (file : OBJFile F) (hf : ArraysOk file) :
    ArraysOk (LoadObjMesh_fill file) := by
  obtain ⟨h1, h2⟩ := hf
  have e1 : file.texcoords.isEmpty = true → file.texcoord_count = 0 := by
    intro h
    rw [List.isEmpty_iff.mp h] at h1
    exact Nat.le_zero.mp h1
  have e2 : file.normals.isEmpty = true → file.normal_count = 0 := by
    intro h
    rw [List.isEmpty_iff.mp h] at h2
    exact Nat.le_zero.mp h2
  unfold LoadObjMesh_fill ArraysOk
  simp only
  split_ifs with c1 c2 c2
  · have t0 : file.texcoord_count = 0 := c1.elim id e1
    have n0 : file.normal_count = 0 := c2.elim id e2
    simp only
    omega
  · have t0 : file.texcoord_count = 0 := c1.elim id e1
    simp only
    omega
  · have n0 : file.normal_count = 0 := c2.elim id e2
    simp only
    omega
  · exact ⟨h1, h2⟩

/-- Every state that `LoadObjMesh` assembles a mesh from, and every state it
returns, has arrays of the sizes that its counts say, when the state it
started from has; the state `LoadObjDry` starts from has. -/
theorem LoadObjMesh_arrays {F : Type} [FloatOps F] (host : Host) (file : OBJFile F) (h : Nat)
    (hf : ArraysOk file) :
    ArraysOk (LoadObjMesh_loop host (file.data.length + 1) file false h).1 ∧
      ArraysOk (LoadObjMesh host file h).2 := by
  have hl := LoadObjMesh_loop_arrays host (file.data.length + 1) file false h hf
  refine ⟨hl, ?_⟩
  simp only [LoadObjMesh, LoadObjMesh_assemble]
  split_ifs
  · exact LoadObjMesh_fill_arrays _ hl
  · exact hl

/-! ## Evaluations of the readers on concrete lines -/

/-- C11 (the code at the failing input): on the face line
`f 1/1/1 2/2/1 3/3/1 4/` the fourth corner fails to decode after the
triangulation loop has already enlarged the face array, so that the face
count has grown by `2` while one face was stored: the second slot is counted
and never written.  (When one of the first three corners fails, nothing is
changed.) -/
theorem failed_corner_leaves_face_slot :
    (ReadFace (sampleFile (bytes " 1/1/1 2/2/1 3/3/1 4/\n"))).faces =
        [some ⟨⟨1, 1, 1⟩, ⟨2, 2, 1⟩, ⟨3, 3, 1⟩⟩, none] ∧
      (ReadFace (sampleFile (bytes " 1/1/1 2/2/1 3/3/1 4/\n"))).face_count = 2 ∧
      (ReadFace (sampleFile (bytes " 1/1/1 2/2/1 3/\n"))).faces = [] := by
  decide

/-- C14 (the code at the failing input): the lines `disp foo` and `decal foo`
start with `d`, so the opacity branch takes them: the displacement and decal
map paths stay null and the opacity becomes `0`. -/
theorem disp_decal_taken_as_opacity :
    (LoadMtlMat (F := ℚ) (bytes "newmtl A\ndisp foo\n")).1.displacement_map = none ∧
      (LoadMtlMat (F := ℚ) (bytes "newmtl A\ndecal foo\n")).1.decal_map = none ∧
      (LoadMtlMat (F := ℚ) (bytes "newmtl A\ndisp foo\n")).1.opacity = 0 ∧
      (LoadMtlMat (F := ℚ) (bytes "newmtl A\ndecal foo\n")).1.opacity = 0 := by
  refine ⟨by decide, by decide, ?_, ?_⟩
  · simp [LoadMtlMat, LoadMtlMat_loop, LoadMtlMat_body, bytes, strncmp_eq, ReadName, ReadName_copy,
      ClearWhitespace, isspace, IgnoreLine, IgnoreLine_scan, ReadValidFloat, ReadFloat,
      ReadFloat_loop, FloatOps.gt, FloatOps.mul, FloatOps.ofInt, LoadMtlMat_init]
  · simp [LoadMtlMat, LoadMtlMat_loop, LoadMtlMat_body, bytes, strncmp_eq, ReadName, ReadName_copy,
      ClearWhitespace, isspace, IgnoreLine, IgnoreLine_scan, ReadValidFloat, ReadFloat,
      ReadFloat_loop, FloatOps.gt, FloatOps.mul, FloatOps.ofInt, LoadMtlMat_init]

/-- C19 (the code at the failing input): after a second slash `ReadEdge` takes
the edge for valid unless the line ends at a newline: in `1// 5` the blank is
skipped and `5` is read as the normal, and in `1//x` and in `1/2/` at the end
of the buffer the normal is `0`.  Only `1//` before a newline is invalid. -/
theorem missing_normal_accepted :
    ReadEdge (bytes " 1// 5\n") = (⟨⟨1, 1, 5⟩, true⟩, [10]) ∧
      ReadEdge (bytes " 1//x\n") = (⟨⟨1, 1, 0⟩, true⟩, bytes "x\n") ∧
      ReadEdge (bytes " 1/2/") = (⟨⟨1, 2, 0⟩, true⟩, []) ∧
      ReadEdge (bytes " 1//\n") = (InvalidEdge, [10]) := by
  decide

/-- C20 (the code at the failing input): in the buffer `a`, NUL, with the byte
`b` after the terminator, `IgnoreLine` leaves the cursor on `b`, one byte
beyond the terminating NUL.  (With a newline in place of the NUL it leaves
the cursor directly after the newline.)  So the parse loop of `LoadObjMesh`
on the buffer `o`, NUL goes on behind the terminator: when the bytes
`v 1 2 3` lie there, it appends a position. -/
theorem IgnoreLine_oversteps_terminator :
    IgnoreLine [97, 0, 98] = [98] ∧ IgnoreLine [97, 10, 98] = [98] ∧
      (LoadObjMesh_loop (twoFileHost [] []) 12 (sampleFile ([111, 0] ++ bytes "v 1 2 3\n")) false
        0).1.vertices.length = 1 := by
  decide

/-! ## Lines of number fields (`ReadFloat`, `ReadValidFloat`, `ReadFloatDefault`) -/

theorem stopsFloat_of_endsToken (rest : List Nat) (h : endsToken rest) : stopsFloat rest := by
  rcases h with h | h
  · right
    simp only [isspace, Bool.or_eq_true, beq_iff_eq, Bool.and_eq_true, decide_eq_true_eq] at h
    omega
  · exact Or.inl h

theorem ReadFloat_loop_stop {F : Type} [FloatOps F] (res fact : F) (p : Bool) (rest : List Nat)
    (hr : stopsFloat rest) : ReadFloat_loop res fact p rest = (FloatOps.mul res fact, rest) := by
  cases rest with
  | nil => rfl
  | cons c x =>
    simp only [stopsFloat, peek_cons] at hr
    rw [ReadFloat_loop]
    rcases hr with h | ⟨h1, h2⟩
    · rw [if_pos h]
    · by_cases h0 : c = 0
      · rw [if_pos h0]
      · rw [if_neg h0, if_neg h1, if_pos h2]

theorem ReadFloat_loop_nil {F : Type} [FloatOps F] (res fact : F) (p : Bool) :
    ReadFloat_loop res fact p [] = (FloatOps.mul res fact, []) := rfl

/-- The loop of `ReadFloat` takes the digits and points under the cursor and
stops on the byte after them. -/
theorem ReadFloat_loop_body {F : Type} [FloatOps F] (b rest : List Nat) (hb : IsNumBody b)
    (hr : stopsFloat rest) (res fact : F) (p : Bool) :
    ReadFloat_loop res fact p (b ++ rest) = ((ReadFloat_loop res fact p b).1, rest) := by
  induction b generalizing res fact p with
  | nil => rw [List.nil_append, ReadFloat_loop_stop res fact p rest hr, ReadFloat_loop_nil]
  | cons c b ih =>
    have hc := hb c (List.mem_cons_self c b)
    have hb2 : IsNumBody b := fun x hx => hb x (List.mem_cons_of_mem c hx)
    have h0 : c ≠ 0 := by
      rcases hc with hc | hc
      · simp only [isdigit, Bool.and_eq_true, decide_eq_true_eq] at hc
        omega
      · omega
    rw [List.cons_append, ReadFloat_loop, ReadFloat_loop, if_neg h0, if_neg h0]
    by_cases h46 : c = 46
    · rw [if_pos h46, if_pos h46]
      exact ih hb2 res fact true
    · have hd : ¬ (c + 208) % 256 > 9 := by
        rcases hc with hc | hc
        · simp only [isdigit, Bool.and_eq_true, decide_eq_true_eq] at hc
          omega
        · exact absurd hc h46
      rw [if_neg h46, if_neg h46, if_neg hd, if_neg hd]
      exact ih hb2 _ _ p

/-- Reading a number that is followed by a byte that stops `ReadFloat` gives
the value of the number alone and leaves the cursor right after it. -/
theorem ReadFloat_number {F : Type} [FloatOps F] (n rest : List Nat) (hn : IsNumber n)
    (hr : stopsFloat rest) : ReadFloat (F := F) (n ++ rest) = ((ReadFloat n).1, rest) := by
  obtain ⟨hne, hb⟩ := hn
  rw [ReadFloat, ReadFloat, peek_append n rest hne]
  by_cases h : peek n = 45
  · rw [if_pos h] at hb
    rw [if_pos h, if_pos h]
    cases n with
    | nil => exact absurd rfl hne
    | cons c n => exact ReadFloat_loop_body n rest hb hr _ _ false
  · rw [if_neg h] at hb
    rw [if_neg h, if_neg h]
    exact ReadFloat_loop_body n rest hb hr _ _ false

theorem ClearWhitespace_number (n rest : List Nat) (hn : IsNumber n) :
    ClearWhitespace (n ++ rest) = (true, n ++ rest) := by
  obtain ⟨hne, hb⟩ := hn
  cases n with
  | nil => exact absurd rfl hne
  | cons c n =>
    have hc : isspace c = false ∧ c ≠ 10 := by
      by_cases h : c = 45
      · subst h
        exact ⟨by decide, by decide⟩
      · rw [peek_cons, if_neg h] at hb
        rcases hb c (List.mem_cons_self c n) with hc | hc
        · simp only [isdigit, Bool.and_eq_true, decide_eq_true_eq] at hc
          refine ⟨?_, by omega⟩
          simp only [isspace, Bool.or_eq_false_iff, beq_eq_false_iff_ne, ne_eq,
            Bool.and_eq_false_iff, decide_eq_false_iff_not]
          omega
        · subst hc
          exact ⟨by decide, by decide⟩
    rw [List.cons_append, ClearWhitespace]
    simp [hc.1, hc.2]

/-- A number after blanks is read by `ReadValidFloat` as a valid value. -/
theorem ReadValidFloat_field {F : Type} [FloatOps F] (bl n rest : List Nat) (hbl : IsBlank bl)
    (hn : IsNumber n) (hr : stopsFloat rest) :
    ReadValidFloat (F := F) (bl ++ (n ++ rest)) = (⟨(ReadFloat n).1, true⟩, rest) := by
  simp [ReadValidFloat, ClearWhitespace_blank bl _ hbl, ClearWhitespace_number n rest hn,
    ReadFloat_number n rest hn hr]

/-- A number after blanks that starts with a digit is read by
`ReadFloatDefault`. -/
theorem ReadFloatDefault_field {F : Type} [FloatOps F] (bl n rest : List Nat) (dflt : F)
    (hbl : IsBlank bl) (hn : IsNumber n) (hd : isdigit (peek n) = true) (hr : stopsFloat rest) :
    ReadFloatDefault (bl ++ (n ++ rest)) dflt = ((ReadFloat n).1, rest) := by
  simp [ReadFloatDefault, ClearWhitespace_blank bl _ hbl, ClearWhitespace_number n rest hn,
    ReadFloat_number n rest hn hr, peek_append n rest hn.1, hd]

/-- At the end of the line, after blanks, `ReadFloatDefault` gives the
default. -/
theorem ReadFloatDefault_end {F : Type} [FloatOps F] (bl tail : List Nat) (dflt : F)
    (hbl : IsBlank bl) (ht : peek tail = 10 ∨ peek tail = 0) :
    ReadFloatDefault (bl ++ tail) dflt = (dflt, tail) := by
  have h2 := ClearWhitespace_line_end tail ht
  have hd : ¬ isdigit (peek tail) = true := by
    rcases ht with h | h <;> rw [h] <;> decide
  simp [ReadFloatDefault, ClearWhitespace_blank bl _ hbl, h2, hd]

/-- At a newline, after blanks, `ReadValidFloat` is invalid and stays on the
newline. -/
theorem ReadValidFloat_end {F : Type} [FloatOps F] (bl rest : List Nat) (hbl : IsBlank bl) :
    ReadValidFloat (F := F) (bl ++ 10 :: rest) = (⟨FloatOps.ofInt 0, false⟩, 10 :: rest) := by
  simp [ReadValidFloat, ClearWhitespace_blank bl _ hbl, ClearWhitespace]

theorem stopsFloat_fieldsText (fields : List (List Nat × List Nat)) (trail tail : List Nat)
    (hf : FieldsOk fields) (htrail : IsBlank trail) (ht : peek tail = 10 ∨ peek tail = 0) :
    stopsFloat (fieldsText fields (trail ++ tail)) := by
  apply stopsFloat_of_endsToken
  cases fields with
  | nil => exact endsToken_trail trail tail htrail ht
  | cons x xs =>
    have hx := hf x (List.mem_cons_self x xs)
    exact endsToken_of_blank x.1 _ hx.1 hx.2.1

/-! ## Texture coordinate lines (`ReadTextureCoord`) -/

/-- C16 (counterexample): in the line `vt 0.5 -0.5` the second number is
`-0.5`, and `ReadTextureCoord` appends the coordinate `(0.5, 0)`: a number that
does not start with a digit is not read by `ReadFloatDefault`. -/
theorem negative_second_texcoord_dropped :
    (ReadTextureCoord (sampleFile (bytes " 0.5 -0.5\n"))).texcoords = [⟨1 / 2, 0⟩] ∧
      (ReadFloat (F := ℚ) (bytes "-0.5")).1 = -1 / 2 := by
  constructor
  · simp [ReadTextureCoord, sampleFile, bytes, ReadValidFloat, ReadFloatDefault, ClearWhitespace,
      isspace, isdigit, ReadFloat, ReadFloat_loop, FloatOps.mul, FloatOps.add, FloatOps.div,
      FloatOps.ofInt]
    norm_num
  · simp [bytes, ReadFloat, ReadFloat_loop, FloatOps.mul, FloatOps.add, FloatOps.div,
      FloatOps.ofInt]
    norm_num

/-- A number after blanks that does not start with a digit is left unread by
`ReadFloatDefault`, which gives the default. -/
theorem ReadFloatDefault_nodigit {F : Type} [FloatOps F] (bl n rest : List Nat) (dflt : F)
    (hbl : IsBlank bl) (hn : IsNumber n) (hd : isdigit (peek n) = false) :
    ReadFloatDefault (bl ++ (n ++ rest)) dflt = (dflt, n ++ rest) := by
  simp [ReadFloatDefault, ClearWhitespace_blank bl _ hbl, ClearWhitespace_number n rest hn,
    peek_append n rest hn.1, hd]

/-- C16 (amended): for a `vt` line of one to three numbers, each after at
least one blank and each with or without a minus sign, except that the second
starts with a digit, followed by blanks and the end of the line,
`ReadTextureCoord` appends exactly one coordinate after the `texcoord_count`
stored ones: its first component is the first number, its second component is
the second number when there is one and `0` otherwise; a third number is
discarded.  The cursor is left at the end of the line when there are fewer
than three numbers, right after a third number that starts with a digit, and
in front of a third number that does not. -/
theorem ReadTextureCoord_fields {F : Type} [FloatOps F] (file : OBJFile F) (b1 n1 : List Nat)
    (more : List (List Nat × List Nat)) (trail tail : List Nat)
    (hdata : file.data = fieldsText ((b1, n1) :: more) (trail ++ tail))
    (hf : FieldsOk ((b1, n1) :: more)) (hlen : more.length ≤ 2)
    (hdig : ∀ x, more.head? = some x → isdigit (peek x.2) = true)
    (htrail : IsBlank trail) (ht : peek tail = 10 ∨ peek tail = 0) :
    ReadTextureCoord file =
      { file with
        data :=
          match more.drop 1 with
          | [] => tail
          | x3 :: _ =>
            if isdigit (peek x3.2) = true then trail ++ tail else x3.2 ++ (trail ++ tail)
        texcoords := file.texcoords.take file.texcoord_count ++
          [⟨(ReadFloat n1).1, (more.head?.map fun x => (ReadFloat x.2).1).getD (FloatOps.ofInt 0)⟩]
        texcoord_count := file.texcoord_count + 1 } := by
  have h1 := hf (b1, n1) (List.mem_cons_self _ _)
  have hmore : FieldsOk more := fun x hx => hf x (List.mem_cons_of_mem _ hx)
  have hU := ReadValidFloat_field (F := F) b1 n1 (fieldsText more (trail ++ tail)) h1.1 h1.2.2
    (stopsFloat_fieldsText more trail tail hmore htrail ht)
  have hendT : stopsFloat (trail ++ tail) :=
    stopsFloat_of_endsToken _ (endsToken_trail trail tail htrail ht)
  have hnil : IsBlank ([] : List Nat) := fun c hc => absurd hc (List.not_mem_nil c)
  have hend0 := ReadFloatDefault_end (F := F) [] tail (FloatOps.ofInt 0) hnil ht
  rw [List.nil_append] at hend0
  have hendt := ReadFloatDefault_end (F := F) trail tail (FloatOps.ofInt 0) htrail ht
  unfold ReadTextureCoord
  simp only [hdata, fieldsText, hU]
  match more, hmore, hlen, hdig with
  | [], _, _, _ =>
    simp [fieldsText, hendt, hend0]
  | [x2], hm, _, hd =>
    have h2 := hm x2 (List.mem_cons_self _ _)
    have hV := ReadFloatDefault_field (F := F) x2.1 x2.2 (trail ++ tail) (FloatOps.ofInt 0)
      h2.1 h2.2.2 (hd x2 rfl) hendT
    simp [fieldsText, hV, hendt]
  | [x2, x3], hm, _, hd =>
    have h2 := hm x2 (List.mem_cons_self _ _)
    have h3 := hm x3 (List.mem_cons_of_mem _ (List.mem_cons_self _ _))
    have hV := ReadFloatDefault_field (F := F) x2.1 x2.2 (x3.1 ++ (x3.2 ++ (trail ++ tail)))
      (FloatOps.ofInt 0) h2.1 h2.2.2 (hd x2 rfl)
      (stopsFloat_of_endsToken _ (endsToken_of_blank x3.1 _ h3.1 h3.2.1))
    by_cases h3d : isdigit (peek x3.2) = true
    · have hW := ReadFloatDefault_field (F := F) x3.1 x3.2 (trail ++ tail) (FloatOps.ofInt 0)
        h3.1 h3.2.2 h3d hendT
      simp [fieldsText, hV, hW, h3d]
    · have hW := ReadFloatDefault_nodigit (F := F) x3.1 x3.2 (trail ++ tail) (FloatOps.ofInt 0)
        h3.1 h3.2.2 (by simpa using h3d)
      simp [fieldsText, hV, hW, h3d]
  | _ :: _ :: _ :: _, _, hl, _ =>
    simp only [List.length_cons] at hl
    omega

theorem ReadTextureCoord_fields_witness :
    ReadTextureCoord (sampleFile (bytes " -0.5 0.25 -7\n")) =
      { sampleFile (bytes " -0.5 0.25 -7\n") with
        data := bytes "-7\n"
        texcoords := [⟨(ReadFloat (bytes "-0.5")).1, (ReadFloat (bytes "0.25")).1⟩]
        texcoord_count := 1 } :=
  ReadTextureCoord_fields (sampleFile (bytes " -0.5 0.25 -7\n")) [32] (bytes "-0.5")
    [([32], bytes "0.25"), ([32], bytes "-7")] [] [10] (by decide) (by decide) (by decide)
    (by decide) (by decide) (by decide)

/-! ## Lines with too few numbers -/

theorem IsBlank_nil : IsBlank [] := fun c hc => absurd hc (List.not_mem_nil c)

/-- Three `ReadValidFloat` calls on a line with fewer than three numbers: not
all three are valid, and the cursor is left on the newline. -/
theorem ReadValidFloat_short {F : Type} [FloatOps F] (fields : List (List Nat × List Nat))
    (trail rest : List Nat) (hf : ∀ x ∈ fields, IsBlank x.1 ∧ IsNumber x.2)
    (hsep : ∀ x ∈ fields.tail, x.1 ≠ []) (hlen : fields.length < 3) (htrail : IsBlank trail) :
    (ReadValidFloat (F := F) (ReadValidFloat (F := F) (ReadValidFloat (F := F)
        (fieldsText fields (trail ++ 10 :: rest))).2).2).2 = 10 :: rest ∧
      ¬ ((ReadValidFloat (F := F) (fieldsText fields (trail ++ 10 :: rest))).1.valid = true ∧
        (ReadValidFloat (F := F) (ReadValidFloat (F := F)
          (fieldsText fields (trail ++ 10 :: rest))).2).1.valid = true ∧
        (ReadValidFloat (F := F) (ReadValidFloat (F := F) (ReadValidFloat (F := F)
          (fieldsText fields (trail ++ 10 :: rest))).2).2).1.valid = true) := by
  have hT := ReadValidFloat_end (F := F) trail rest htrail
  have hN := ReadValidFloat_end (F := F) [] rest IsBlank_nil
  rw [List.nil_append] at hN
  have hstop : stopsFloat (trail ++ 10 :: rest) :=
    stopsFloat_of_endsToken _ (endsToken_trail trail (10 :: rest) htrail (Or.inl rfl))
  match fields, hf, hsep, hlen with
  | [], _, _, _ => simp [fieldsText, hT, hN]
  | [x1], hf, _, _ =>
    have h1 := hf x1 (List.mem_cons_self _ _)
    have hX := ReadValidFloat_field (F := F) x1.1 x1.2 (trail ++ 10 :: rest) h1.1 h1.2 hstop
    simp [fieldsText, hX, hT, hN]
  | [x1, x2], hf, hsep, _ =>
    have h1 := hf x1 (List.mem_cons_self _ _)
    have h2 := hf x2 (List.mem_cons_of_mem _ (List.mem_cons_self _ _))
    have hne : x2.1 ≠ [] := hsep x2 (List.mem_cons_self _ _)
    have hY := ReadValidFloat_field (F := F) x2.1 x2.2 (trail ++ 10 :: rest) h2.1 h2.2 hstop
    have hX := ReadValidFloat_field (F := F) x1.1 x1.2 (x2.1 ++ (x2.2 ++ (trail ++ 10 :: rest)))
      h1.1 h1.2 (stopsFloat_of_endsToken _ (endsToken_of_blank x2.1 _ h2.1 hne))
    simp [fieldsText, hX, hY, hT]
  | _ :: _ :: _ :: _, _, _, hl =>
    simp only [List.length_cons] at hl
    omega

theorem ReadVertex_short {F : Type} [FloatOps F] (file : OBJFile F)
    (fields : List (List Nat × List Nat)) (trail rest : List Nat)
    (hf : ∀ x ∈ fields, IsBlank x.1 ∧ IsNumber x.2) (hsep : ∀ x ∈ fields.tail, x.1 ≠ [])
    (hlen : fields.length < 3) (htrail : IsBlank trail)
    (hdata : file.data = fieldsText fields (trail ++ 10 :: rest)) :
    ReadVertex file = { file with data := 10 :: rest } := by
  obtain ⟨h1, h2⟩ := ReadValidFloat_short (F := F) fields trail rest hf hsep hlen htrail
  unfold ReadVertex
  simp only [hdata]
  rw [if_pos h2, h1]

theorem ReadNormal_short {F : Type} [FloatOps F] (file : OBJFile F)
    (fields : List (List Nat × List Nat)) (trail rest : List Nat)
    (hf : ∀ x ∈ fields, IsBlank x.1 ∧ IsNumber x.2) (hsep : ∀ x ∈ fields.tail, x.1 ≠ [])
    (hlen : fields.length < 3) (htrail : IsBlank trail)
    (hdata : file.data = fieldsText fields (trail ++ 10 :: rest)) :
    ReadNormal file = { file with data := 10 :: rest } := by
  obtain ⟨h1, h2⟩ := ReadValidFloat_short (F := F) fields trail rest hf hsep hlen htrail
  unfold ReadNormal
  simp only [hdata]
  rw [if_pos h2, h1]

theorem ReadTextureCoord_short {F : Type} [FloatOps F] (file : OBJFile F) (trail rest : List Nat)
    (htrail : IsBlank trail) (hdata : file.data = trail ++ 10 :: rest) :
    ReadTextureCoord file = { file with data := 10 :: rest } := by
  have hT := ReadValidFloat_end (F := F) trail rest htrail
  have hD := ReadFloatDefault_end (F := F) [] (10 :: rest) (FloatOps.ofInt 0) IsBlank_nil
    (Or.inl rfl)
  rw [List.nil_append] at hD
  unfold ReadTextureCoord
  simp [hdata, hT, hD]

/-- C17 (counterexample): the line `v 1 2` that ends at the end of the buffer
supplies two numeric fields, and the parse loop appends the position
`(1, 2, 0)`: at the terminating NUL `ClearWhitespace` reports that the line
goes on, and `ReadFloat` reads `0` there. -/
theorem short_vertex_line_at_buffer_end :
    (LoadObjMesh_loop (twoFileHost [] []) 6 (sampleFile (bytes "v 1 2")) false 0).1.vertices =
      [⟨1, 2, 0⟩] := by
  simp [LoadObjMesh_loop, LoadObjMesh_body, sampleFile, bytes, ReadVertex, ReadValidFloat,
    ReadFloatDefault, ClearWhitespace, isspace, isdigit, ReadFloat, ReadFloat_loop, IgnoreLine,
    IgnoreLine_scan, FloatOps.mul, FloatOps.add, FloatOps.div, FloatOps.ofInt]

/-- C17 (amended): a `v` or `vn` line with fewer than three numbers, and a `vt`
line with none, that ends at a newline (every number after at least one blank,
and the `v` followed by at least one blank) is dropped: the pass of the parse
loop over it changes nothing but the cursor, which it leaves on the newline,
and the loop goes on with the same sequences and counts right after the
newline.  There is no error to surface: the pass does not leave the loop. -/
theorem incomplete_line_dropped {F : Type} [FloatOps F] (host : Host) (file : OBJFile F)
    (seen_o : Bool) (mat_hash : Nat) (kw : List Nat) (fields : List (List Nat × List Nat))
    (trail rest : List Nat)
    (hkw : (kw = bytes "v" ∧ fields.length < 3 ∧ (fields = [] → trail ≠ [])) ∨
      (kw = bytes "vn" ∧ fields.length < 3) ∨ (kw = bytes "vt" ∧ fields = []))
    (hf : FieldsOk fields) (htrail : IsBlank trail)
    (hdata : file.data = kw ++ fieldsText fields (trail ++ 10 :: rest)) :
    LoadObjMesh_body host file seen_o mat_hash =
        some ({ file with data := 10 :: rest }, seen_o, mat_hash) ∧
      ∀ n, LoadObjMesh_loop host (n + 1) file seen_o mat_hash =
        LoadObjMesh_loop host n { file with data := rest } seen_o mat_hash := by
  have hf2 : ∀ x ∈ fields, IsBlank x.1 ∧ IsNumber x.2 := fun x hx => ⟨(hf x hx).1, (hf x hx).2.2⟩
  have hsep : ∀ x ∈ fields.tail, x.1 ≠ [] := fun x hx => (hf x (List.mem_of_mem_tail hx)).2.1
  have hbody : LoadObjMesh_body host file seen_o mat_hash =
      some ({ file with data := 10 :: rest }, seen_o, mat_hash) := by
    rcases hkw with ⟨hk, hlen, hnil⟩ | ⟨hk, hlen⟩ | ⟨hk, hnil⟩
    · -- the `v` line: the dispatcher steps over the first blank
      have hk2 : kw = [118] := by rw [hk]; decide
      have hsplit : ∃ c fields2 trail2, isspace c = true ∧
          fieldsText fields (trail ++ 10 :: rest) = c :: fieldsText fields2 (trail2 ++ 10 :: rest) ∧
          (∀ x ∈ fields2, IsBlank x.1 ∧ IsNumber x.2) ∧ (∀ x ∈ fields2.tail, x.1 ≠ []) ∧
          fields2.length < 3 ∧ IsBlank trail2 := by
        cases fields with
        | nil =>
          cases trail with
          | nil => exact absurd rfl (hnil rfl)
          | cons c t =>
            exact ⟨c, [], t, (htrail c (List.mem_cons_self c t)).1, rfl,
              fun x hx => absurd hx (List.not_mem_nil x), fun x hx => absurd hx (List.not_mem_nil x),
              by simp, fun b hb => htrail b (List.mem_cons_of_mem c hb)⟩
        | cons x xs =>
          have hx := hf x (List.mem_cons_self x xs)
          obtain ⟨xb, xn⟩ := x
          cases xb with
          | nil => exact absurd rfl hx.2.1
          | cons c b =>
            refine ⟨c, (b, xn) :: xs, trail, (hx.1 c (List.mem_cons_self c b)).1, rfl, ?_, hsep,
              hlen, htrail⟩
            intro y hy
            rcases List.mem_cons.1 hy with h | h
            · subst h
              exact ⟨fun d hd => hx.1 d (List.mem_cons_of_mem c hd), hx.2.2⟩
            · exact hf2 y (List.mem_cons_of_mem _ h)
      obtain ⟨c, fields2, trail2, hc, htext, hf3, hsep3, hlen3, htrail3⟩ := hsplit
      have hd : file.data = 118 :: c :: fieldsText fields2 (trail2 ++ 10 :: rest) := by
        rw [hdata, hk2, htext]
        rfl
      have hv := ReadVertex_short { file with data := fieldsText fields2 (trail2 ++ 10 :: rest) }
        fields2 trail2 rest hf3 hsep3 hlen3 htrail3 rfl
      simp only [LoadObjMesh_body, hd, peek_cons, List.tail_cons, hc, if_true, hv]
    · -- the `vn` line
      have hd : file.data = 118 :: 110 :: fieldsText fields (trail ++ 10 :: rest) := by
        rw [hdata, hk]
        rfl
      have hv := ReadNormal_short { file with data := fieldsText fields (trail ++ 10 :: rest) }
        fields trail rest hf2 hsep hlen htrail rfl
      have h1 : isspace 110 = false := by decide
      simp [LoadObjMesh_body, hd, h1, hv]
    · -- the `vt` line
      have hd : file.data = 118 :: 116 :: (trail ++ 10 :: rest) := by
        rw [hdata, hk, hnil]
        rfl
      have hv := ReadTextureCoord_short { file with data := trail ++ 10 :: rest } trail rest
        htrail rfl
      have h1 : isspace 116 = false := by decide
      simp [LoadObjMesh_body, hd, h1, hv]
  refine ⟨hbody, fun n => ?_⟩
  have hp : peek file.data ≠ 0 := by
    rw [hdata]
    rcases hkw with ⟨hk, _⟩ | ⟨hk, _⟩ | ⟨hk, _⟩ <;> rw [hk] <;> simp [bytes]
  rw [LoadObjMesh_loop, if_neg hp, hbody]
  rfl

theorem incomplete_line_dropped_witness :
    LoadObjMesh_body (twoFileHost [] []) (sampleFile (bytes "v 1 2 \nv 3")) false 0 =
        some ({ sampleFile (bytes "v 1 2 \nv 3") with data := bytes "\nv 3" }, false, 0) ∧
      ∀ n, LoadObjMesh_loop (twoFileHost [] []) (n + 1) (sampleFile (bytes "v 1 2 \nv 3")) false 0 =
        LoadObjMesh_loop (twoFileHost [] []) n
          { sampleFile (bytes "v 1 2 \nv 3") with data := bytes "v 3" } false 0 :=
  incomplete_line_dropped (twoFileHost [] []) (sampleFile (bytes "v 1 2 \nv 3")) false 0
    (bytes "v") [([32], bytes "1"), ([32], bytes "2")] [32] (bytes "v 3")
    (Or.inl ⟨rfl, by decide, by decide⟩) (by decide) (by decide) (by decide)

/-! ## The grammar of corner references (`ReadEdge`) -/

theorem foldl_dec_ge (ds : List Nat) (acc : Nat) :
    acc ≤ ds.foldl (fun v d => v * 10 + (d - 48)) acc := by
  induction ds generalizing acc with
  | nil => exact Nat.le_refl acc
  | cons d ds ih =>
    have h := ih (acc * 10 + (d - 48))
    simp only [List.foldl_cons]
    omega

theorem wrapInt_small (x : Nat) (hx : x < 2 ^ 31) : wrapInt (x : Int) = (x : Int) := by
  unfold wrapInt
  omega

theorem ReadInt_loop_dec (ds : List Nat) (acc : Nat) (hds : IsDigits ds)
    (hlt : ds.foldl (fun v d => v * 10 + (d - 48)) acc < 2 ^ 31) :
    (ReadInt_loop (acc : Int) ds).1 = ((ds.foldl (fun v d => v * 10 + (d - 48)) acc : Nat) : Int) := by
  induction ds generalizing acc with
  | nil => rfl
  | cons c ds ih =>
    have hc := hds c (List.mem_cons_self c ds)
    have hds2 : IsDigits ds := fun x hx => hds x (List.mem_cons_of_mem c hx)
    simp only [isdigit, Bool.and_eq_true, decide_eq_true_eq] at hc
    have h0 : c ≠ 0 := by omega
    have hd : ¬ (c + 208) % 256 > 9 := by omega
    have hv : (c + 208) % 256 = c - 48 := by omega
    simp only [List.foldl_cons] at hlt ⊢
    have hge := foldl_dec_ge ds (acc * 10 + (c - 48))
    have hw : wrapInt ((acc : Int) * 10 + (((c + 208) % 256 : Nat) : Int)) =
        ((acc * 10 + (c - 48) : Nat) : Int) := by
      rw [hv, ← wrapInt_small (acc * 10 + (c - 48)) (by omega)]
      push_cast
      rfl
    rw [ReadInt_loop, if_neg h0, if_neg hd, hw]
    exact ih (acc * 10 + (c - 48)) hds2 hlt

/-- `ReadInt` on a string of digits whose number is below `2^31` gives that
number. -/
theorem ReadInt_decVal (ds : List Nat) (hds : IsDigits ds) (hlt : decVal ds < 2 ^ 31) :
    (ReadInt ds).1 = (decVal ds : Int) := by
  have h := ReadInt_loop_dec ds 0 hds hlt
  exact h

theorem ne_nil_of_decVal_pos (ds : List Nat) (h : 0 < decVal ds) : ds ≠ [] := by
  intro hn
  subst hn
  exact absurd h (by decide)

theorem peek_ne_slash_of_endsToken (rest : List Nat) (h : endsToken rest) : peek rest ≠ 47 := by
  rcases h with h | h
  · intro h47
    rw [h47] at h
    exact absurd h (by decide)
  · omega

/-- C18 (counterexample): the reference `4294967297/1/1` decodes to position
`1`, since the index is an `int`; and in `1/ 2/2/2` the reference `1/` is not
invalid: the blank after the slash is skipped and the edge `(1, 2, 2)` is made
from the bytes of the next reference. -/
theorem corner_index_wraps_and_slash_swallows :
    ReadEdge (bytes "4294967297/1/1\n") = (⟨⟨1, 1, 1⟩, true⟩, [10]) ∧
      ReadEdge (bytes "1/ 2/2/2\n") = (⟨⟨1, 2, 2⟩, true⟩, bytes "/2\n") := by
  decide

/-- C18 (amended): for strings of digits `da`, `db`, `dc` that stand for
positive numbers `a`, `b`, `c` below `2^31`, and a reference that is followed
by whitespace or the end of the buffer, `ReadEdge` decodes `a/b/c` to
`(a, b, c)`, `a//c` to `(a, 1, c)`, `a/c` to `(a, 1, c)` and `a` to
`(a, 0, 0)`, all valid and with the cursor right after the reference; and
`a/` followed by blanks and then by a byte that is neither a blank, a digit
nor a slash (such as the newline or the end of the buffer) is invalid. -/
theorem ReadEdge_grammar (da db dc rest : List Nat) (hda : IsDigits da) (hdb : IsDigits db)
    (hdc : IsDigits dc) (ha : 0 < decVal da ∧ decVal da < 2 ^ 31)
    (hb : 0 < decVal db ∧ decVal db < 2 ^ 31) (hc : 0 < decVal dc ∧ decVal dc < 2 ^ 31)
    (hrest : endsToken rest) :
    ReadEdge (da ++ 47 :: (db ++ 47 :: (dc ++ rest))) =
        (⟨⟨decVal da, decVal db, decVal dc⟩, true⟩, rest) ∧
      ReadEdge (da ++ 47 :: 47 :: (dc ++ rest)) = (⟨⟨decVal da, 1, decVal dc⟩, true⟩, rest) ∧
      ReadEdge (da ++ 47 :: (dc ++ rest)) = (⟨⟨decVal da, 1, decVal dc⟩, true⟩, rest) ∧
      ReadEdge (da ++ rest) = (⟨⟨decVal da, 0, 0⟩, true⟩, rest) ∧
      ∀ blanks x : List Nat, IsBlank blanks → (peek x = 10 ∨ isspace (peek x) = false) →
        isdigit (peek x) = false → peek x ≠ 47 →
        ReadEdge (da ++ 47 :: (blanks ++ x)) = (InvalidEdge, x) := by
  have hna := ne_nil_of_decVal_pos da ha.1
  have hnb := ne_nil_of_decVal_pos db hb.1
  have hnc := ne_nil_of_decVal_pos dc hc.1
  have va := ReadInt_decVal da hda ha.2
  have vb := ReadInt_decVal db hdb hb.2
  have vc := ReadInt_decVal dc hdc hc.2
  have hb0 : ((decVal db : Nat) : Int) ≠ 0 := by
    have := hb.1
    omega
  have hc0 : ((decVal dc : Nat) : Int) ≠ 0 := by
    have := hc.1
    omega
  have hslash : ∀ x : List Nat, stopsInt (47 :: x) := fun x => Or.inr (by simp)
  have hstop := stopsInt_of_endsToken rest hrest
  have h47 := peek_ne_slash_of_endsToken rest hrest
  have rA : ∀ R, stopsInt R → ReadValidInt (da ++ R) = (⟨decVal da, true⟩, R) := by
    intro R hR
    rw [ReadValidInt_digits da R hda hna hR, va]
  have rC : ReadValidInt (dc ++ rest) = (⟨decVal dc, true⟩, rest) := by
    rw [ReadValidInt_digits dc rest hdc hnc hstop, vc]
  have dB : ReadIntDefault (db ++ 47 :: (dc ++ rest)) 0 = ((decVal db : Int), 47 :: (dc ++ rest)) := by
    rw [ReadIntDefault_digits db _ 0 hdb hnb (hslash _), vb]
  have dC : ReadIntDefault (dc ++ rest) 0 = ((decVal dc : Int), rest) := by
    rw [ReadIntDefault_digits dc rest 0 hdc hnc hstop, vc]
  have dS : ReadIntDefault (47 :: (dc ++ rest)) 0 = (0, 47 :: (dc ++ rest)) := by
    simp [ReadIntDefault, ClearWhitespace, isspace, isdigit]
  refine ⟨?_, ?_, ?_, ?_, ?_⟩
  · simp [ReadEdge, rA _ (hslash _), dB, rC, hb0]
  · simp [ReadEdge, rA _ (hslash _), dS, rC]
  · simp [ReadEdge, rA _ (hslash _), dC, h47, hc0]
  · simp [ReadEdge, rA _ hstop, h47]
  · intro blanks x hbl hx hdig hx47
    have hcw : (ClearWhitespace x).2 = x := by
      cases x with
      | nil => rfl
      | cons c x =>
        simp only [peek_cons] at hx
        rcases hx with h | h
        · simp [ClearWhitespace, h]
        · by_cases h10 : c = 10
          · simp [ClearWhitespace, h10]
          · simp [ClearWhitespace, h, h10]
    have dX : ReadIntDefault (blanks ++ x) 0 = (0, x) := by
      simp [ReadIntDefault, ClearWhitespace_blank blanks x hbl, hcw, hdig]
    simp [ReadEdge, rA _ (hslash _), dX, hx47]

theorem ReadEdge_grammar_witness :
    ReadEdge (bytes "12/7/30 ") = (⟨⟨12, 7, 30⟩, true⟩, [32]) ∧
      ReadEdge (bytes "12//30 ") = (⟨⟨12, 1, 30⟩, true⟩, [32]) ∧
      ReadEdge (bytes "12/30 ") = (⟨⟨12, 1, 30⟩, true⟩, [32]) ∧
      ReadEdge (bytes "12 ") = (⟨⟨12, 0, 0⟩, true⟩, [32]) ∧
      ReadEdge (bytes "12/ \n") = (InvalidEdge, [10]) := by
  obtain ⟨h1, h2, h3, h4, h5⟩ := ReadEdge_grammar (bytes "12") (bytes "7") (bytes "30") [32]
    (by decide) (by decide) (by decide) (by decide) (by decide) (by decide)
    (Or.inl (by decide))
  exact ⟨h1, h2, h3, h4, h5 [32] [10] (by decide) (by decide) (by decide) (by decide)⟩

/-! ## Material lines (`LoadMtlMat`) -/

/-- `ReadName` on a token after blanks gives the token and stops right after
it. -/
theorem ReadName_token (blanks t rest : List Nat) (hbl : IsBlank blanks) (ht : IsToken t)
    (hne : t ≠ []) (hr : endsToken rest) : ReadName (blanks ++ (t ++ rest)) = (t, rest) := by
  rw [ReadName, ClearWhitespace_blank blanks _ hbl, ClearWhitespace_token t rest ht hne]
  exact ReadName_copy_token t rest ht hr

theorem bytes_map : bytes "map_" = [109, 97, 112, 95] := by decide
theorem bytes_Ns : bytes "Ns" = [78, 115] := by decide
theorem bytes_bump : bytes "bump" = [98, 117, 109, 112] := by decide
theorem bytes_disp : bytes "disp" = [100, 105, 115, 112] := by decide
theorem bytes_decal : bytes "decal" = [100, 101, 99, 97, 108] := by decide

/-- C15: for every token `t` (not empty, without whitespace), after any blanks
and followed by whitespace or the end of the buffer, the pass of the loop of
`LoadMtlMat` over `map_Ka t`, `map_Kd t`, `map_Ks t`, `map_d t`, `map_Ns t`,
`map_bump t` and `bump t` stores `t` as the ambient, diffuse, specular, alpha,
highlight, bump and bump map path and changes no other field of the record;
the cursor is left right after the token. -/
theorem map_lines_store_token {F : Type} [FloatOps F] (blanks t rest : List Nat)
    (seen_newmtl : Bool) (mat : OBJMat F) (hbl : IsBlank blanks) (ht : IsToken t) (hne : t ≠ [])
    (hr : endsToken rest) :
    LoadMtlMat_body (bytes "map_Ka" ++ (blanks ++ (t ++ rest))) seen_newmtl mat =
        some (rest, seen_newmtl, { mat with ambient_map := some t }) ∧
      LoadMtlMat_body (bytes "map_Kd" ++ (blanks ++ (t ++ rest))) seen_newmtl mat =
        some (rest, seen_newmtl, { mat with diffuse_map := some t }) ∧
      LoadMtlMat_body (bytes "map_Ks" ++ (blanks ++ (t ++ rest))) seen_newmtl mat =
        some (rest, seen_newmtl, { mat with specular_map := some t }) ∧
      LoadMtlMat_body (bytes "map_d" ++ (blanks ++ (t ++ rest))) seen_newmtl mat =
        some (rest, seen_newmtl, { mat with alpha_map := some t }) ∧
      LoadMtlMat_body (bytes "map_Ns" ++ (blanks ++ (t ++ rest))) seen_newmtl mat =
        some (rest, seen_newmtl, { mat with highlight_map := some t }) ∧
      LoadMtlMat_body (bytes "map_bump" ++ (blanks ++ (t ++ rest))) seen_newmtl mat =
        some (rest, seen_newmtl, { mat with bump_map := some t }) ∧
      LoadMtlMat_body (bytes "bump" ++ (blanks ++ (t ++ rest))) seen_newmtl mat =
        some (rest, seen_newmtl, { mat with bump_map := some t }) := by
  have hn := ReadName_token blanks t rest hbl ht hne hr
  have b1 : bytes "map_Ka" = [109, 97, 112, 95, 75, 97] := by decide
  have b2 : bytes "map_Kd" = [109, 97, 112, 95, 75, 100] := by decide
  have b3 : bytes "map_Ks" = [109, 97, 112, 95, 75, 115] := by decide
  have b4 : bytes "map_d" = [109, 97, 112, 95, 100] := by decide
  have b5 : bytes "map_Ns" = [109, 97, 112, 95, 78, 115] := by decide
  have b6 : bytes "map_bump" = [109, 97, 112, 95, 98, 117, 109, 112] := by decide
  refine ⟨?_, ?_, ?_, ?_, ?_, ?_, ?_⟩
  · simp [LoadMtlMat_body, LoadMtlMat_map, b1, bytes_newmtl, bytes_map, strncmp_eq, hn]
  · simp [LoadMtlMat_body, LoadMtlMat_map, b2, bytes_newmtl, bytes_map, strncmp_eq, hn]
  · simp [LoadMtlMat_body, LoadMtlMat_map, b3, bytes_newmtl, bytes_map, strncmp_eq, hn]
  · simp [LoadMtlMat_body, LoadMtlMat_map, b4, bytes_newmtl, bytes_map, strncmp_eq, hn]
  · simp [LoadMtlMat_body, LoadMtlMat_map, b5, bytes_newmtl, bytes_map, bytes_Ns, strncmp_eq, hn]
  · simp [LoadMtlMat_body, LoadMtlMat_map, b6, bytes_newmtl, bytes_map, bytes_Ns, bytes_bump,
      strncmp_eq, hn]
  · simp [LoadMtlMat_body, bytes_newmtl, bytes_map, bytes_bump, strncmp_eq, hn]

theorem map_lines_store_token_witness :
    LoadMtlMat_body (bytes "map_Kd wood.png\n") true (LoadMtlMat_init (F := ℚ)) =
        some ([10], true, { LoadMtlMat_init (F := ℚ) with diffuse_map := some (bytes "wood.png") }) ∧
      LoadMtlMat_body (bytes "bump wood.png\n") true (LoadMtlMat_init (F := ℚ)) =
        some ([10], true, { LoadMtlMat_init (F := ℚ) with bump_map := some (bytes "wood.png") }) :=
  ⟨(map_lines_store_token [32] (bytes "wood.png") [10] true (LoadMtlMat_init (F := ℚ))
      (by decide) (by decide) (by decide) (Or.inl (by decide))).2.1,
    (map_lines_store_token [32] (bytes "wood.png") [10] true (LoadMtlMat_init (F := ℚ))
      (by decide) (by decide) (by decide) (Or.inl (by decide))).2.2.2.2.2.2⟩

theorem LoadMtlMat_map_opacity {F : Type} (data : List Nat) (mat : OBJMat F) :
    (LoadMtlMat_map data mat).2.opacity = mat.opacity := by
  unfold LoadMtlMat_map
  split_ifs <;> rfl

/-- A pass of the loop of `LoadMtlMat` keeps the opacity or sets it to a value
that is not above `1`. -/
theorem LoadMtlMat_body_opacity {F : Type} [FloatOps F]
    (hone : FloatOps.gt (FloatOps.ofInt 1 : F) (FloatOps.ofInt 1) = false) (data : List Nat)
    (seen : Bool) (mat : OBJMat F) (r : List Nat × Bool × OBJMat F)
    (hm : FloatOps.gt mat.opacity (FloatOps.ofInt 1) = false)
    (hr : LoadMtlMat_body data seen mat = some r) :
    FloatOps.gt r.2.2.opacity (FloatOps.ofInt 1) = false := by
  unfold LoadMtlMat_body at hr
  simp only at hr
  split_ifs at hr with h1 h2 h3 h4 h5 h6 h7 h8 h9 <;> cases hr <;> first
    | exact hm
    | exact hone
    | (rw [LoadMtlMat_map_opacity]; exact hm)
    | (apply Bool.eq_false_iff.2; assumption)

theorem LoadMtlMat_loop_opacity {F : Type} [FloatOps F]
    (hone : FloatOps.gt (FloatOps.ofInt 1 : F) (FloatOps.ofInt 1) = false) (n : Nat)
    (data : List Nat) (seen : Bool) (mat : OBJMat F)
    (hm : FloatOps.gt mat.opacity (FloatOps.ofInt 1) = false) :
    FloatOps.gt (LoadMtlMat_loop n data seen mat).1.opacity (FloatOps.ofInt 1) = false := by
  induction n generalizing data seen mat with
  | zero => exact hm
  | succ n ih =>
    rw [LoadMtlMat_loop]
    split_ifs
    · exact hm
    · cases hb : LoadMtlMat_body data seen mat with
      | none => exact hm
      | some r => exact ih _ _ _ (LoadMtlMat_body_opacity hone data seen mat r hm hb)

/-- In binary32 a value that is not `> 1` is `<= 1` or NaN. -/
theorem Binary32_le_one_of_not_gt (x : Binary32)
    (h : FloatOps.gt x (FloatOps.ofInt 1) = false) :
    Binary32.le x (FloatOps.ofInt 1) = true ∨ x = Binary32.nan := by
  have h1 : (FloatOps.ofInt 1 : Binary32) = Binary32.fin 1 := by decide!
  rw [h1] at h ⊢
  cases x with
  | fin a =>
    left
    simp only [FloatOps.gt, decide_eq_false_iff_not, not_lt] at h
    simpa [Binary32.le] using h
  | inf s =>
    left
    cases s with
    | false => simp [FloatOps.gt] at h
    | true => rfl
  | nan => exact Or.inr rfl

/-- C12 (counterexample): in binary32, for the line
`d 0.12345678901234567890123456789012345678901234567890` the loop of
`ReadFloat` lets `res` pass the largest finite value at the fortieth digit and
rounds `fact` to zero at the forty-sixth, so that `res * fact` is NaN; the
clamp does not fire, since `NaN > 1` is false, and `LoadMtlMat` returns a
material whose opacity is NaN, which is not `<= 1`. -/
theorem long_decimal_opacity_is_nan :
    (ReadFloat (F := Binary32)
        (bytes "0.12345678901234567890123456789012345678901234567890\n")).1 = Binary32.nan ∧
      (LoadMtlMat (F := Binary32) longDecimalMtl).1.opacity = Binary32.nan ∧
      Binary32.le (LoadMtlMat (F := Binary32) longDecimalMtl).1.opacity (FloatOps.ofInt 1) =
        false := by
  decide!

/-- C12 (amended): a line `d x`, where `x` is a number after any blanks, sets
the opacity to `1` when the value that `ReadFloat` reads from `x` is `> 1` and
to that value otherwise, and changes nothing else; and no material that
`LoadMtlMat` returns has an opacity `> 1`.  This holds for every arithmetic of
the floats in which `1 > 1` is false, binary32 and the exact one included; with
a NaN among the floats it does not make the opacity `<= 1`. -/
theorem opacity_clamped_above {F : Type} [FloatOps F]
    (hone : FloatOps.gt (FloatOps.ofInt 1 : F) (FloatOps.ofInt 1) = false)
    (blanks x rest data : List Nat) (seen_newmtl : Bool) (mat : OBJMat F) (hbl : IsBlank blanks)
    (hx : IsNumber x) (hr : stopsFloat rest) :
    LoadMtlMat_body (100 :: (blanks ++ (x ++ rest))) seen_newmtl mat =
        some (rest, seen_newmtl,
          { mat with
            opacity := if FloatOps.gt (ReadFloat (F := F) x).1 (FloatOps.ofInt 1) = true
              then FloatOps.ofInt 1 else (ReadFloat x).1 }) ∧
      FloatOps.gt (LoadMtlMat (F := F) data).1.opacity (FloatOps.ofInt 1) = false := by
  constructor
  · have h := ReadValidFloat_field (F := F) blanks x rest hbl hx hr
    simp [LoadMtlMat_body, h]
  · exact LoadMtlMat_loop_opacity hone _ data false LoadMtlMat_init hone

theorem opacity_clamped_above_witness :
    (LoadMtlMat_body (bytes "d 1.5\n") true (LoadMtlMat_init (F := ℚ))).map (fun r => r.2.2.opacity) =
        some 1 ∧
      (LoadMtlMat_body (bytes "d 0.5\n") true (LoadMtlMat_init (F := ℚ))).map
        (fun r => r.2.2.opacity) = some (1 / 2) ∧
      (LoadMtlMat (F := ℚ) (bytes "newmtl A\nd 1.5\n")).1.opacity ≤ 1 ∧
      (LoadMtlMat_body (bytes "d 1.5\n") true (LoadMtlMat_init (F := Binary32))).map
        (fun r => r.2.2.opacity) = some (Binary32.fin 1) ∧
      (LoadMtlMat_body (bytes "d 0.5\n") true (LoadMtlMat_init (F := Binary32))).map
        (fun r => r.2.2.opacity) = some (Binary32.fin (1 / 2)) ∧
      FloatOps.gt (LoadMtlMat (F := Binary32) longDecimalMtl).1.opacity (FloatOps.ofInt 1) =
        false := by
  have hone : FloatOps.gt (FloatOps.ofInt 1 : ℚ) (FloatOps.ofInt 1) = false := by
    simp [FloatOps.gt]
  have hone32 : FloatOps.gt (FloatOps.ofInt 1 : Binary32) (FloatOps.ofInt 1) = false := by
    decide!
  have h1 := opacity_clamped_above hone [32] (bytes "1.5") [10] (bytes "newmtl A\nd 1.5\n") true
    LoadMtlMat_init (by decide) (by decide) (Or.inr (by decide))
  have h2 := opacity_clamped_above hone [32] (bytes "0.5") [10] (bytes "newmtl A\nd 1.5\n") true
    LoadMtlMat_init (by decide) (by decide) (Or.inr (by decide))
  have h3 := opacity_clamped_above hone32 [32] (bytes "1.5") [10] longDecimalMtl true
    LoadMtlMat_init (by decide) (by decide) (Or.inr (by decide))
  have h4 := opacity_clamped_above hone32 [32] (bytes "0.5") [10] longDecimalMtl true
    LoadMtlMat_init (by decide) (by decide) (Or.inr (by decide))
  have e1 : bytes "d 1.5\n" = 100 :: ([32] ++ (bytes "1.5" ++ [10])) := by decide
  have e2 : bytes "d 0.5\n" = 100 :: ([32] ++ (bytes "0.5" ++ [10])) := by decide
  refine ⟨?_, ?_, ?_, ?_, ?_, h3.2⟩
  · rw [e1, h1.1]
    simp [bytes, ReadFloat, ReadFloat_loop, FloatOps.mul, FloatOps.add, FloatOps.div,
      FloatOps.ofInt, FloatOps.gt]
    norm_num
  · rw [e2, h2.1]
    simp [bytes, ReadFloat, ReadFloat_loop, FloatOps.mul, FloatOps.add, FloatOps.div,
      FloatOps.ofInt, FloatOps.gt]
    norm_num
  · have h := h1.2
    simpa [FloatOps.gt, FloatOps.ofInt] using h
  · rw [e1, h3.1]
    decide!
  · rw [e2, h4.1]
    decide!

/-! ## The readers stay in their line -/

theorem IgnoreLine_scan_line (l x : List Nat) (hl : IsLine l) :
    IgnoreLine_scan (l ++ x) = IgnoreLine_scan x := by
  induction l with
  | nil => rfl
  | cons c l ih =>
    have hc := hl c (List.mem_cons_self c l)
    rw [List.cons_append, IgnoreLine_scan, if_pos hc]
    exact ih fun b hb => hl b (List.mem_cons_of_mem c hb)

/-- From inside a line that ends at a newline, `IgnoreLine` goes to the byte
after the newline. -/
theorem IgnoreLine_line (l x : List Nat) (hl : IsLine l) : IgnoreLine (l ++ 10 :: x) = x := by
  rw [IgnoreLine, IgnoreLine_scan_line l _ hl]
  simp [IgnoreLine_scan]

/-- From inside a line that ends at the terminating NUL, `IgnoreLine` goes to
the byte after the NUL. -/
theorem IgnoreLine_line_nul (l x : List Nat) (hl : IsLine l) : IgnoreLine (l ++ 0 :: x) = x := by
  rw [IgnoreLine, IgnoreLine_scan_line l _ hl]
  simp [IgnoreLine_scan]

theorem IgnoreLine_scan_tail (d : List Nat) (h10 : peek d ≠ 10) (h0 : peek d ≠ 0) :
    IgnoreLine_scan d.tail = IgnoreLine_scan d := by
  cases d with
  | nil => rfl
  | cons c d =>
    simp only [peek_cons] at h10 h0
    rw [List.tail_cons, IgnoreLine_scan, if_pos ⟨h10, h0⟩]

theorem IgnoreLine_scan_drop (d lit : List Nat) (k : Nat) (hk : lit.length = k)
    (h : strncmp_eq d lit = true) (hl : IsLine lit) :
    IgnoreLine_scan (d.drop k) = IgnoreLine_scan d := by
  have h1 : d.take k = lit := by
    rw [← hk]
    simpa [strncmp_eq] using h
  have h2 : d = lit ++ d.drop k := by
    rw [← h1]
    exact (List.take_append_drop k d).symm
  conv_rhs => rw [h2]
  exact (IgnoreLine_scan_line lit _ hl).symm

theorem IgnoreLine_scan_ClearWhitespace (d : List Nat) :
    IgnoreLine_scan (ClearWhitespace d).2 = IgnoreLine_scan d := by
  induction d with
  | nil => rfl
  | cons c d ih =>
    rw [ClearWhitespace]
    split_ifs with h1 h2
    · rfl
    · have hsp : isspace c = true := h1.resolve_left h2
      have h0 : c ≠ 0 := by
        intro h
        rw [h] at hsp
        exact absurd hsp (by decide)
      rw [ih, IgnoreLine_scan, if_pos ⟨h2, h0⟩]
    · rfl

theorem IgnoreLine_scan_ReadName_copy (d : List Nat) :
    IgnoreLine_scan (ReadName_copy d).2 = IgnoreLine_scan d := by
  induction d with
  | nil => rfl
  | cons c d ih =>
    rw [ReadName_copy]
    split_ifs with h
    · have h10 : c ≠ 10 := by
        intro h1
        rw [h1] at h
        exact absurd h.1 (by decide)
      rw [ih, IgnoreLine_scan, if_pos ⟨h10, h.2⟩]
    · rfl

theorem IgnoreLine_scan_ReadName (d : List Nat) :
    IgnoreLine_scan (ReadName d).2 = IgnoreLine_scan d := by
  rw [ReadName, IgnoreLine_scan_ReadName_copy, IgnoreLine_scan_ClearWhitespace]

theorem IgnoreLine_scan_ReadFloat_loop {F : Type} [FloatOps F] (res fact : F) (p : Bool)
    (d : List Nat) : IgnoreLine_scan (ReadFloat_loop res fact p d).2 = IgnoreLine_scan d := by
  induction d generalizing res fact p with
  | nil => rfl
  | cons c d ih =>
    rw [ReadFloat_loop]
    by_cases h0 : c = 0
    · rw [if_pos h0]
    · rw [if_neg h0]
      by_cases h46 : c = 46
      · rw [if_pos h46, ih, IgnoreLine_scan, if_pos ⟨by omega, h0⟩]
      · rw [if_neg h46]
        by_cases hd : (c + 208) % 256 > 9
        · rw [if_pos hd]
        · rw [if_neg hd, ih, IgnoreLine_scan, if_pos ⟨by omega, h0⟩]

theorem IgnoreLine_scan_ReadFloat {F : Type} [FloatOps F] (d : List Nat) :
    IgnoreLine_scan (ReadFloat (F := F) d).2 = IgnoreLine_scan d := by
  rw [ReadFloat]
  split_ifs with h
  · rw [IgnoreLine_scan_ReadFloat_loop]
    exact IgnoreLine_scan_tail d (by omega) (by omega)
  · exact IgnoreLine_scan_ReadFloat_loop _ _ _ d

theorem IgnoreLine_scan_ReadValidFloat {F : Type} [FloatOps F] (d : List Nat) :
    IgnoreLine_scan (ReadValidFloat (F := F) d).2 = IgnoreLine_scan d := by
  rw [ReadValidFloat]
  split_ifs
  · exact IgnoreLine_scan_ClearWhitespace d
  · exact (IgnoreLine_scan_ReadFloat _).trans (IgnoreLine_scan_ClearWhitespace d)

theorem IgnoreLine_scan_ReadColor {F : Type} [FloatOps F] (d : List Nat) :
    IgnoreLine_scan (ReadColor (F := F) d).2 = IgnoreLine_scan d := by
  have h : (ReadColor (F := F) d).2 =
      (ReadValidFloat (F := F) (ReadValidFloat (F := F) (ReadValidFloat (F := F) d).2).2).2 := by
    unfold ReadColor
    simp only
    split_ifs <;> rfl
  rw [h, IgnoreLine_scan_ReadValidFloat, IgnoreLine_scan_ReadValidFloat,
    IgnoreLine_scan_ReadValidFloat]

theorem IsLine_Ns : IsLine (bytes "Ns") := by decide
theorem IsLine_bump : IsLine (bytes "bump") := by decide
theorem IsLine_map : IsLine (bytes "map_") := by decide
theorem IsLine_newmtl : IsLine (bytes "newmtl") := by decide
theorem IsLine_disp : IsLine (bytes "disp") := by decide
theorem IsLine_decal : IsLine (bytes "decal") := by decide

theorem IgnoreLine_scan_LoadMtlMat_map {F : Type} (d : List Nat) (mat : OBJMat F) :
    IgnoreLine_scan (LoadMtlMat_map d mat).1 = IgnoreLine_scan d := by
  unfold LoadMtlMat_map
  split_ifs with h1 h2 h3 h4 h5 h6 h7
  · rw [IgnoreLine_scan_ReadName, IgnoreLine_scan_tail _ (by omega) (by omega),
      IgnoreLine_scan_tail _ (by omega) (by omega)]
  · rw [IgnoreLine_scan_ReadName, IgnoreLine_scan_tail _ (by omega) (by omega),
      IgnoreLine_scan_tail _ (by omega) (by omega)]
  · rw [IgnoreLine_scan_ReadName, IgnoreLine_scan_tail _ (by omega) (by omega),
      IgnoreLine_scan_tail _ (by omega) (by omega)]
  · exact IgnoreLine_scan_tail _ (by omega) (by omega)
  · rw [IgnoreLine_scan_ReadName, IgnoreLine_scan_tail _ (by omega) (by omega)]
  · rw [IgnoreLine_scan_ReadName, IgnoreLine_scan_drop d _ 2 (by decide) h6 IsLine_Ns]
  · rw [IgnoreLine_scan_ReadName, IgnoreLine_scan_drop d _ 4 (by decide) h7 IsLine_bump]
  · rfl

/-- A pass of the loop of `LoadMtlMat` leaves the cursor in the line it started
in, so that `IgnoreLine` takes it to the start of the next line. -/
theorem IgnoreLine_scan_LoadMtlMat_body {F : Type} [FloatOps F] (d : List Nat) (seen : Bool)
    (mat : OBJMat F) (r : List Nat × Bool × OBJMat F) (hr : LoadMtlMat_body d seen mat = some r) :
    IgnoreLine_scan r.1 = IgnoreLine_scan d := by
  unfold LoadMtlMat_body at hr
  simp only at hr
  split_ifs at hr with h1 h2 h3 h4 h5 h6 h7 h8 h9 h10 h11 h12 <;> cases hr <;> simp only <;> first
    | rfl
    | (rw [IgnoreLine_scan_ReadColor, IgnoreLine_scan_tail _ (by omega) (by omega),
        IgnoreLine_scan_tail _ (by omega) (by omega)])
    | exact IgnoreLine_scan_tail _ (by omega) (by omega)
    | (rw [IgnoreLine_scan_ReadValidFloat, IgnoreLine_scan_tail _ (by omega) (by omega)])
    | (rw [IgnoreLine_scan_ReadName, IgnoreLine_scan_drop d _ 6 (by decide) (by assumption)
        IsLine_newmtl])
    | (rw [IgnoreLine_scan_LoadMtlMat_map, IgnoreLine_scan_drop d _ 4 (by decide) (by assumption)
        IsLine_map])
    | (rw [IgnoreLine_scan_ReadName, IgnoreLine_scan_drop d _ 4 (by decide) (by assumption)
        IsLine_bump])
    | (rw [IgnoreLine_scan_ReadName, IgnoreLine_scan_drop d _ 4 (by decide) (by assumption)
        IsLine_disp])
    | (rw [IgnoreLine_scan_ReadName, IgnoreLine_scan_drop d _ 5 (by decide) (by assumption)
        IsLine_decal])

/-! ## One record per block of a material library (`LoadMtlMat`, `ReadMtl`) -/

theorem strncmp_eq_line (l x lit : List Nat) (hlit : IsLine lit) :
    strncmp_eq (l ++ 10 :: x) lit = strncmp_eq l lit := by
  induction l generalizing lit with
  | nil =>
    cases lit with
    | nil => rfl
    | cons c lit =>
      have hc := (hlit c (List.mem_cons_self c lit)).1
      simp [strncmp_eq, Ne.symm hc]
  | cons a l ih =>
    cases lit with
    | nil => rfl
    | cons c lit =>
      have h := ih lit fun b hb => hlit b (List.mem_cons_of_mem c hb)
      simp only [strncmp_eq] at h
      simp only [strncmp_eq, List.cons_append, List.length_cons, List.take_succ_cons]
      by_cases hac : a = c
      · subst hac
        simpa using h
      · have hf : (a == c) = false := by simpa using hac
        simp [hf]

theorem peek_line (l x : List Nat) (hl : IsLine l) : peek (l ++ 10 :: x) ≠ 0 := by
  cases l with
  | nil => simp
  | cons c l => exact (hl c (List.mem_cons_self c l)).2

theorem LoadMtlMat_map_name_hash {F : Type} (data : List Nat) (mat : OBJMat F) :
    (LoadMtlMat_map data mat).2.name_hash = mat.name_hash := by
  unfold LoadMtlMat_map
  split_ifs <;> rfl

/-- Inside a record a pass of the loop of `LoadMtlMat` keeps the name hash. -/
theorem LoadMtlMat_body_seen {F : Type} [FloatOps F] (d : List Nat) (mat : OBJMat F)
    (r : List Nat × Bool × OBJMat F) (hr : LoadMtlMat_body d true mat = some r) :
    r.2.1 = true ∧ r.2.2.name_hash = mat.name_hash := by
  unfold LoadMtlMat_body at hr
  simp only [if_true] at hr
  split_ifs at hr <;> cases hr <;> first
    | exact ⟨rfl, rfl⟩
    | exact ⟨rfl, LoadMtlMat_map_name_hash _ _⟩

/-- Inside a record only a line that starts with `newmtl` leaves the loop. -/
theorem LoadMtlMat_body_some {F : Type} [FloatOps F] (d : List Nat) (seen : Bool)
    (mat : OBJMat F) (h : strncmp_eq d (bytes "newmtl") = false) :
    ∃ r, LoadMtlMat_body d seen mat = some r := by
  unfold LoadMtlMat_body
  simp only [h, Bool.false_eq_true, if_false]
  split_ifs <;> exact ⟨_, rfl⟩

/-- At a line that starts with `newmtl`, inside a record, the loop is left. -/
theorem LoadMtlMat_body_newmtl {F : Type} [FloatOps F] (d : List Nat) (mat : OBJMat F)
    (h : strncmp_eq d (bytes "newmtl") = true) : LoadMtlMat_body d true mat = none := by
  have hp : peek d = 110 := by
    cases d with
    | nil => exact absurd h (by decide)
    | cons c d =>
      simp only [strncmp_eq, bytes_newmtl, List.length_cons, List.length_nil, List.take_succ_cons,
        beq_iff_eq, List.cons.injEq] at h
      simpa using h.1
  unfold LoadMtlMat_body
  simp [hp, h]

theorem IgnoreLine_LoadMtlMat_body {F : Type} [FloatOps F] (d : List Nat) (seen : Bool)
    (mat : OBJMat F) (r : List Nat × Bool × OBJMat F) (hr : LoadMtlMat_body d seen mat = some r) :
    IgnoreLine r.1 = IgnoreLine d := by
  rw [IgnoreLine, IgnoreLine, IgnoreLine_scan_LoadMtlMat_body d seen mat r hr]

/-- The loop of `LoadMtlMat` at the end of a record: at the end of the text or
at the next `newmtl` line it returns the record and stays there. -/
theorem LoadMtlMat_loop_stop {F : Type} [FloatOps F] (n : Nat) (x : List Nat) (mat : OBJMat F)
    (hx : peek x = 0 ∨ strncmp_eq x (bytes "newmtl") = true) :
    LoadMtlMat_loop n x true mat = (mat, x) := by
  cases n with
  | zero => rfl
  | succ n =>
    rw [LoadMtlMat_loop]
    split_ifs with h0
    · rfl
    · rcases hx with h | h
      · exact absurd h h0
      · rw [LoadMtlMat_body_newmtl x mat h]

/-- The loop of `LoadMtlMat` over the lines of a record, none of which starts
with `newmtl`: it takes one pass per line, keeps the name hash and stops at
what follows the lines. -/
theorem LoadMtlMat_loop_lines {F : Type} [FloatOps F] (lines : List (List Nat)) (x : List Nat)
    (hl : ∀ l ∈ lines, IsLine l ∧ strncmp_eq l (bytes "newmtl") = false)
    (hx : peek x = 0 ∨ strncmp_eq x (bytes "newmtl") = true) (mat : OBJMat F) :
    ∃ m : OBJMat F, m.name_hash = mat.name_hash ∧ (lines = [] → m = mat) ∧
      ∀ n, lines.length ≤ n → LoadMtlMat_loop n (linesText lines ++ x) true mat = (m, x) := by
  induction lines generalizing mat with
  | nil => exact ⟨mat, rfl, fun _ => rfl, fun n _ => LoadMtlMat_loop_stop n x mat hx⟩
  | cons l ls ih =>
    have hl1 := hl l (List.mem_cons_self l ls)
    have hd : linesText (l :: ls) ++ x = l ++ 10 :: (linesText ls ++ x) := by
      simp [linesText]
    have hcmp : strncmp_eq (l ++ 10 :: (linesText ls ++ x)) (bytes "newmtl") = false := by
      rw [strncmp_eq_line l _ _ IsLine_newmtl]
      exact hl1.2
    obtain ⟨r, hr⟩ := LoadMtlMat_body_some (F := F) (l ++ 10 :: (linesText ls ++ x)) true mat hcmp
    obtain ⟨hs, hh⟩ := LoadMtlMat_body_seen _ mat r hr
    obtain ⟨m, hm1, _, hm3⟩ := ih (fun k hk => hl k (List.mem_cons_of_mem l hk)) r.2.2
    refine ⟨m, hm1.trans hh, fun h => absurd h (List.cons_ne_nil l ls), ?_⟩
    intro n hn
    obtain ⟨n, rfl⟩ : ∃ k, n = k + 1 := ⟨n - 1, by simp only [List.length_cons] at hn; omega⟩
    rw [hd, LoadMtlMat_loop, if_neg (peek_line l _ hl1.1), hr]
    simp only
    rw [IgnoreLine_LoadMtlMat_body _ true mat r hr, IgnoreLine_line l _ hl1.1, hs]
    exact hm3 n (by simp only [List.length_cons] at hn; omega)

theorem linesText_length (lines : List (List Nat)) : lines.length ≤ (linesText lines).length := by
  induction lines with
  | nil => exact Nat.le_refl 0
  | cons l ls ih =>
    simp only [linesText, List.length_cons, List.length_append]
    omega

/-- `LoadMtlMat` on a block, followed by the end of the text or by the next
`newmtl` line: it returns a record with the hash of the name of the block and
stops right after the block; a block without further lines gives the initial
record with that name hash. -/
theorem LoadMtlMat_block {F : Type} [FloatOps F] (b : MtlBlock) (x : List Nat) (hb : BlockOk b)
    (hx : peek x = 0 ∨ strncmp_eq x (bytes "newmtl") = true) :
    ∃ m : OBJMat F, LoadMtlMat (b.text ++ x) = (m, x) ∧ m.name_hash = hash b.name ∧
      (b.body = [] → m = { LoadMtlMat_init with name_hash := hash b.name }) := by
  obtain ⟨hbl, htok, hne, htr, hsp, hbody⟩ := hb
  have hends : endsToken (b.trail ++ 10 :: (linesText b.body ++ x)) := by
    left
    cases ht : b.trail with
    | nil => exact (by decide : isspace 10 = true)
    | cons c t =>
      rw [ht] at hsp
      exact hsp
  have hn := ReadName_token b.blanks b.name _ hbl htok hne hends
  obtain ⟨m, hm1, hm2, hm3⟩ := LoadMtlMat_loop_lines (F := F) b.body x hbody hx
    { LoadMtlMat_init with name_hash := hash b.name }
  have hd : b.text ++ x = 110 :: 101 :: 119 :: 109 :: 116 :: 108 ::
      (b.blanks ++ (b.name ++ (b.trail ++ 10 :: (linesText b.body ++ x)))) := by
    simp [MtlBlock.text, bytes_newmtl]
  have hlen : b.body.length ≤ (b.text ++ x).length := by
    have := linesText_length b.body
    rw [hd]
    simp only [List.length_cons, List.length_append]
    omega
  refine ⟨m, ?_, hm1, hm2⟩
  rw [LoadMtlMat, LoadMtlMat_loop]
  have hbd : LoadMtlMat_body (F := F) (b.text ++ x) false LoadMtlMat_init =
      some (b.trail ++ 10 :: (linesText b.body ++ x), true,
        { LoadMtlMat_init with name_hash := hash b.name }) := by
    rw [hd]
    simp [LoadMtlMat_body, strncmp_eq, bytes_newmtl, hn]
  have hp : peek (b.text ++ x) ≠ 0 := by
    rw [hd]
    simp
  rw [if_neg hp, hbd]
  simp only
  rw [IgnoreLine_line b.trail _ htr]
  exact hm3 _ hlen

theorem strncmp_eq_blocksText (b : MtlBlock) (bs : List MtlBlock) (x : List Nat) :
    strncmp_eq (blocksText (b :: bs) ++ x) (bytes "newmtl") = true := by
  simp [blocksText, MtlBlock.text, strncmp_eq, bytes_newmtl]

theorem blocksText_length (bs : List MtlBlock) : bs.length ≤ (blocksText bs).length := by
  induction bs with
  | nil => exact Nat.le_refl 0
  | cons b bs ih =>
    simp only [blocksText, MtlBlock.text, bytes_newmtl, List.length_cons, List.length_append]
    omega

/-- The loop of `ReadMtl` over a text of blocks: one record per block, in the
order of the blocks, after the records that were there. -/
theorem ReadMtl_loop_blocks {F : Type} [FloatOps F] (blocks : List MtlBlock) (tail : List Nat)
    (base : Option (List Nat)) (hb : ∀ b ∈ blocks, BlockOk b) (ht : peek tail = 0)
    (mats : List (OBJMat F)) (n : Nat) (hn : blocks.length ≤ n) :
    ∃ records : List (OBJMat F),
      ReadMtl_loop n (blocksText blocks ++ tail) base mats = mats ++ records ∧
      List.Forall₂ (fun (b : MtlBlock) (m : OBJMat F) => m.name_hash = hash b.name ∧
        m.base = base ∧
        (b.body = [] → m = { LoadMtlMat_init with name_hash := hash b.name, base := base }))
        blocks records := by
  induction blocks generalizing mats n with
  | nil =>
    refine ⟨[], ?_, List.Forall₂.nil⟩
    cases n with
    | zero => simp [ReadMtl_loop]
    | succ n => simp [ReadMtl_loop, blocksText, ht]
  | cons b bs ih =>
    obtain ⟨n, rfl⟩ : ∃ k, n = k + 1 := ⟨n - 1, by simp only [List.length_cons] at hn; omega⟩
    have hx : peek (blocksText bs ++ tail) = 0 ∨
        strncmp_eq (blocksText bs ++ tail) (bytes "newmtl") = true := by
      cases bs with
      | nil => exact Or.inl ht
      | cons b2 bs2 => exact Or.inr (strncmp_eq_blocksText b2 bs2 tail)
    obtain ⟨m, hm1, hm2, hm3⟩ := LoadMtlMat_block (F := F) b (blocksText bs ++ tail)
      (hb b (List.mem_cons_self b bs)) hx
    obtain ⟨records, hr1, hr2⟩ := ih (fun k hk => hb k (List.mem_cons_of_mem b hk))
      (mats ++ [{ m with base := base }]) n (by simp only [List.length_cons] at hn; omega)
    have hd : blocksText (b :: bs) ++ tail = b.text ++ (blocksText bs ++ tail) := by
      simp [blocksText]
    have hp : peek (blocksText (b :: bs) ++ tail) ≠ 0 := by
      simp [blocksText, MtlBlock.text, bytes_newmtl]
    refine ⟨{ m with base := base } :: records, ?_, List.Forall₂.cons ⟨hm2, rfl, ?_⟩ hr2⟩
    · rw [ReadMtl_loop, if_neg hp, hd, hm1, hr1]
      simp
    · intro h
      rw [hm3 h]

/-- C21: for every buffer and cursor, the bytes that `ClearWhitespace` steps
over are whitespace and none of them is a newline; the cursor is left on the
first byte that is a newline or is not whitespace (the terminating NUL is
not whitespace); the result is `false` exactly when that byte is a newline,
and the newline is still under the cursor. -/
theorem ClearWhitespace_stays_in_line (data : List Nat) :
    ∃ skipped : List Nat, data = skipped ++ (ClearWhitespace data).2 ∧ IsBlank skipped ∧
      (peek (ClearWhitespace data).2 = 10 ∨ isspace (peek (ClearWhitespace data).2) = false) ∧
      ((ClearWhitespace data).1 = false ↔ peek (ClearWhitespace data).2 = 10) := by
  induction data with
  | nil => exact ⟨[], rfl, IsBlank_nil, Or.inr (by decide), by decide⟩
  | cons c data ih =>
    by_cases h10 : c = 10
    · refine ⟨[], ?_, IsBlank_nil, ?_, ?_⟩ <;> simp [ClearWhitespace, h10]
    · by_cases hsp : isspace c = true
      · obtain ⟨skipped, h1, h2, h3, h4⟩ := ih
        have hcw : ClearWhitespace (c :: data) = ClearWhitespace data := by
          simp [ClearWhitespace, h10, hsp]
        rw [hcw]
        refine ⟨c :: skipped, ?_, ?_, h3, h4⟩
        · rw [List.cons_append, ← h1]
        · intro b hb
          rcases List.mem_cons.1 hb with h | h
          · rw [h]
            exact ⟨hsp, h10⟩
          · exact h2 b h
      · have hcw : ClearWhitespace (c :: data) = (true, c :: data) := by
          simp [ClearWhitespace, h10, hsp]
        rw [hcw]
        refine ⟨[], rfl, IsBlank_nil, Or.inr ?_, ?_⟩
        · simpa using hsp
        · simp [h10]

theorem LoadObjDry_match_range {F : Type} (h : Nat) (mats : List (OBJMat F)) (j : Nat) (cur : Int)
    (hc : 0 ≤ cur ∧ (cur = 0 ∨ cur < j)) :
    0 ≤ LoadObjDry_match h mats j cur ∧
      (LoadObjDry_match h mats j cur = 0 ∨ LoadObjDry_match h mats j cur < (j + mats.length : Nat)) := by
  induction mats generalizing j cur with
  | nil => simpa [LoadObjDry_match] using hc
  | cons m ms ih =>
    rw [LoadObjDry_match]
    have h1 := ih (j + 1) (if m.name_hash = h then (j : Int) else cur) (by
      split_ifs
      · exact ⟨by omega, Or.inr (by push_cast; omega)⟩
      · exact ⟨hc.1, hc.2.imp id (fun h => by push_cast; omega)⟩)
    refine ⟨h1.1, h1.2.imp id (fun h2 => ?_)⟩
    simp only [List.length_cons]
    have : j + 1 + ms.length = j + (ms.length + 1) := by omega
    rw [← this]
    exact h2

/-- C24: whenever `LoadObj` returns a model, whatever the files of the host
hold and whatever the recorded material hashes are (also the indeterminate
ones), its `materialCount` is at least `1`, it has one `meshMaterial` entry per
mesh, and every entry is at least `0` and below `materialCount`. -/
theorem meshMaterial_in_range {F : Type} [FloatOps F] (host : Host) (filename : List Nat)
    (model : Model F) (hmodel : LoadObj host filename = some model) :
    1 ≤ model.materialCount ∧ model.meshMaterial.length = model.meshCount ∧
      ∀ (i : Nat) (x : Int), model.meshMaterial[i]? = some x →
        0 ≤ x ∧ x < (model.materialCount : Int) := by
  have key : ∀ dry : Model F, LoadObjDry host filename = some dry →
      dry.meshMaterial.length = dry.meshCount ∧
      ∀ (i : Nat) (x : Int), dry.meshMaterial[i]? = some x →
        0 ≤ x ∧ (x = 0 ∨ x < (dry.materialCount : Int)) := by
    intro dry hdry
    unfold LoadObjDry at hdry
    cases hload : host.LoadFileText filename with
    | none =>
      rw [hload] at hdry
      cases hdry
      simp
    | some data =>
      rw [hload] at hdry
      simp only [Option.map_eq_some'] at hdry
      obtain ⟨r, _, rfl⟩ := hdry
      refine ⟨by simp [LoadObjDry_meshMaterial], ?_⟩
      intro i x hx
      simp only [LoadObjDry_meshMaterial, List.getElem?_map, Option.map_eq_some'] at hx
      obtain ⟨mesh, _, rfl⟩ := hx
      have h := LoadObjDry_match_range mesh.mat_hash r.2.mats 0 0 ⟨le_refl 0, Or.inl rfl⟩
      simpa [OBJFile.mat_count] using h
  unfold LoadObj at hmodel
  simp only [Option.map_eq_some'] at hmodel
  obtain ⟨dry, hdry, rfl⟩ := hmodel
  obtain ⟨k1, k2⟩ := key dry hdry
  by_cases h0 : dry.materialCount = 0
  · simp only [h0, if_true]
    refine ⟨le_refl 1, k1, fun i x hx => ?_⟩
    have hk := k2 i x hx
    rw [h0] at hk
    refine ⟨hk.1, ?_⟩
    rcases hk.2 with h | h
    · rw [h]
      decide
    · have hx0 : (0 : Int) ≤ x := hk.1
      have hx1 : x < 0 := by simpa using h
      omega
  · simp only [h0, if_false]
    refine ⟨by omega, k1, fun i x hx => ?_⟩
    have h := k2 i x hx
    refine ⟨h.1, ?_⟩
    rcases h.2 with h | h
    · rw [h]
      have : 0 < dry.materialCount := by omega
      exact_mod_cast this
    · exact h

theorem meshMaterial_in_range_witness :
    ∃ model : Model ℚ, LoadObj (twoFileHost firstMatchObj firstMatchMtl) (bytes "a.obj") = some model ∧
      model.meshCount = 1 ∧ model.materialCount = 2 ∧ model.meshMaterial = [1] ∧
      (1 ≤ model.materialCount ∧ model.meshMaterial.length = model.meshCount ∧
        ∀ (i : Nat) (x : Int), model.meshMaterial[i]? = some x →
          0 ≤ x ∧ x < (model.materialCount : Int)) :=
  ⟨(LoadObj (twoFileHost firstMatchObj firstMatchMtl) (bytes "a.obj")).getD ⟨[], 0, 0, [], []⟩,
    by decide, by decide, by decide, by decide,
    meshMaterial_in_range (twoFileHost firstMatchObj firstMatchMtl) (bytes "a.obj") _ (by decide)⟩

/-! ## The value that `ReadFloat` computes -/

theorem foldl_dec_acc (ds : List Nat) (acc : Nat) :
    ds.foldl (fun v d => v * 10 + (d - 48)) acc =
      acc * 10 ^ ds.length + ds.foldl (fun v d => v * 10 + (d - 48)) 0 := by
  induction ds generalizing acc with
  | nil => simp
  | cons d ds ih =>
    simp only [List.foldl_cons, List.length_cons]
    rw [ih (acc * 10 + (d - 48)), ih (0 * 10 + (d - 48))]
    ring

theorem decVal_cons (d : Nat) (ds : List Nat) :
    decVal (d :: ds) = (d - 48) * 10 ^ ds.length + decVal ds := by
  unfold decVal
  rw [List.foldl_cons, foldl_dec_acc]
  simp

theorem decVal_append (xs ys : List Nat) :
    decVal (xs ++ ys) = decVal xs * 10 ^ ys.length + decVal ys := by
  unfold decVal
  rw [List.foldl_append, foldl_dec_acc]

/-- In exact arithmetic the loop of `ReadFloat` over a run of digits shifts the
digits into `res` and, after the point, divides `fact` by ten per digit. -/
theorem ReadFloat_loop_digits (ds x : List Nat) (hds : IsDigits ds) (res fact : ℚ) (p : Bool) :
    ReadFloat_loop res fact p (ds ++ x) =
      ReadFloat_loop (res * 10 ^ ds.length + (decVal ds : ℚ))
        (if p = true then fact / 10 ^ ds.length else fact) p x := by
  induction ds generalizing res fact with
  | nil =>
    have h1 : res * 10 ^ ([] : List Nat).length + ((decVal [] : Nat) : ℚ) = res := by
      simp [decVal]
    have h2 : (if p = true then fact / 10 ^ ([] : List Nat).length else fact) = fact := by
      cases p <;> simp
    rw [h1, h2, List.nil_append]
  | cons c ds ih =>
    have hc := hds c (List.mem_cons_self c ds)
    have hds2 : IsDigits ds := fun b hb => hds b (List.mem_cons_of_mem c hb)
    simp only [isdigit, Bool.and_eq_true, decide_eq_true_eq] at hc
    have h0 : c ≠ 0 := by omega
    have h46 : c ≠ 46 := by omega
    have hd : ¬ (c + 208) % 256 > 9 := by omega
    have hv : (c + 208) % 256 = c - 48 := by omega
    rw [List.cons_append, ReadFloat_loop, if_neg h0, if_neg h46, if_neg hd, ih hds2, hv,
      decVal_cons]
    have e1 : FloatOps.add (FloatOps.mul res (FloatOps.ofInt 10))
          (FloatOps.ofInt (((c - 48 : Nat) : Int))) * 10 ^ ds.length + ((decVal ds : Nat) : ℚ) =
        res * 10 ^ (c :: ds).length + (((c - 48) * 10 ^ ds.length + decVal ds : Nat) : ℚ) := by
      simp only [FloatOps.add, FloatOps.mul, FloatOps.ofInt, List.length_cons]
      push_cast
      ring
    have e2 : (if p = true then
          (if p = true then FloatOps.div fact (FloatOps.ofInt 10) else fact) / 10 ^ ds.length
        else (if p = true then FloatOps.div fact (FloatOps.ofInt 10) else fact)) =
        (if p = true then fact / 10 ^ (c :: ds).length else fact) := by
      cases p
      · simp
      · simp only [if_true, FloatOps.div, FloatOps.ofInt, List.length_cons]
        push_cast
        rw [pow_succ, div_div]
        ring_nf
    rw [e1, e2]

theorem ReadFloat_loop_stop_rat (res fact : ℚ) (p : Bool) (rest : List Nat)
    (hr : stopsFloat rest) : ReadFloat_loop res fact p rest = (res * fact, rest) :=
  ReadFloat_loop_stop res fact p rest hr

theorem peek_ne_minus_of_digits (ds x : List Nat) (hds : IsDigits ds) (hne : ds ≠ []) :
    peek (ds ++ x) ≠ 45 := by
  cases ds with
  | nil => exact absurd rfl hne
  | cons c ds =>
    have hc := hds c (List.mem_cons_self c ds)
    simp only [isdigit, Bool.and_eq_true, decide_eq_true_eq] at hc
    simp only [List.cons_append, peek_cons]
    omega

theorem stopsFloat_of_not_digit (rest : List Nat) (hbyte : peek rest < 256)
    (hd : isdigit (peek rest) = false) (hp : peek rest ≠ 46) : stopsFloat rest := by
  right
  refine ⟨hp, ?_⟩
  simp only [isdigit, Bool.and_eq_false_iff, decide_eq_false_iff_not] at hd
  omega

/-- C22: in exact arithmetic, let `ip` and `fp` be runs of digits and let the
byte under `rest` be neither a digit nor a point (a byte is below `256`).
After an optional minus sign, on `ip` followed by `rest` the function
`ReadFloat` returns the sign times the number that `ip` stands for, and on
`ip`, a point, `fp` followed by `rest` it returns the sign times the number
that the digits `ip fp` stand for, divided by ten to the length of `fp`; both
times it leaves the cursor on `rest`.  On a byte that is not `-`, `.` or a
digit it returns `0` and does not move the cursor.  (When there is no sign, no
digit and no point, the byte under `rest` must not be a `-`, which would be
read as the sign.) -/
theorem ReadFloat_decimal_value (neg : Bool) (ip fp rest : List Nat) (hip : IsDigits ip)
    (hfp : IsDigits fp) (hbyte : peek rest < 256) (hd : isdigit (peek rest) = false)
    (hp : peek rest ≠ 46) (hsign : neg = false → ip = [] → peek rest ≠ 45) :
    ReadFloat (F := ℚ) ((if neg = true then [45] else []) ++ (ip ++ rest)) =
        ((if neg = true then -1 else 1) * (decVal ip : ℚ), rest) ∧
      ReadFloat (F := ℚ) ((if neg = true then [45] else []) ++ (ip ++ 46 :: (fp ++ rest))) =
        ((if neg = true then -1 else 1) * (decVal (ip ++ fp) : ℚ) / 10 ^ fp.length, rest) ∧
      ∀ x : List Nat, peek x < 256 → peek x ≠ 45 → peek x ≠ 46 → isdigit (peek x) = false →
        ReadFloat (F := ℚ) x = (0, x) := by
  have hr := stopsFloat_of_not_digit rest hbyte hd hp
  have hint : ∀ s : ℚ, ReadFloat_loop 0 s false (ip ++ rest) = (s * (decVal ip : ℚ), rest) := by
    intro s
    rw [ReadFloat_loop_digits ip rest hip, ReadFloat_loop_stop _ _ _ rest hr]
    simp only [FloatOps.mul, Bool.false_eq_true, if_false]
    congr 1
    ring
  have hfrac : ∀ s : ℚ, ReadFloat_loop 0 s false (ip ++ 46 :: (fp ++ rest)) =
      (s * (decVal (ip ++ fp) : ℚ) / 10 ^ fp.length, rest) := by
    intro s
    rw [ReadFloat_loop_digits ip _ hip, ReadFloat_loop, if_neg (by decide), if_pos rfl,
      ReadFloat_loop_digits fp rest hfp, ReadFloat_loop_stop _ _ _ rest hr, decVal_append]
    simp only [FloatOps.mul, Bool.false_eq_true, if_false, if_true]
    congr 1
    push_cast
    ring
  refine ⟨?_, ?_, ?_⟩
  · cases neg with
    | true =>
      simp only [if_true]
      rw [ReadFloat, if_pos (by rfl)]
      exact hint _
    | false =>
      have hp : peek (ip ++ rest) ≠ 45 := by
        by_cases hne : ip = []
        · rw [hne]
          exact hsign rfl hne
        · exact peek_ne_minus_of_digits ip rest hip hne
      simp only [Bool.false_eq_true, if_false, List.nil_append]
      rw [ReadFloat, if_neg hp]
      exact hint _
  · cases neg with
    | true =>
      simp only [if_true]
      rw [ReadFloat, if_pos (by rfl)]
      exact hfrac _
    | false =>
      have hp : peek (ip ++ 46 :: (fp ++ rest)) ≠ 45 := by
        by_cases hne : ip = []
        · rw [hne]
          exact (by decide : (46 : Nat) ≠ 45)
        · exact peek_ne_minus_of_digits ip _ hip hne
      simp only [Bool.false_eq_true, if_false, List.nil_append]
      rw [ReadFloat, if_neg hp]
      exact hfrac _
  · intro x hbyte h45 h46 hd
    have hstop := stopsFloat_of_not_digit x hbyte hd h46
    rw [ReadFloat, if_neg h45, ReadFloat_loop_stop _ _ _ x hstop]
    simp [FloatOps.mul, FloatOps.ofInt]

theorem ReadFloat_decimal_value_witness :
    ReadFloat (F := ℚ) (bytes "-12 x") = (-12, bytes " x") ∧
      ReadFloat (F := ℚ) (bytes "-12.5 x") = (-25 / 2, bytes " x") ∧
      ReadFloat (F := ℚ) (bytes "x") = (0, bytes "x") := by
  obtain ⟨h1, h2, h3⟩ := ReadFloat_decimal_value true (bytes "12") (bytes "5") (bytes " x")
    (by decide) (by decide) (by decide) (by decide) (by decide) (by decide)
  have e1 : (decVal (bytes "12") : ℚ) = 12 := by
    have : decVal (bytes "12") = 12 := by decide
    rw [this]
    norm_num
  have e2 : (decVal (bytes "12" ++ bytes "5") : ℚ) = 125 := by
    have : decVal (bytes "12" ++ bytes "5") = 125 := by decide
    rw [this]
    norm_num
  have e3 : (bytes "5").length = 1 := by decide
  rw [e1] at h1
  rw [e2, e3] at h2
  refine ⟨?_, ?_, h3 (bytes "x") (by decide) (by decide) (by decide) (by decide)⟩
  · have ht : bytes "-12 x" = (if true = true then [45] else []) ++ (bytes "12" ++ bytes " x") := by
      decide
    rw [ht, h1]
    norm_num
  · have ht : bytes "-12.5 x" =
        (if true = true then [45] else []) ++ (bytes "12" ++ 46 :: (bytes "5" ++ bytes " x")) := by
      decide
    rw [ht, h2]
    norm_num

/-! ## The driver loops end by themselves (`LoadObjDry`, `ReadMtl`) -/

/-- With more calls allowed than bytes are left, the loop of `LoadObjDry` ends
on a NUL under the cursor, and it adds at most one mesh per byte. -/
theorem LoadObjDry_loop_end {F : Type} [FloatOps F] (host : Host) (n k : Nat) (file : OBJFile F)
    (meshes : List (OBJMesh F)) (r : List (OBJMesh F) × OBJFile F) (hn : file.data.length < n)
    (hloop : LoadObjDry_loop host n k file meshes = some r) :
    peek r.2.data = 0 ∧ r.1.length ≤ meshes.length + file.data.length := by
  induction n generalizing k file meshes with
  | zero => omega
  | succ n ih =>
    rw [LoadObjDry_loop] at hloop
    by_cases h0 : peek file.data = 0
    · rw [if_pos h0] at hloop
      cases hloop
      exact ⟨h0, Nat.le_add_right _ _⟩
    · rw [if_neg h0] at hloop
      have hp := LoadObjMesh_progress host file (host.mat_hash_uninit k) h0
      cases hm : LoadObjMesh host file (host.mat_hash_uninit k) with
      | mk om file1 =>
        rw [hm] at hloop hp
        cases om with
        | none => cases hloop
        | some mesh =>
          simp only at hloop hp
          have h := ih (k + 1) file1 (meshes ++ [mesh]) (by omega) hloop
          refine ⟨h.1, ?_⟩
          have hl := h.2
          simp only [List.length_append, List.length_singleton] at hl
          omega

/-- The loop of `ReadMtl` adds at most one record per byte. -/
theorem ReadMtl_loop_count {F : Type} [FloatOps F] (n : Nat) (mtl : List Nat)
    (base : Option (List Nat)) (mats : List (OBJMat F)) :
    (ReadMtl_loop n mtl base mats).length ≤ mats.length + mtl.length := by
  induction n generalizing mtl mats with
  | zero => simp [ReadMtl_loop]
  | succ n ih =>
    rw [ReadMtl_loop]
    by_cases h0 : peek mtl = 0
    · rw [if_pos h0]
      exact Nat.le_add_right _ _
    · rw [if_neg h0]
      have hp := LoadMtlMat_progress (F := F) mtl h0
      have h := ih (LoadMtlMat (F := F) mtl).2 (mats ++ [{ (LoadMtlMat (F := F) mtl).1 with base := base }])
      refine Nat.le_trans h ?_
      rw [List.length_append, List.length_singleton]
      omega

/-- Progress and the end of the loops in the embedding, where the buffer is
the list of all bytes from the cursor on, with what lies behind its
terminating NUL, and reads as NUL beyond its end.  When the cursor is on a
non-NUL byte, one call of `LoadObjMesh` leaves a strictly shorter rest of the
list under the cursor, and so does one call of `LoadMtlMat`, whatever line the
call starts on.  With `extra` more passes allowed than the length of the list
plus one the loops of `LoadObjDry` and `ReadMtl` give the same result, the loop
of `LoadObjDry` returns with a NUL under the cursor, and each loop adds at most
one mesh, resp. one record, per byte of the list.  This says nothing on reads
behind the memory that the list stands for. -/
theorem parse_loops_progress {F : Type} [FloatOps F] (host : Host) (file : OBJFile F)
    (mat_hash k extra : Nat) (meshes : List (OBJMesh F)) (mtl : List Nat)
    (base : Option (List Nat)) (mats : List (OBJMat F)) :
    (peek file.data ≠ 0 →
        (LoadObjMesh host file mat_hash).2.data.length < file.data.length) ∧
      (peek mtl ≠ 0 → (LoadMtlMat (F := F) mtl).2.length < mtl.length) ∧
      LoadObjDry_loop host (file.data.length + 1 + extra) k file meshes =
        LoadObjDry_loop host (file.data.length + 1) k file meshes ∧
      (∀ r, LoadObjDry_loop host (file.data.length + 1) k file meshes = some r →
        peek r.2.data = 0 ∧ r.1.length ≤ meshes.length + file.data.length) ∧
      ReadMtl_loop (mtl.length + 1 + extra) mtl base mats =
        ReadMtl_loop (mtl.length + 1) mtl base mats ∧
      (ReadMtl_loop (mtl.length + 1) mtl base mats).length ≤ mats.length + mtl.length :=
  ⟨LoadObjMesh_progress host file mat_hash, LoadMtlMat_progress mtl,
    LoadObjDry_loop_fuel host _ _ k file meshes (by omega) (by omega),
    fun r hr => LoadObjDry_loop_end host _ k file meshes r (by omega) hr,
    ReadMtl_loop_fuel _ _ mtl base mats (by omega) (by omega),
    ReadMtl_loop_count _ mtl base mats⟩

theorem parse_loops_progress_witness :
    (LoadObjMesh (twoFileHost [] []) (sampleFile (bytes "o A\no B\n")) 0).2.data.length <
        (bytes "o A\no B\n").length ∧
      (LoadMtlMat (F := ℚ) (bytes "newmtl A\nnewmtl B\n")).2.length <
        (bytes "newmtl A\nnewmtl B\n").length :=
  ⟨(parse_loops_progress (twoFileHost [] []) (sampleFile (bytes "o A\no B\n")) 0 0 0 []
      (bytes "newmtl A\nnewmtl B\n") none []).1 (by decide),
    (parse_loops_progress (F := ℚ) (twoFileHost [] []) (sampleFile (bytes "o A\no B\n")) 0 0 0 []
      (bytes "newmtl A\nnewmtl B\n") none []).2.1 (by decide)⟩

/-! ## Lines and buffers that the loops do not take as they stand -/

/-- C4 (the code at the failing input): the geometry file `mtllib m.mtl`, `v`,
`usemtl Ad` has one mesh object, whose last `usemtl` names `Ad`, and the
material file `newmtl X`, `newmtl Ad` declares exactly one material with the
hash of `Ad`, at index `1`.  The pass of the parse loop that starts on the
bare `v` line steps over its newline and ends behind the `usemtl` line, which
is read as a position `(0, 0, 0)`; the mesh keeps the indeterminate hash (here
`0`) and `LoadObjDry` sets its `meshMaterial` entry to `0`, not to `1`. -/
theorem bare_v_line_swallows_usemtl :
    (LoadObjMesh_body (twoFileHost [] []) (sampleFile (bytes "v\nusemtl Ad\nf\n")) false 0).map
        (fun r => (IgnoreLine r.1.data, r.1.vertices.length, r.2.2)) =
        some (bytes "f\n", 1, 0) ∧
      (runOf (twoFileHost bareVertexObj crossMtl) bareVertexObj).1.map (fun mesh => mesh.mat_hash) =
        [0] ∧
      (runOf (twoFileHost bareVertexObj crossMtl) bareVertexObj).2.mats.map
        (fun mat => mat.name_hash) = [hash (bytes "X"), hash (bytes "Ad")] ∧
      hash (bytes "X") ≠ hash (bytes "Ad") ∧ hash (bytes "Ad") ≠ 0 ∧
      (LoadObjDry (F := ℚ) (twoFileHost bareVertexObj crossMtl) (bytes "a.obj")).map
        (fun model => model.meshMaterial) = some [0] := by
  decide

/-- C23 (the code at the failing input): on the buffer `o`, NUL, the one call
of `LoadObjMesh` leaves the cursor behind the terminator, on the bytes that lie
there, and so does the call of `LoadMtlMat` on `newmtl A`, NUL.  The loops of
`LoadObjDry` and `ReadMtl` go on there: for the same file `o` the model has one
mesh when a NUL follows the terminator and two when the bytes `o`, newline
follow it, and for the same file `newmtl A` the list has one record or two. -/
theorem driver_loops_run_behind_terminator :
    (LoadObjMesh (twoFileHost [] []) (sampleFile ([111, 0] ++ bytes "o\n")) 0).2.data =
        bytes "o\n" ∧
      (LoadMtlMat (F := ℚ) (bytes "newmtl A" ++ 0 :: bytes "newmtl B\n")).2 = bytes "newmtl B\n" ∧
      (LoadObjDry (F := ℚ) (twoFileHost [111, 0, 0] []) (bytes "a.obj")).map
        (fun model => model.meshCount) = some 1 ∧
      (LoadObjDry (F := ℚ) (twoFileHost ([111, 0] ++ bytes "o\n") []) (bytes "a.obj")).map
        (fun model => model.meshCount) = some 2 ∧
      (ReadMtl (twoFileHost [] (bytes "newmtl A" ++ [0, 0])) (sampleFile [])
        (bytes "m.mtl")).mats.length = 1 ∧
      (ReadMtl (twoFileHost [] (bytes "newmtl A" ++ 0 :: bytes "newmtl B\n")) (sampleFile [])
        (bytes "m.mtl")).mats.length = 2 := by
  decide

end Rlobj
